import Mathlib

/-! # Master population table (binary search implementation)

A shallow embedding of
`neural_modelling/src/neuron/population_table/population_table_binary_search_impl.c`
and theorems about it.

Conventions of the embedding

* `uint32_t` and `uint16_t` values are natural numbers; every operation that can
  leave the machine range is followed by an explicit `% 4294967296` (32 bit) or
  `% 65536` (16 bit).
* The file-scope variables of the C file are the fields of `State`; the pair
  `master_population_table` / `master_population_table_length` is one list.
* A read outside an array has no defined result in C: every array read is
  `xs[i]?` and the function returns `none` when a read is out of range.
* The locations behind the pointer arguments of the API functions are threaded
  explicitly: their old contents go in, their new contents come out.
* `N_SYNAPSE_ROW_HEADER_WORDS` comes from `neuron/synapse_row.h`, which is not
  part of the sources at hand; it is the parameter `hw` throughout.

The namespace `NeuronRecording` holds the embedding of `reset_record_counter` of
`neural_modelling/src/neuron/neuron_recording.c`; its theorems close the file.
-/

namespace PopulationTable

/-! ## Constants -/

/-- The number of bits of address (`N_ADDRESS_BITS`). -/
def N_ADDRESS_BITS : Nat := 23

/-- The shift to apply to indirect addresses (`INDIRECT_ADDRESS_SHIFT`). -/
def INDIRECT_ADDRESS_SHIFT : Nat := 4

/-- An invalid address and row length: `((1 << N_ADDRESS_BITS) - 1)`. -/
def INVALID_ADDRESS : Nat := (1 <<< N_ADDRESS_BITS) - 1

/-- The maximum row length supported in words (`MAX_ROW_LENGTH`). -/
def MAX_ROW_LENGTH : Nat := 256

/-- Bitwise complement of a `uint32_t`. -/
def u32_not (x : Nat) : Nat := 4294967295 - x % 4294967296

/-! ## Packed records -/

/-- An entry in the master population table: the words `key` and `mask`, and a
third word `bits` that holds the bit-fields `start : 15`, `extra_info_flag : 1`
and `count : 16`, first declared field in the least significant bits. -/
structure master_population_table_entry where
  key : Nat
  mask : Nat
  bits : Nat
deriving DecidableEq, Repr

/-- Bit-field `start : 15`, the index into the address list for this entry. -/
def master_population_table_entry.start (e : master_population_table_entry) : Nat :=
  e.bits % 32768

/-- Bit-field `extra_info_flag : 1`. -/
def master_population_table_entry.extra_info_flag (e : master_population_table_entry) : Bool :=
  decide ((e.bits / 32768) % 2 = 1)

/-- Bit-field `count : 16`, the number of entries in the address list. -/
def master_population_table_entry.count (e : master_population_table_entry) : Nat :=
  (e.bits / 65536) % 65536

/-- A packed extra info: `core_mask : 16`, `mask_shift : 5`, `n_neurons : 11`. -/
structure extra_info where
  core_mask : Nat
  mask_shift : Nat
  n_neurons : Nat
deriving DecidableEq, Repr

/-- A packed address and row length: `row_length : 8`, `address : 23`,
`is_single : 1`. -/
structure address_and_row_length where
  row_length : Nat
  address : Nat
  is_single : Bool
deriving DecidableEq, Repr

/-- An entry in the address list is one 32-bit word, read through either member
of the union. -/
abbrev address_list_entry := Nat

/-- Union member `addr` of an address list word. -/
def address_list_entry.addr (w : address_list_entry) : address_and_row_length :=
  { row_length := w % 256
    address := (w / 256) % 8388608
    is_single := decide ((w / 2147483648) % 2 = 1) }

/-- Union member `extra` of an address list word. -/
def address_list_entry.extra (w : address_list_entry) : extra_info :=
  { core_mask := w % 65536
    mask_shift := (w / 65536) % 32
    n_neurons := (w / 2097152) % 2048 }

/-- Modelled from the spec: `bit_field_t` of `bit_field.h` (not among the
sources) is a bit-vector indexed by neuron id. -/
abbrev bit_field_t := List Bool

/-- Modelled from the spec: `bit_field_test` of `bit_field.h` (not among the
sources) returns the bit at the given index; an index outside the vector is an
out-of-range read. -/
def bit_field_test (b : bit_field_t) (n : Nat) : Option Bool := b[n]?

/-! ## State -/

/-- The file-scope variables of the implementation. -/
structure State where
  master_population_table : List master_population_table_entry
  address_list : List address_list_entry
  synaptic_rows_base_address : Nat
  direct_rows_base_address : Nat
  ghost_pop_table_searches : Nat
  invalid_master_pop_hits : Nat
  last_spike : Nat
  last_neuron_id : Nat
  next_item : Nat
  items_to_go : Nat
  bit_field_filtered_packets : Nat
  connectivity_bit_field : Option (List (Option bit_field_t))
deriving DecidableEq, Repr

/-- The locations `*spike`, `*row_address` and `*n_bytes_to_transfer` that
`population_table_get_next_address` writes through its pointer arguments. -/
structure Outputs where
  spike : Nat
  row_address : Nat
  n_bytes_to_transfer : Nat
deriving DecidableEq, Repr

/-! ## Support functions -/

/-- Get the direct row address out of an entry. -/
def get_direct_address (s : State) (entry : address_and_row_length) : Nat :=
  (entry.address + s.direct_rows_base_address) % 4294967296

/-- Get the standard address offset out of an entry (units of four words). -/
def get_offset (entry : address_and_row_length) : Nat :=
  (entry.address <<< INDIRECT_ADDRESS_SHIFT) % 4294967296

/-- Get the standard address out of an entry. -/
def get_address (s : State) (entry : address_and_row_length) : Nat :=
  (get_offset entry + s.synaptic_rows_base_address) % 4294967296

/-- Get the length of the row from the entry (stored offset by 1). -/
def get_row_length (entry : address_and_row_length) : Nat :=
  (entry.row_length + 1) % 4294967296

/-- Get the total number of neurons on cores which come before this core. -/
def get_core_sum (extra : extra_info) (spike : Nat) : Nat :=
  (((spike >>> extra.mask_shift) &&& extra.core_mask) * extra.n_neurons) % 4294967296

/-- Get the source neuron ID for a spike given its table entry (without extra
info). -/
def get_neuron_id (entry : master_population_table_entry) (spike : Nat) : Nat :=
  spike &&& u32_not entry.mask

/-- Get the neuron id of the neuron on the source core, for a spike with extra
info. -/
def get_local_neuron_id (entry : master_population_table_entry) (extra : extra_info)
    (spike : Nat) : Nat :=
  spike &&& u32_not (entry.mask ||| ((extra.core_mask <<< extra.mask_shift) % 4294967296))

/-- Get the full source neuron id for a spike with extra info. -/
def get_extended_neuron_id (entry : master_population_table_entry) (extra : extra_info)
    (spike : Nat) : Nat :=
  (get_local_neuron_id entry extra spike + get_core_sum extra spike) % 4294967296

/-! ## API functions -/

/-- The `while (imin < imax)` loop of
`population_table_position_in_the_master_pop_array`. The first argument bounds
the number of iterations; `none` is an unfinished loop or an out-of-range read,
`some none` is `return false`, `some (some p)` is `*position = p; return true`. -/
def position_loop (table : List master_population_table_entry) (spike : Nat) :
    Nat → Nat → Nat → Option (Option Nat)
  | 0, _, _ => none
  | fuel + 1, imin, imax =>
    if imin < imax then
      let imid := ((imax + imin) % 4294967296) >>> 1
      match table[imid]? with
      | none => none
      | some entry =>
        if (spike &&& entry.mask) = entry.key then
          some (some imid)
        else if entry.key < spike then
          position_loop table spike fuel (imid + 1) imax
        else
          position_loop table spike fuel imin imid
    else
      some none

/-- Binary search for the table entry of a spike. Every iteration that does not
wrap shrinks `imax - imin`, so `length + 1` iterations are allowed for. -/
def population_table_position_in_the_master_pop_array (s : State) (spike : Nat) :
    Option (Option Nat) :=
  position_loop s.master_population_table spike (s.master_population_table.length + 1)
    0 s.master_population_table.length

/-- What one pass of the `do` body of `population_table_get_next_address` stores
through the pointer arguments for the item it read, and its `is_valid`. -/
def emit (hw : Nat) (s : State) (item : address_and_row_length) (out : Outputs) :
    Bool × Outputs :=
  if item.address ≠ INVALID_ADDRESS then
    if item.is_single then
      (true, { out with
        row_address := (get_direct_address s item + (s.last_neuron_id * 4) % 4294967296)
          % 4294967296
        n_bytes_to_transfer := 0 })
    else
      let row_length := get_row_length item
      let block_address := get_address s item
      let stride := (row_length + hw) % 4294967296
      let neuron_offset := (s.last_neuron_id * stride * 4) % 4294967296
      (true, { spike := s.last_spike
               row_address := (block_address + neuron_offset) % 4294967296
               n_bytes_to_transfer := (stride * 4) % 4294967296 })
  else
    (false, out)

/-- The two statements `next_item++; items_to_go--;` on the `uint16_t` cursor. -/
def advance (s : State) : State :=
  { s with
    next_item := (s.next_item + 1) % 65536
    items_to_go := (s.items_to_go + 65535) % 65536 }

/-- The `do ... while (!is_valid && (items_to_go > 0))` loop of
`population_table_get_next_address`; the first argument bounds the number of
passes. -/
def get_next_loop (hw : Nat) : Nat → State → Outputs → Option (Bool × State × Outputs)
  | 0, _, _ => none
  | fuel + 1, s, out =>
    match s.address_list[s.next_item]? with
    | none => none
    | some w =>
      let r := emit hw s (address_list_entry.addr w) out
      let s1 := advance s
      if r.1 = false ∧ 0 < s1.items_to_go then
        get_next_loop hw fuel s1 r.2
      else
        some (r.1, s1, r.2)

/-- Embedding of `population_table_get_next_address`. Every pass of the loop
decrements `items_to_go`, so `items_to_go` passes are allowed for. -/
def population_table_get_next_address (hw : Nat) (s : State) (out : Outputs) :
    Option (Bool × State × Outputs) :=
  if s.items_to_go ≤ 0 then
    some (false, s, out)
  else
    get_next_loop hw s.items_to_go s out

/-- Lines 330-338 of `population_table_get_first_address`: the cursor for the
entry found. -/
def set_cursor (s : State) (entry : master_population_table_entry) (spike : Nat) :
    Option State :=
  let s1 := { s with
    last_spike := spike
    next_item := entry.start
    items_to_go := entry.count }
  if entry.extra_info_flag then
    match s1.address_list[s1.next_item]? with
    | none => none
    | some w =>
      some { s1 with
        next_item := (s1.next_item + 1) % 65536
        last_neuron_id := get_extended_neuron_id entry (address_list_entry.extra w) spike }
  else
    some { s1 with last_neuron_id := get_neuron_id entry spike }

/-- Lines 343-359 of `population_table_get_first_address`: `some true` when the
bit field for `position` exists and the bit of `last_neuron_id` is clear. -/
def filter_rejects (s : State) (position : Nat) : Option Bool :=
  match s.connectivity_bit_field with
  | none => some false
  | some fields =>
    match fields[position]? with
    | none => none
    | some none => some false
    | some (some field) =>
      match bit_field_test field s.last_neuron_id with
      | none => none
      | some bit => some (!bit)

/-- Embedding of `population_table_get_first_address`. `row_address` and
`n_bytes_to_transfer` are the contents of the caller's locations; the local
`local_spike_id` is only written, never read. -/
def population_table_get_first_address (hw : Nat) (s : State) (spike : Nat)
    (row_address n_bytes_to_transfer : Nat) : Option (Bool × State × Nat × Nat) :=
  match population_table_position_in_the_master_pop_array s spike with
  | none => none
  | some none =>
    some (false,
      { s with invalid_master_pop_hits := (s.invalid_master_pop_hits + 1) % 4294967296 },
      row_address, n_bytes_to_transfer)
  | some (some position) =>
    match s.master_population_table[position]? with
    | none => none
    | some entry =>
      match set_cursor s entry spike with
      | none => none
      | some s2 =>
        match filter_rejects s2 position with
        | none => none
        | some true =>
          some (false,
            { s2 with
              bit_field_filtered_packets := (s2.bit_field_filtered_packets + 1) % 4294967296 },
            row_address, n_bytes_to_transfer)
        | some false =>
          match population_table_get_next_address hw s2
              { spike := 0, row_address := row_address,
                n_bytes_to_transfer := n_bytes_to_transfer } with
          | none => none
          | some (get_next, s3, out) =>
            if get_next = false then
              some (false,
                { s3 with
                  ghost_pop_table_searches := (s3.ghost_pop_table_searches + 1) % 4294967296 },
                out.row_address, out.n_bytes_to_transfer)
            else
              some (true, s3, out.row_address, out.n_bytes_to_transfer)

/-- Embedding of `population_table_get_ghost_pop_table_searches`. -/
def population_table_get_ghost_pop_table_searches (s : State) : Nat :=
  s.ghost_pop_table_searches

/-- Embedding of `population_table_get_invalid_master_pop_hits`. -/
def population_table_get_invalid_master_pop_hits (s : State) : Nat :=
  s.invalid_master_pop_hits

/-- Embedding of `population_table_set_connectivity_bit_field`; `none` is the
null pointer. -/
def population_table_set_connectivity_bit_field (s : State)
    (connectivity_bit_fields : Option (List (Option bit_field_t))) : State :=
  { s with connectivity_bit_field := connectivity_bit_fields }

/-- Embedding of `population_table_length`. -/
def population_table_length (s : State) : Nat :=
  s.master_population_table.length

/-- Embedding of `population_table_get_spike_for_index`. -/
def population_table_get_spike_for_index (s : State) (index : Nat) : Option Nat :=
  match s.master_population_table[index]? with
  | none => none
  | some entry => some entry.key

/-- Embedding of `population_table_get_mask_for_entry`. -/
def population_table_get_mask_for_entry (s : State) (index : Nat) : Option Nat :=
  match s.master_population_table[index]? with
  | none => none
  | some entry => some entry.mask

/-- Embedding of `population_table_get_filtered_packet_count`. -/
def population_table_get_filtered_packet_count (s : State) : Nat :=
  s.bit_field_filtered_packets

/-- The inner loop `for (uint16_t j = start; j < (start + count); j++)` of
`print_master_population_table`, from index `j`; `bound` is the `int` value
`start + count`. Each pass reads `address_list[j]`; the log messages it writes
are no part of the state. The first argument bounds the number of passes: `none`
is a loop that does not finish, or an out-of-range read. -/
def print_entry_loop (s : State) (bound : Nat) : Nat → Nat → Option Unit
  | 0, _ => none
  | fuel + 1, j =>
    if j < bound then
      match s.address_list[j]? with
      | none => none
      | some _ => print_entry_loop s bound fuel ((j + 1) % 65536)
    else
      some ()

/-- The body of the outer loop of `print_master_population_table` for one
entry: the read of the extra info, when the entry has one, and the inner loop.
An inner loop that leaves makes `count` passes, so `count + 1` are allowed for;
one whose bound is 65536 or more never leaves, since `j` is a `uint16_t`. -/
def print_entry (s : State) (entry : master_population_table_entry) : Option Unit :=
  let count := entry.count
  let start := entry.start
  if entry.extra_info_flag then
    match s.address_list[start]? with
    | none => none
    | some _ => print_entry_loop s (start + 1 + count) (count + 1) ((start + 1) % 65536)
  else
    print_entry_loop s (start + count) (count + 1) (start % 65536)

/-- The outer loop `for (uint32_t i = 0; i < master_population_table_length; i++)`
of `print_master_population_table`, from index `i`; the first argument bounds
the number of passes. -/
def print_table_loop (s : State) : Nat → Nat → Option Unit
  | 0, _ => none
  | fuel + 1, i =>
    if i < s.master_population_table.length then
      match s.master_population_table[i]? with
      | none => none
      | some entry =>
        match print_entry s entry with
        | none => none
        | some _ => print_table_loop s fuel ((i + 1) % 4294967296)
    else
      some ()

/-- Embedding of `print_master_population_table`: `some ()` when the function
returns, `none` when it reads out of range or does not return. The outer loop
makes one pass per entry, so `length + 1` passes are allowed for. -/
def print_master_population_table (s : State) : Option Unit :=
  print_table_loop s (s.master_population_table.length + 1) 0

/-- The table entries that `spin1_memcpy` finds in a run of words: three words
(`key`, `mask`, bit-fields) per entry. -/
def entries_of_words : List Nat → List master_population_table_entry
  | key :: mask :: bits :: rest =>
    { key := key, mask := mask, bits := bits } :: entries_of_words rest
  | _ => []

/-- Embedding of `population_table_initialise`. `table_address` is the blob of
words behind the pointer; `malloc_table` and `malloc_list` tell whether the
first and the second `spin1_malloc` would succeed. The result `some none` is
`return false`, after which the caller aborts; `some (some (s, n))` is
`return true` with the new state and `*row_max_n_words = n`.

The result `none` stands for a read outside the blob, and also for a table whose
byte size `length * 12` does not fit 32 bits: the C code then stores a length
larger than the array it allocates and copies, which the single list of this
embedding cannot hold. When a byte size is 0 no allocation takes place and the
pointer keeps its value; a table of length 0 is the empty list. The function
ends with the call of `print_master_population_table`: the result is `none` also
when that call reads out of range or does not return. -/
def population_table_initialise (hw : Nat) (s : State) (table_address : List Nat)
    (synapse_rows_address direct_rows_address : Nat) (malloc_table malloc_list : Bool) :
    Option (Option (State × Nat)) :=
  match table_address[0]? with
  | none => none
  | some length =>
    if 4294967296 ≤ length * 12 then
      none
    else
      let n_master_pop_bytes := (length * 12) % 4294967296
      let n_master_pop_words := n_master_pop_bytes >>> 2
      if n_master_pop_bytes ≠ 0 ∧ malloc_table = false then
        some none
      else
        match table_address[1]? with
        | none => none
        | some address_list_length =>
          let n_address_list_bytes := (address_list_length * 4) % 4294967296
          if n_address_list_bytes ≠ 0 ∧ malloc_list = false then
            some none
          else if table_address.length < 2 + n_master_pop_words + n_address_list_bytes / 4 then
            none
          else
            let s1 : State :=
              { s with
                master_population_table :=
                  entries_of_words ((table_address.drop 2).take n_master_pop_words)
                address_list :=
                  if n_address_list_bytes ≠ 0 then
                    (table_address.drop (2 + n_master_pop_words)).take
                      (n_address_list_bytes / 4)
                  else
                    s.address_list
                synaptic_rows_base_address := synapse_rows_address
                direct_rows_base_address := direct_rows_address }
            match print_master_population_table s1 with
            | none => none
            | some _ => some (some (s1, (MAX_ROW_LENGTH + hw) % 4294967296))

/-! ## Definitions used to state the properties -/

/-- Follows the words of the specification (4.5, `get_next_address`): the pair
`(row_address, transfer_size)` for an address record and a neuron id. -/
def spec_descriptor (hw direct_base indirect_base global_id : Nat)
    (record : address_and_row_length) : Nat × Nat :=
  if record.is_single then
    ((direct_base + record.address + global_id * 4) % 4294967296, 0)
  else
    let stride_words := (record.row_length + 1) + hw
    ((indirect_base + (record.address <<< 4) + global_id * stride_words * 4) % 4294967296,
      (stride_words * 4) % 4294967296)

/-- The external driver of section 4.5 of the specification: calls
`population_table_get_next_address` until it returns false, at most `calls`
times. Returns the pairs `(row_address, n_bytes_to_transfer)` of the calls that
returned true, in call order, and whether the call that returned false was
reached. -/
def drain (hw : Nat) : Nat → State → Outputs → Option (List (Nat × Nat) × Bool)
  | 0, _, _ => some ([], false)
  | calls + 1, s, out =>
    match population_table_get_next_address hw s out with
    | none => none
    | some (false, _, _) => some ([], true)
    | some (true, s1, out1) =>
      match drain hw calls s1 out1 with
      | none => none
      | some (ds, done) => some ((out1.row_address, out1.n_bytes_to_transfer) :: ds, done)

/-- The number of address list slots taken by the extra info of an entry:
`extra_info_flag` as a number. -/
def extra_slots (e : master_population_table_entry) : Nat :=
  if e.extra_info_flag then 1 else 0

/-- The slots `[start, start + extra_info_flag + count)` of the entry are slots
of the address list, and the end of the range is at most 65535, the largest
value of the `uint16_t` indices `j` and `next_item`. -/
def slice_readable (s : State) (e : master_population_table_entry) : Prop :=
  e.start + extra_slots e + e.count ≤ 65535 ∧
    ∀ (k : Nat), k < extra_slots e + e.count → ∃ (w : Nat), s.address_list[e.start + k]? = some w

/-- Every entry of the table has its slots in the address list, below 65536. -/
def loadable (s : State) : Prop :=
  ∀ (p : Nat) (e : master_population_table_entry),
    s.master_population_table[p]? = some e → slice_readable s e

/-- The neuron id that lines 333-338 of `population_table_get_first_address`
store in `last_neuron_id`, for the entry found and the word `x` in slot
`entry.start`. -/
def cursor_neuron_id (e : master_population_table_entry) (x : address_list_entry)
    (spike : Nat) : Nat :=
  if e.extra_info_flag then
    get_extended_neuron_id e (address_list_entry.extra x) spike
  else
    get_neuron_id e spike

/-- The table is sorted ascending by key: `key[i] <= key[i+1]` for adjacent
entries. -/
abbrev sorted_by_key (table : List master_population_table_entry) : Prop :=
  List.Chain' (fun a b => a.key ≤ b.key) table

/-- Every entry matches its own key: `key & mask == key`. -/
abbrev self_matching (table : List master_population_table_entry) : Prop :=
  ∀ e ∈ table, (e.key &&& e.mask) = e.key

/-- No 32-bit spike matches the `(key, mask)` pairs of two entries. -/
def disjoint_groups (table : List master_population_table_entry) : Prop :=
  ∀ (spike i j : Nat) (ei ej : master_population_table_entry),
    spike < 4294967296 → table[i]? = some ei → table[j]? = some ej →
    (spike &&& ei.mask) = ei.key → (spike &&& ej.mask) = ej.key → i = j

/-- Every 32-bit spike that an entry matches is at most the key of every later
entry. -/
def groups_below_later_keys (table : List master_population_table_entry) : Prop :=
  ∀ (spike i j : Nat) (ei ej : master_population_table_entry),
    spike < 4294967296 → i < j → table[i]? = some ei → table[j]? = some ej →
    (spike &&& ei.mask) = ei.key → spike ≤ ej.key

/-- Follows the external interface of the specification: the third word of a
table entry, `packed(start:15|extra_flag:1|count:16)`. -/
def pack_entry_bits (start : Nat) (extra_flag : Bool) (count : Nat) : Nat :=
  start + (if extra_flag then 32768 else 0) + count * 65536

/-- Follows the external interface of the specification: an address list word,
`packed(row_length:8|address:23|is_single:1)`. -/
def pack_address_and_row_length (row_length address : Nat) (is_single : Bool) : Nat :=
  row_length + address * 256 + (if is_single then 2147483648 else 0)

/-- Follows the external interface of the specification: an address list word in
the extra info role, `packed(core_mask:16|mask_shift:5|n_neurons:11)`. -/
def pack_extra_info (core_mask mask_shift n_neurons : Nat) : Nat :=
  core_mask + mask_shift * 65536 + n_neurons * 2097152

/-! ## Example states -/

/-- The end-to-end scenario of the specification (section 8): one entry
`key=0x4, mask=0xFFFFFFFC, start=0, count=2`, no extra info, and the address
list `[{address=10, row_length_minus_one=3}, INVALID]`. -/
def scenario : State :=
  { master_population_table :=
      [{ key := 0x4, mask := 0xFFFFFFFC, bits := pack_entry_bits 0 false 2 }]
    address_list :=
      [pack_address_and_row_length 3 10 false,
       pack_address_and_row_length 0 INVALID_ADDRESS false]
    synaptic_rows_base_address := 0x60000000
    direct_rows_base_address := 0x70000000
    ghost_pop_table_searches := 0
    invalid_master_pop_hits := 0
    last_spike := 0
    last_neuron_id := 0
    next_item := 0
    items_to_go := 0
    bit_field_filtered_packets := 0
    connectivity_bit_field := none }

/-- A cursor over the slice `[INVALID, valid_record]` for neuron id 2. -/
def placeholder_slice : State :=
  { scenario with
    address_list :=
      [pack_address_and_row_length 0 INVALID_ADDRESS false,
       pack_address_and_row_length 3 10 false]
    last_neuron_id := 2
    next_item := 0
    items_to_go := 2 }

/-- The table `{(0b00, 0b11) -> A, (0b10, 0b11) -> B}` of the specification
(section 8). -/
def two_entries : State :=
  { scenario with
    master_population_table :=
      [{ key := 0b00, mask := 0b11, bits := pack_entry_bits 0 false 1 },
       { key := 0b10, mask := 0b11, bits := pack_entry_bits 1 false 1 }] }

/-- Initial contents of the caller's output locations in the examples. -/
def no_outputs : Outputs :=
  { spike := 0, row_address := 0, n_bytes_to_transfer := 0 }

/-- A sorted table with disjoint groups whose first mask has a don't-care bit
above a significant bit: entry 0 matches the spikes 0 and 4, entry 1 matches
the spike 1. -/
def gap_mask_table : State :=
  { scenario with
    master_population_table :=
      [{ key := 0, mask := 0xFFFFFFFB, bits := pack_entry_bits 0 false 1 },
       { key := 1, mask := 0xFFFFFFFF, bits := pack_entry_bits 1 false 1 }] }

/-- A sorted table with two prefix masks: entry 0 matches the spikes 0 to 3,
entry 1 matches the spikes 4 to 7. -/
def prefix_mask_table : State :=
  { scenario with
    master_population_table :=
      [{ key := 0, mask := 0xFFFFFFFC, bits := pack_entry_bits 0 false 1 },
       { key := 4, mask := 0xFFFFFFFC, bits := pack_entry_bits 1 false 1 }] }

/-- One entry with extra info: two source cores of 10 neurons each share the
key 0; bit 4 of the spike is the core index, bits 0-3 are the neuron id on the
core. The bit field of the entry has bit 13 set and every other bit clear. -/
def multi_core : State :=
  { scenario with
    master_population_table :=
      [{ key := 0, mask := 0xFFFFFFE0, bits := pack_entry_bits 0 true 1 }]
    address_list := [pack_extra_info 1 4 10, pack_address_and_row_length 3 10 false]
    connectivity_bit_field := some [some (List.replicate 13 false ++ [true])] }

/-- The state of the file-scope variables at program start: null pointers and
the initialisers `= 0` and `= NULL` of the C file. -/
def initial_state : State :=
  { master_population_table := []
    address_list := []
    synaptic_rows_base_address := 0
    direct_rows_base_address := 0
    ghost_pop_table_searches := 0
    invalid_master_pop_hits := 0
    last_spike := 0
    last_neuron_id := 0
    next_item := 0
    items_to_go := 0
    bit_field_filtered_packets := 0
    connectivity_bit_field := none }

/-- The load-time blob of `multi_core`: `N = 1`, `M = 2`, one table entry and
two address list words. -/
def multi_core_blob : List Nat :=
  [1, 2, 0, 0xFFFFFFE0, pack_entry_bits 0 true 1,
   pack_extra_info 1 4 10, pack_address_and_row_length 3 10 false]

/-- The load-time blob of `scenario`: `N = 1`, `M = 2`. -/
def scenario_blob : List Nat :=
  [1, 2, 0x4, 0xFFFFFFFC, pack_entry_bits 0 false 2,
   pack_address_and_row_length 3 10 false, pack_address_and_row_length 0 INVALID_ADDRESS false]

/-- A load-time blob with `N = 1` and `M = 0`: the entry has `start = 0` and
`count = 5`, and there is no address list for its slots. -/
def missing_list_blob : List Nat :=
  [1, 0, 0x4, 0xFFFFFFFC, pack_entry_bits 0 false 5]

/-- A load-time blob with `N = 1` and `M = 65536`: the entry has `start = 1` and
`count = 65535`, so that its slots `[1, 65536)` are slots of the address list
and end at 65536. -/
def long_slice_blob : List Nat :=
  1 :: 65536 :: 0x4 :: 0xFFFFFFFC :: pack_entry_bits 1 false 65535 ::
    List.replicate 65536 (pack_address_and_row_length 3 10 false)

/-- The end-to-end scenario with a direct row in slot 1: the entry of spike
`0x6` owns an indirect record followed by a single record. -/
def direct_row : State :=
  { scenario with
    address_list :=
      [pack_address_and_row_length 3 10 false,
       pack_address_and_row_length 0 5 true] }

/-- The state `s` with other statistics counters and another bit field set. -/
def reframe (s : State) (ghost invalid filtered : Nat)
    (fields : Option (List (Option bit_field_t))) : State :=
  { s with
    ghost_pop_table_searches := ghost
    invalid_master_pop_hits := invalid
    bit_field_filtered_packets := filtered
    connectivity_bit_field := fields }

/-- What a call of `population_table_get_first_address` lets the caller observe
apart from the statistics counters: the result, the contents of the two output
locations, and the cursor `last_spike`, `last_neuron_id`, `next_item`,
`items_to_go`. -/
def observation (res : Bool × State × Nat × Nat) :
    Bool × Nat × Nat × Nat × Nat × Nat × Nat :=
  (res.1, res.2.2.1, res.2.2.2, res.2.1.last_spike, res.2.1.last_neuron_id,
    res.2.1.next_item, res.2.1.items_to_go)

/-- The state `multi_core` before a bit field set is attached. -/
def unfiltered_multi_core : State :=
  { multi_core with connectivity_bit_field := none }

/-- The condition of a ghost search: the search locates an entry for the spike,
the filter does not reject the spike, and every record of the entry's slice
`[start + extra_info_flag, start + extra_info_flag + count)` is a placeholder
(which is the case when `count` is 0). -/
def ghost_condition (s : State) (spike : Nat) : Prop :=
  ∃ (p : Nat) (e : master_population_table_entry) (x : Nat),
    population_table_position_in_the_master_pop_array s spike = some (some p) ∧
    s.master_population_table[p]? = some e ∧
    (e.extra_info_flag = true → s.address_list[e.start]? = some x) ∧
    filter_rejects { s with last_neuron_id := cursor_neuron_id e x spike } p = some false ∧
    ∀ i, i < e.count → ∃ v, s.address_list[e.start + extra_slots e + i]? = some v ∧
      (address_list_entry.addr v).address = INVALID_ADDRESS

/-- The end-to-end scenario with an entry of three records, all of them
placeholders. -/
def three_placeholders : State :=
  { scenario with
    master_population_table :=
      [{ key := 0x4, mask := 0xFFFFFFFC, bits := pack_entry_bits 0 false 3 }]
    address_list :=
      [pack_address_and_row_length 0 INVALID_ADDRESS false,
       pack_address_and_row_length 0 INVALID_ADDRESS false,
       pack_address_and_row_length 0 INVALID_ADDRESS false] }

/-- The end-to-end scenario with the slice `[INVALID, valid_record]`. -/
def placeholder_first : State :=
  { scenario with
    address_list :=
      [pack_address_and_row_length 0 INVALID_ADDRESS false,
       pack_address_and_row_length 3 10 false] }

/-- The load-time blob of `three_placeholders`: `N = 1`, `M = 3`. -/
def three_placeholders_blob : List Nat :=
  [1, 3, 0x4, 0xFFFFFFFC, pack_entry_bits 0 false 3,
   pack_address_and_row_length 0 INVALID_ADDRESS false,
   pack_address_and_row_length 0 INVALID_ADDRESS false,
   pack_address_and_row_length 0 INVALID_ADDRESS false]

/-- The load-time blob of `placeholder_first`: `N = 1`, `M = 2`. -/
def placeholder_first_blob : List Nat :=
  [1, 2, 0x4, 0xFFFFFFFC, pack_entry_bits 0 false 2,
   pack_address_and_row_length 0 INVALID_ADDRESS false, pack_address_and_row_length 3 10 false]

/-- A call of one of the API functions that change the state, with the contents
of the locations behind its pointer arguments. -/
inductive Call where
  | get_first_address (spike row_address n_bytes_to_transfer : Nat)
  | get_next_address (out : Outputs)
  | set_connectivity_bit_field (fields : Option (List (Option bit_field_t)))

/-- The state after one call. -/
def call (hw : Nat) (s : State) : Call → Option State
  | Call.get_first_address spike row_address n_bytes_to_transfer =>
    match population_table_get_first_address hw s spike row_address n_bytes_to_transfer with
    | none => none
    | some res => some res.2.1
  | Call.get_next_address out =>
    match population_table_get_next_address hw s out with
    | none => none
    | some res => some res.2.1
  | Call.set_connectivity_bit_field fields =>
    some (population_table_set_connectivity_bit_field s fields)

/-- The state after a sequence of calls. -/
def run (hw : Nat) : List Call → State → Option State
  | [], s => some s
  | c :: cs, s =>
    match call hw s c with
    | none => none
    | some s1 => run hw cs s1

/-- The three statistics counters as their read-only accessors return them:
ghost searches, invalid hits, filtered packets. -/
def counters (s : State) : Nat × Nat × Nat :=
  (population_table_get_ghost_pop_table_searches s,
    population_table_get_invalid_master_pop_hits s,
    population_table_get_filtered_packet_count s)

/-- The loop of `population_table_position_in_the_master_pop_array` once more,
returning next to its result the probes `(imin, imid, imax)` of its iterations
in order: `imid` is the index of the entry the iteration reads. -/
def position_loop_probes (table : List master_population_table_entry) (spike : Nat) :
    Nat → Nat → Nat → Option (Option Nat) × List (Nat × Nat × Nat)
  | 0, _, _ => (none, [])
  | fuel + 1, imin, imax =>
    if imin < imax then
      let imid := ((imax + imin) % 4294967296) >>> 1
      match table[imid]? with
      | none => (none, [(imin, imid, imax)])
      | some entry =>
        if (spike &&& entry.mask) = entry.key then
          (some (some imid), [(imin, imid, imax)])
        else if entry.key < spike then
          let r := position_loop_probes table spike fuel (imid + 1) imax
          (r.1, (imin, imid, imax) :: r.2)
        else
          let r := position_loop_probes table spike fuel imin imid
          (r.1, (imin, imid, imax) :: r.2)
    else
      (some none, [])

/-- The probes of `population_table_position_in_the_master_pop_array`. -/
def position_probes (s : State) (spike : Nat) : Option (Option Nat) × List (Nat × Nat × Nat) :=
  position_loop_probes s.master_population_table spike (s.master_population_table.length + 1)
    0 s.master_population_table.length

/-- Every mask is a prefix mask: `mask == ~(2^k - 1)` as a `uint32_t` for some
`0 <= k <= 32`. -/
def prefix_masks (table : List master_population_table_entry) : Prop :=
  ∀ e ∈ table, ∃ k, k ≤ 32 ∧ e.mask = u32_not (2 ^ k - 1)

/-- The matched ranges `[key, key + ~mask]` of two different entries are
disjoint. -/
def disjoint_ranges (table : List master_population_table_entry) : Prop :=
  ∀ (i j : Nat) (ei ej : master_population_table_entry),
    table[i]? = some ei → table[j]? = some ej → i ≠ j →
    ei.key + u32_not ei.mask < ej.key ∨ ej.key + u32_not ej.mask < ei.key

/-- The loop of `population_table_get_next_address` once more, returning next to
its result the slots of the address list that its passes decode as address
records, in order. -/
def get_next_loop_slots (hw : Nat) :
    Nat → State → Outputs → Option (Bool × State × Outputs) × List Nat
  | 0, _, _ => (none, [])
  | fuel + 1, s, out =>
    match s.address_list[s.next_item]? with
    | none => (none, [s.next_item])
    | some w =>
      let r := emit hw s (address_list_entry.addr w) out
      let s1 := advance s
      if r.1 = false ∧ 0 < s1.items_to_go then
        let t := get_next_loop_slots hw fuel s1 r.2
        (t.1, s.next_item :: t.2)
      else
        (some (r.1, s1, r.2), [s.next_item])

/-- The result of `population_table_get_next_address` and the slots it decodes. -/
def get_next_address_slots (hw : Nat) (s : State) (out : Outputs) :
    Option (Bool × State × Outputs) × List Nat :=
  if s.items_to_go ≤ 0 then
    (some (false, s, out), [])
  else
    get_next_loop_slots hw s.items_to_go s out

/-- A caller that makes `n` calls of `population_table_get_next_address` in a
row, on the same output locations: the results of the calls in order, the slots
decoded, the final state and the final contents of the output locations. -/
def get_next_calls (hw : Nat) :
    Nat → State → Outputs → Option (List Bool × List Nat × State × Outputs)
  | 0, s, out => some ([], [], s, out)
  | n + 1, s, out =>
    match get_next_address_slots hw s out with
    | (none, _) => none
    | (some (r, s1, out1), slots) =>
      match get_next_calls hw n s1 out1 with
      | none => none
      | some (rs, more, s2, out2) => some (r :: rs, slots ++ more, s2, out2)

/-- The states that the program can be in: any calls of
`population_table_get_first_address`, `population_table_get_next_address` and
`population_table_set_connectivity_bit_field` have been made from the state at
program start, or from a state in which a call of `population_table_initialise`
has returned true. -/
def reachable (hw : Nat) (s : State) : Prop :=
  (∃ (cs : List Call), run hw cs initial_state = some s) ∨
  ∃ (s0 : State) (blob : List Nat) (syn dir : Nat) (mt ml : Bool) (s1 : State) (n : Nat)
    (cs : List Call),
    population_table_initialise hw s0 blob syn dir mt ml = some (some (s1, n)) ∧
      run hw cs s1 = some s

end PopulationTable

/-! # Neuron recording

A shallow embedding of `reset_record_counter` of
`neural_modelling/src/neuron/neuron_recording.c`, with the conventions of the
embedding above. The arrays `recording_info` and `bitfield_info` are lists, read
and written at an index; a read or write outside a list, and a dereferenced null
pointer, make the function return `none`.
-/

namespace NeuronRecording

/-- Modelled from the spec: `recording_values_t` is declared in
`neuron_recording.h`, which is not among the sources: a time stamp followed by
the recorded data. -/
structure recording_values_t where
  time : Nat
  data : List Nat
deriving DecidableEq, Repr

/-- Modelled from the spec: `bitfield_values_t` is declared in
`neuron_recording.h`, which is not among the sources: a time stamp followed by
the words of the bit field. -/
structure bitfield_values_t where
  time : Nat
  bits : List Nat
deriving DecidableEq, Repr

/-- Modelled from the spec: `recording_info_t` is declared in
`neuron_recording.h`, which is not among the sources; the fields are those that
`neuron_recording.c` uses, `uint32_t` values and the pointer `values` (`none` is
`NULL`). -/
structure recording_info_t where
  element_size : Nat
  rate : Nat
  count : Nat
  increment : Nat
  size : Nat
  values : Option recording_values_t
deriving DecidableEq, Repr

/-- Modelled from the spec: `bitfield_info_t` is declared in
`neuron_recording.h`, which is not among the sources; the fields are those that
`neuron_recording.c` uses, `uint32_t` values and the pointer `values` (`none` is
`NULL`). -/
structure bitfield_info_t where
  rate : Nat
  count : Nat
  increment : Nat
  size : Nat
  n_words : Nat
  values : Option bitfield_values_t
deriving DecidableEq, Repr

/-- Modelled from the spec: `clear_bit_field` of `bit_field.h` (not among the
sources) sets the first `s` words of the bit field `b` to 0; on a bit field of
fewer than `s` words it writes out of range. -/
def clear_bit_field (b : List Nat) (s : Nat) : Option (List Nat) :=
  if s ≤ b.length then some (List.replicate s 0 ++ b.drop s) else none

/-- The file-scope variables of `neuron_recording.c` that `reset_record_counter`
uses. The buffer that `bitfield_values[i]` points into is the one behind
`bitfield_info[i].values`. -/
structure State where
  n_recorded_vars : Nat
  n_bitfield_vars : Nat
  recording_info : List recording_info_t
  bitfield_info : List bitfield_info_t
deriving DecidableEq, Repr

/-- The body of the first loop of `reset_record_counter` for the element `r` of
`recording_info`. -/
def reset_recording_info (r : recording_info_t) : recording_info_t :=
  if r.rate = 0 then
    { r with
      increment := 0
      count := 1 }
  else
    { r with
      increment := 1
      count := r.rate }

/-- The body of the second loop of `reset_record_counter` for the element `b` of
`bitfield_info`. -/
def reset_bitfield_info (b : bitfield_info_t) : Option bitfield_info_t :=
  if b.rate = 0 then
    some { b with
      increment := 0
      count := 1 }
  else
    match b.values with
    | none => none
    | some v =>
      match clear_bit_field v.bits b.n_words with
      | none => none
      | some cleared =>
        some { b with
          increment := 1
          count := b.rate
          values := some { v with bits := cleared } }

/-- The loop `for (uint32_t i = 0; i < n_recorded_vars; i++)` of
`reset_record_counter`, from index `i`; the first argument bounds the number of
iterations. -/
def reset_recording_loop (n_recorded_vars : Nat) :
    Nat → Nat → List recording_info_t → Option (List recording_info_t)
  | 0, _, _ => none
  | fuel + 1, i, info =>
    if i < n_recorded_vars then
      match info[i]? with
      | none => none
      | some r =>
        reset_recording_loop n_recorded_vars fuel ((i + 1) % 4294967296)
          (info.set i (reset_recording_info r))
    else
      some info

/-- The loop `for (uint32_t i = 0; i < n_bitfield_vars; i++)` of
`reset_record_counter`, from index `i`; the first argument bounds the number of
iterations. -/
def reset_bitfield_loop (n_bitfield_vars : Nat) :
    Nat → Nat → List bitfield_info_t → Option (List bitfield_info_t)
  | 0, _, _ => none
  | fuel + 1, i, info =>
    if i < n_bitfield_vars then
      match info[i]? with
      | none => none
      | some b =>
        match reset_bitfield_info b with
        | none => none
        | some b1 =>
          reset_bitfield_loop n_bitfield_vars fuel ((i + 1) % 4294967296) (info.set i b1)
    else
      some info

/-- Embedding of `reset_record_counter`. Each loop runs its body once per index
below the count, so `count + 1` iterations are allowed for. -/
def reset_record_counter (s : State) : Option State :=
  match reset_recording_loop s.n_recorded_vars (s.n_recorded_vars + 1) 0 s.recording_info with
  | none => none
  | some recording =>
    match reset_bitfield_loop s.n_bitfield_vars (s.n_bitfield_vars + 1) 0 s.bitfield_info with
    | none => none
    | some bitfield =>
      some { s with
        recording_info := recording
        bitfield_info := bitfield }

/-- Modelled from the spec: the statement `count += increment` on `uint32_t`
values, which the recording step of `neuron_recording.h` (not among the sources)
applies, applied `n` times to `count`. -/
def count_after (increment : Nat) : Nat → Nat → Nat
  | 0, count => count
  | n + 1, count => count_after increment n ((count + increment) % 4294967296)

/-- Two recorded variables, one switched off and one recorded every third time
step, and one bit field variable recorded every second time step, before the
reset. -/
def two_variables : State :=
  { n_recorded_vars := 2
    n_bitfield_vars := 1
    recording_info :=
      [{ element_size := 4, rate := 0, count := 7, increment := 5, size := 12, values := none },
       { element_size := 4, rate := 3, count := 0, increment := 0, size := 12,
         values := some { time := 0, data := [1, 2] } }]
    bitfield_info :=
      [{ rate := 2, count := 0, increment := 0, size := 8, n_words := 1,
         values := some { time := 0, bits := [5] } }] }

end NeuronRecording

namespace PopulationTable

/-! ## Lemmas on the binary search -/

theorem imid_eq (imin imax : Nat) (h : imax + imin < 4294967296) :
    ((imax + imin) % 4294967296) >>> 1 = (imax + imin) / 2 := by
  rw [Nat.mod_eq_of_lt h, Nat.shiftRight_eq_div_pow]

theorem position_loop_sound (table : List master_population_table_entry) (spike : Nat) :
    ∀ (fuel imin imax p : Nat), position_loop table spike fuel imin imax = some (some p) →
      ∃ e, table[p]? = some e ∧ (spike &&& e.mask) = e.key := by
  intro fuel
  induction fuel with
  | zero => intro imin imax p h; simp [position_loop] at h
  | succ n ih =>
    intro imin imax p h
    simp only [position_loop] at h
    split at h
    · split at h
      · simp at h
      · rename_i entry hentry
        split at h
        · rename_i hm
          simp only [Option.some.injEq] at h
          subst h
          exact ⟨entry, hentry, hm⟩
        · split at h
          · exact ih _ _ _ h
          · exact ih _ _ _ h
    · simp at h

theorem position_loop_total (table : List master_population_table_entry) (spike : Nat)
    (hlen : table.length < 2147483648) :
    ∀ (fuel imin imax : Nat), imax ≤ table.length → imax - imin < fuel →
      ∃ r, position_loop table spike fuel imin imax = some r ∧
        ∀ p, r = some p → imin ≤ p ∧ p < imax := by
  intro fuel
  induction fuel with
  | zero => intro imin imax _ h; omega
  | succ n ih =>
    intro imin imax hmax hfuel
    simp only [position_loop]
    split
    · rename_i hlt
      rw [imid_eq imin imax (by omega)]
      have hmid : (imax + imin) / 2 < table.length := by omega
      obtain ⟨entry, hentry⟩ : ∃ e, table[(imax + imin) / 2]? = some e :=
        ⟨table[(imax + imin) / 2], List.getElem?_eq_getElem hmid⟩
      simp only [hentry]
      split
      · exact ⟨_, rfl, fun p hp => by simp only [Option.some.injEq] at hp; omega⟩
      · split
        · obtain ⟨r, hr, hp⟩ := ih ((imax + imin) / 2 + 1) imax hmax (by omega)
          exact ⟨r, hr, fun p h => by have := hp p h; omega⟩
        · obtain ⟨r, hr, hp⟩ := ih imin ((imax + imin) / 2) (by omega) (by omega)
          exact ⟨r, hr, fun p h => by have := hp p h; omega⟩
    · exact ⟨none, rfl, fun p hp => by simp at hp⟩

theorem position_loop_complete (table : List master_population_table_entry) (spike : Nat)
    (hlen : table.length < 2147483648) (i : Nat)
    (hnav : ∀ j e, table[j]? = some e → (spike &&& e.mask) ≠ e.key →
      (e.key < spike → j < i) ∧ (¬ e.key < spike → i < j)) :
    ∀ (fuel imin imax : Nat), imax ≤ table.length → imax - imin < fuel →
      imin ≤ i → i < imax →
      ∃ p, position_loop table spike fuel imin imax = some (some p) := by
  intro fuel
  induction fuel with
  | zero => intro imin imax _ h; omega
  | succ n ih =>
    intro imin imax hmax hfuel hlo hhi
    simp only [position_loop]
    rw [if_pos (by omega), imid_eq imin imax (by omega)]
    have hmid : (imax + imin) / 2 < table.length := by omega
    obtain ⟨entry, hentry⟩ : ∃ e, table[(imax + imin) / 2]? = some e :=
      ⟨table[(imax + imin) / 2], List.getElem?_eq_getElem hmid⟩
    simp only [hentry]
    split
    · exact ⟨_, rfl⟩
    · rename_i hm
      have hn := hnav _ entry hentry hm
      split
      · rename_i hk
        have := hn.1 hk
        exact ih _ _ hmax (by omega) (by omega) hhi
      · rename_i hk
        have := hn.2 hk
        exact ih _ _ (by omega) (by omega) hlo (by omega)

theorem sorted_mono (table : List master_population_table_entry)
    (h : sorted_by_key table) :
    ∀ (i j : Nat) (a b : master_population_table_entry), i ≤ j →
      table[i]? = some a → table[j]? = some b → a.key ≤ b.key := by
  haveI : IsTrans master_population_table_entry (fun a b => a.key ≤ b.key) :=
    ⟨fun _ _ _ h1 h2 => Nat.le_trans h1 h2⟩
  have hp := List.chain'_iff_pairwise.mp h
  rw [List.pairwise_iff_getElem] at hp
  intro i j a b hij ha hb
  obtain ⟨hi, rfl⟩ := List.getElem?_eq_some_iff.mp ha
  obtain ⟨hj, rfl⟩ := List.getElem?_eq_some_iff.mp hb
  rcases Nat.lt_or_eq_of_le hij with hlt | heq
  · exact hp i j hi hj hlt
  · subst heq
    exact Nat.le_refl _
theorem two_entries_disjoint : disjoint_groups two_entries.master_population_table := by
  intro spike i j ei ej _ hi hj mi mj
  rcases i with _ | _ | i <;> rcases j with _ | _ | j <;>
    simp [two_entries] at hi hj <;> subst hi hj <;> simp_all

theorem gap_mask_table_disjoint : disjoint_groups gap_mask_table.master_population_table := by
  intro spike i j ei ej _ hi hj mi mj
  rcases i with _ | _ | i <;> rcases j with _ | _ | j <;>
    simp [gap_mask_table] at hi hj <;> subst hi hj <;> simp only at mi mj ⊢
  · have h := congrArg (fun z => z &&& 4294967291) mj
    simp only [Nat.and_assoc] at h
    have h2 : (4294967295 &&& 4294967291 : Nat) = 4294967291 := by decide
    rw [h2, mi] at h
    exact absurd h (by decide)
  · have h := congrArg (fun z => z &&& 4294967291) mi
    simp only [Nat.and_assoc] at h
    have h2 : (4294967295 &&& 4294967291 : Nat) = 4294967291 := by decide
    rw [h2, mj] at h
    exact absurd h (by decide)

theorem low_bits_of_prefix_match (spike k : Nat) (h32 : spike < 4294967296)
    (hm : (spike &&& 4294967292) = k) : spike = k ||| (spike &&& 3) := by
  have h1 : spike &&& (2 ^ 32 - 1) = spike := by
    rw [Nat.and_pow_two_sub_one_eq_mod]
    exact Nat.mod_eq_of_lt h32
  have h2 : (2 ^ 32 - 1 : Nat) = 4294967292 ||| 3 := by decide
  rw [h2, Nat.and_or_distrib_left, hm] at h1
  exact h1.symm

theorem prefix_mask_table_disjoint :
    disjoint_groups prefix_mask_table.master_population_table := by
  intro spike i j ei ej _ hi hj mi mj
  rcases i with _ | _ | i <;> rcases j with _ | _ | j <;>
    simp [prefix_mask_table] at hi hj <;> subst hi hj <;> simp_all

theorem prefix_mask_table_below :
    groups_below_later_keys prefix_mask_table.master_population_table := by
  intro spike i j ei ej h32 hij hi hj mi
  rcases i with _ | _ | i <;> rcases j with _ | _ | j <;>
    simp [prefix_mask_table] at hi hj hij
  subst hi hj
  simp only at mi ⊢
  have h := low_bits_of_prefix_match spike 0 h32 mi
  rw [Nat.zero_or] at h
  have h3 : spike &&& 3 ≤ 3 := Nat.and_le_right
  omega

/-! ## Lemmas on the iteration over the address list -/

theorem emit_invalid (hw : Nat) (s : State) (w : Nat) (out : Outputs)
    (h : (address_list_entry.addr w).address = INVALID_ADDRESS) :
    emit hw s (address_list_entry.addr w) out = (false, out) := by
  simp [emit, h]

theorem emit_valid (hw : Nat) (s : State) (w : Nat) (out : Outputs)
    (h : (address_list_entry.addr w).address ≠ INVALID_ADDRESS) :
    (emit hw s (address_list_entry.addr w) out).1 = true := by
  unfold emit
  rw [if_pos h]
  split <;> rfl

theorem get_next_invalid_more (hw : Nat) (s : State) (w : Nat) (out : Outputs)
    (h1 : 1 < s.items_to_go) (h2 : s.items_to_go ≤ 65536)
    (hr : s.address_list[s.next_item]? = some w)
    (hi : (address_list_entry.addr w).address = INVALID_ADDRESS) :
    population_table_get_next_address hw s out =
      population_table_get_next_address hw (advance s) out := by
  have ha : (advance s).items_to_go = s.items_to_go - 1 := by
    show (s.items_to_go + 65535) % 65536 = s.items_to_go - 1
    omega
  obtain ⟨k, hk⟩ : ∃ k, s.items_to_go = k + 1 := ⟨s.items_to_go - 1, by omega⟩
  unfold population_table_get_next_address
  rw [if_neg (by omega), if_neg (by omega), ha, hk]
  simp only [get_next_loop, hr, emit_invalid hw s w out hi]
  rw [if_pos ⟨trivial, by omega⟩]
  rfl

theorem get_next_invalid_last (hw : Nat) (s : State) (w : Nat) (out : Outputs)
    (h1 : s.items_to_go = 1)
    (hr : s.address_list[s.next_item]? = some w)
    (hi : (address_list_entry.addr w).address = INVALID_ADDRESS) :
    population_table_get_next_address hw s out = some (false, advance s, out) := by
  have ha : (advance s).items_to_go = 0 := by
    show (s.items_to_go + 65535) % 65536 = 0
    omega
  unfold population_table_get_next_address
  rw [if_neg (by omega), h1]
  simp only [get_next_loop, hr, emit_invalid hw s w out hi]
  rw [if_neg (by omega)]

theorem get_next_valid (hw : Nat) (s : State) (w : Nat) (out : Outputs)
    (h1 : 0 < s.items_to_go)
    (hr : s.address_list[s.next_item]? = some w)
    (hv : (address_list_entry.addr w).address ≠ INVALID_ADDRESS) :
    population_table_get_next_address hw s out =
      some (true, advance s, (emit hw s (address_list_entry.addr w) out).2) := by
  obtain ⟨k, hk⟩ : ∃ k, s.items_to_go = k + 1 := ⟨s.items_to_go - 1, by omega⟩
  unfold population_table_get_next_address
  rw [if_neg (by omega), hk]
  simp only [get_next_loop, hr]
  rw [if_neg (by simp [emit_valid hw s w out hv]), emit_valid hw s w out hv]

theorem mul_mod_u32 (g x : Nat) :
    (g * (x % 4294967296) * 4) % 4294967296 = (g * x * 4) % 4294967296 :=
  Nat.ModEq.mul_right 4 (Nat.ModEq.mul_left g (Nat.mod_modEq x 4294967296))

theorem emit_descriptor (hw : Nat) (s : State) (w : Nat) (out : Outputs)
    (hv : (address_list_entry.addr w).address ≠ INVALID_ADDRESS) :
    ((emit hw s (address_list_entry.addr w) out).2.row_address,
      (emit hw s (address_list_entry.addr w) out).2.n_bytes_to_transfer) =
    spec_descriptor hw s.direct_rows_base_address s.synaptic_rows_base_address
      s.last_neuron_id (address_list_entry.addr w) := by
  unfold emit spec_descriptor
  rw [if_pos hv]
  split
  · simp only [get_direct_address, Prod.mk.injEq, and_true]
    omega
  · simp only [get_address, get_offset, get_row_length, INDIRECT_ADDRESS_SHIFT,
      Prod.mk.injEq, Nat.shiftLeft_eq]
    constructor
    · have h2 := mul_mod_u32 s.last_neuron_id
        (((address_list_entry.addr w).row_length + 1) % 4294967296 + hw)
      have h3 : ((address_list_entry.addr w).row_length + 1) % 4294967296 + hw
          ≡ (address_list_entry.addr w).row_length + 1 + hw [MOD 4294967296] :=
        Nat.ModEq.add_right hw (Nat.mod_modEq _ _)
      have h4 : (s.last_neuron_id *
          (((address_list_entry.addr w).row_length + 1) % 4294967296 + hw) * 4) % 4294967296
          = (s.last_neuron_id * ((address_list_entry.addr w).row_length + 1 + hw) * 4)
            % 4294967296 :=
        Nat.ModEq.mul_right 4 (Nat.ModEq.mul_left _ h3)
      rw [h2, h4]
      generalize s.last_neuron_id * ((address_list_entry.addr w).row_length + 1 + hw) * 4 = y
      omega
    · omega

theorem drain_spec (hw : Nat) :
    ∀ (n : Nat) (s : State) (out : Outputs) (budget : Nat),
      s.items_to_go = n → n < budget →
      s.next_item + n ≤ s.address_list.length → s.next_item + n ≤ 65535 →
      drain hw budget s out = some
        ((((s.address_list.drop s.next_item).take n).filter
            (fun w => decide ((address_list_entry.addr w).address ≠ INVALID_ADDRESS))).map
          (fun w => spec_descriptor hw s.direct_rows_base_address
            s.synaptic_rows_base_address s.last_neuron_id (address_list_entry.addr w)),
         true) := by
  intro n
  induction n with
  | zero =>
    intro s out budget hn hb _ _
    obtain ⟨b, rfl⟩ : ∃ b, budget = b + 1 := ⟨budget - 1, by omega⟩
    simp [drain, population_table_get_next_address, hn]
  | succ n ih =>
    intro s out budget hn hb hlen hwrap
    obtain ⟨b, rfl⟩ : ∃ b, budget = b + 1 := ⟨budget - 1, by omega⟩
    have hc : s.next_item < s.address_list.length := by omega
    have hr : s.address_list[s.next_item]? = some s.address_list[s.next_item] :=
      List.getElem?_eq_getElem hc
    have hadv1 : (advance s).next_item = s.next_item + 1 := by
      show (s.next_item + 1) % 65536 = s.next_item + 1
      omega
    have hadv2 : (advance s).items_to_go = n := by
      show (s.items_to_go + 65535) % 65536 = n
      omega
    have hdrop : (s.address_list.drop s.next_item).take (n + 1) =
        s.address_list[s.next_item] :: ((s.address_list.drop (s.next_item + 1)).take n) := by
      rw [List.drop_eq_getElem_cons hc, List.take_succ_cons]
    have hih := fun o bb (h : n < bb) => ih (advance s) o bb hadv2 h
      (by rw [hadv1]; exact (by omega : s.next_item + 1 + n ≤ s.address_list.length))
      (by rw [hadv1]; omega)
    rw [hadv1] at hih
    rw [hdrop]
    by_cases hv : (address_list_entry.addr s.address_list[s.next_item]).address = INVALID_ADDRESS
    · rw [List.filter_cons_of_neg (by simpa using hv)]
      by_cases h1 : n = 0
      · subst h1
        simp [drain, get_next_invalid_last hw s _ out (by omega) hr hv]
      · have h2 := get_next_invalid_more hw s _ out (by omega) (by omega) hr hv
        have h3 := hih out (b + 1) (by omega)
        simp only [drain] at h3 ⊢
        rw [h2]
        exact h3
    · rw [List.filter_cons_of_pos (by simpa using hv)]
      have h2 := get_next_valid hw s _ out (by omega) hr hv
      have h3 := hih (emit hw s (address_list_entry.addr s.address_list[s.next_item]) out).2 b
        (by omega)
      simp only [drain, h2]
      have h4 : drain hw b (advance s)
          (emit hw s (address_list_entry.addr s.address_list[s.next_item]) out).2 = _ := h3
      rw [h4]
      simp only [List.map_cons]
      rw [← emit_descriptor hw s _ out hv]
      rfl

theorem emit_advance (hw : Nat) (s : State) (item : address_and_row_length) (out : Outputs) :
    emit hw (advance s) item out = emit hw s item out := rfl

theorem get_next_skip (hw : Nat) :
    ∀ (k : Nat) (s : State) (out : Outputs),
      k < s.items_to_go → s.items_to_go ≤ 65536 → s.next_item < 65536 →
      s.next_item + k ≤ 65536 →
      (∀ i, i < k → ∃ v, s.address_list[s.next_item + i]? = some v ∧
        (address_list_entry.addr v).address = INVALID_ADDRESS) →
      population_table_get_next_address hw s out =
        population_table_get_next_address hw
          { s with next_item := (s.next_item + k) % 65536, items_to_go := s.items_to_go - k }
          out := by
  intro k
  induction k with
  | zero =>
    intro s out _ _ hc0 _ _
    have h1 : (s.next_item + 0) % 65536 = s.next_item := by omega
    rw [h1]
    rfl
  | succ k ih =>
    intro s out hk hn hc0 hc hinv
    obtain ⟨v, hv0, hvi⟩ := hinv 0 (by omega)
    rw [get_next_invalid_more hw s v out (by omega) hn (by simpa using hv0) hvi]
    have h2 : (advance s).items_to_go = s.items_to_go - 1 := by
      show (s.items_to_go + 65535) % 65536 = s.items_to_go - 1
      omega
    by_cases hk0 : k = 0
    · subst hk0
      have h5 : (s.items_to_go + 65535) % 65536 = s.items_to_go - (0 + 1) := by omega
      simp only [advance, h5]
    · have h1 : (advance s).next_item = s.next_item + 1 := by
        show (s.next_item + 1) % 65536 = s.next_item + 1
        omega
      rw [ih (advance s) out (by omega) (by omega) (by omega) (by omega)
        (fun i hi => by
          obtain ⟨u, hu, hui⟩ := hinv (i + 1) (by omega)
          exact ⟨u, by rw [h1, Nat.add_assoc, Nat.add_comm 1 i]; exact hu, hui⟩)]
      have h3 : (advance s).next_item + k = s.next_item + (k + 1) := by omega
      have h4 : (advance s).items_to_go - k = s.items_to_go - (k + 1) := by omega
      rw [h3, h4]
      rfl

theorem get_next_first_valid (hw : Nat) (w : Nat)
    (hv : (address_list_entry.addr w).address ≠ INVALID_ADDRESS)
    (j : Nat) (s : State) (out : Outputs)
    (hj : j < s.items_to_go) (hwrap : s.next_item + s.items_to_go ≤ 65536)
    (hinv : ∀ i, i < j → ∃ v, s.address_list[s.next_item + i]? = some v ∧
      (address_list_entry.addr v).address = INVALID_ADDRESS)
    (hr : s.address_list[s.next_item + j]? = some w) :
    population_table_get_next_address hw s out =
      some (true,
        { s with
          next_item := (s.next_item + j + 1) % 65536
          items_to_go := s.items_to_go - (j + 1) },
        (emit hw s (address_list_entry.addr w) out).2) := by
  rw [get_next_skip hw j s out hj (by omega) (by omega) (by omega) hinv]
  have h1 : (s.next_item + j) % 65536 = s.next_item + j := by omega
  rw [h1, get_next_valid hw _ w out (by show 0 < s.items_to_go - j; omega) hr hv]
  have h2 : (s.items_to_go - j + 65535) % 65536 = s.items_to_go - (j + 1) := by omega
  simp only [advance, h2]
  rfl

theorem get_next_all_invalid (hw : Nat) (n : Nat) (s : State) (out : Outputs)
    (hn : s.items_to_go = n + 1) (hwrap : s.next_item + (n + 1) ≤ 65536)
    (hinv : ∀ i, i < n + 1 → ∃ v, s.address_list[s.next_item + i]? = some v ∧
      (address_list_entry.addr v).address = INVALID_ADDRESS) :
    population_table_get_next_address hw s out =
      some (false,
        { s with next_item := (s.next_item + (n + 1)) % 65536, items_to_go := 0 }, out) := by
  rw [get_next_skip hw n s out (by omega) (by omega) (by omega) (by omega)
    (fun i hi => hinv i (by omega))]
  have h1 : (s.next_item + n) % 65536 = s.next_item + n := by omega
  obtain ⟨v, hv0, hvi⟩ := hinv n (by omega)
  rw [h1, get_next_invalid_last hw _ v out (by show s.items_to_go - n = 1; omega) hv0 hvi]
  have h2 : (s.items_to_go - n + 65535) % 65536 = 0 := by omega
  simp only [advance, h2]
  rfl

theorem emit_false (hw : Nat) (s : State) (item : address_and_row_length) (out : Outputs)
    (h : (emit hw s item out).1 = false) : emit hw s item out = (false, out) := by
  unfold emit at h ⊢
  split
  · rename_i hv
    rw [if_pos hv] at h
    split at h <;> simp at h
  · rfl

theorem emit_true (hw : Nat) (s : State) (item : address_and_row_length) (out : Outputs)
    (h : (emit hw s item out).1 = true) : item.address ≠ INVALID_ADDRESS := by
  intro hv
  unfold emit at h
  rw [if_neg (by simpa using hv)] at h
  simp at h

theorem get_next_loop_frame (hw : Nat) :
    ∀ (fuel : Nat) (s : State) (out : Outputs) (r : Bool) (s1 : State) (out1 : Outputs),
      get_next_loop hw fuel s out = some (r, s1, out1) →
      s1 = { s with next_item := s1.next_item, items_to_go := s1.items_to_go } := by
  intro fuel
  induction fuel with
  | zero => intro s out r s1 out1 h; simp [get_next_loop] at h
  | succ n ih =>
    intro s out r s1 out1 h
    simp only [get_next_loop] at h
    split at h
    · simp at h
    · split at h
      · exact ih (advance s) _ _ _ _ h
      · simp only [Option.some.injEq, Prod.mk.injEq] at h
        rw [← h.2.1]
        rfl

theorem get_next_frame (hw : Nat) (s : State) (out : Outputs) (r : Bool) (s1 : State)
    (out1 : Outputs) (h : population_table_get_next_address hw s out = some (r, s1, out1)) :
    s1 = { s with next_item := s1.next_item, items_to_go := s1.items_to_go } := by
  unfold population_table_get_next_address at h
  split at h
  · simp only [Option.some.injEq, Prod.mk.injEq] at h
    rw [← h.2.1]
  · exact get_next_loop_frame hw _ _ _ _ _ _ h

theorem get_next_loop_emits (hw : Nat) :
    ∀ (fuel : Nat) (s : State) (out : Outputs) (s1 : State) (out1 : Outputs),
      get_next_loop hw fuel s out = some (true, s1, out1) →
      ∃ (slot : Nat) (w : Nat), s.address_list[slot]? = some w ∧ s1.next_item = (slot + 1) % 65536 ∧
        (address_list_entry.addr w).address ≠ INVALID_ADDRESS ∧
        out1 = (emit hw s (address_list_entry.addr w) out).2 := by
  intro fuel
  induction fuel with
  | zero => intro s out s1 out1 h; simp [get_next_loop] at h
  | succ n ih =>
    intro s out s1 out1 h
    simp only [get_next_loop] at h
    split at h
    · simp at h
    · rename_i w hw_
      split at h
      · rename_i hc
        rw [emit_false hw s _ out hc.1] at h
        exact ih (advance s) out s1 out1 h
      · simp only [Option.some.injEq, Prod.mk.injEq] at h
        exact ⟨s.next_item, w, hw_, by rw [← h.2.1]; rfl, emit_true hw s _ out h.1, h.2.2.symm⟩

theorem get_next_emits (hw : Nat) (s : State) (out : Outputs) (s1 : State) (out1 : Outputs)
    (h : population_table_get_next_address hw s out = some (true, s1, out1)) :
    ∃ (slot : Nat) (w : Nat), s.address_list[slot]? = some w ∧ s1.next_item = (slot + 1) % 65536 ∧
      (address_list_entry.addr w).address ≠ INVALID_ADDRESS ∧
      out1 = (emit hw s (address_list_entry.addr w) out).2 := by
  unfold population_table_get_next_address at h
  split at h
  · simp at h
  · exact get_next_loop_emits hw _ _ _ _ _ h

theorem get_next_total (hw : Nat) :
    ∀ (n : Nat) (s : State) (out : Outputs), s.items_to_go = n →
      s.next_item + n ≤ s.address_list.length → s.next_item + n ≤ 65535 →
      ∃ r s1 out1, population_table_get_next_address hw s out = some (r, s1, out1) := by
  intro n
  induction n with
  | zero =>
    intro s out hn _ _
    exact ⟨false, s, out, by simp [population_table_get_next_address, hn]⟩
  | succ n ih =>
    intro s out hn hlen hwrap
    have hc : s.next_item < s.address_list.length := by omega
    have hr : s.address_list[s.next_item]? = some s.address_list[s.next_item] :=
      List.getElem?_eq_getElem hc
    by_cases hv : (address_list_entry.addr s.address_list[s.next_item]).address = INVALID_ADDRESS
    · by_cases h1 : n = 0
      · exact ⟨_, _, _, get_next_invalid_last hw s _ out (by omega) hr hv⟩
      · rw [get_next_invalid_more hw s _ out (by omega) (by omega) hr hv]
        have hadv1 : (advance s).next_item = s.next_item + 1 := by
          show (s.next_item + 1) % 65536 = s.next_item + 1
          omega
        have hadv2 : (advance s).items_to_go = n := by
          show (s.items_to_go + 65535) % 65536 = n
          omega
        exact ih (advance s) out hadv2
          (by rw [hadv1]; exact (by omega : s.next_item + 1 + n ≤ s.address_list.length))
          (by rw [hadv1]; omega)
    · exact ⟨_, _, _, get_next_valid hw s _ out (by omega) hr hv⟩

/-! ## Lemmas on `population_table_get_first_address` -/

theorem start_lt (e : master_population_table_entry) : e.start < 32768 :=
  Nat.mod_lt _ (by decide)

theorem count_lt (e : master_population_table_entry) : e.count < 65536 :=
  Nat.mod_lt _ (by decide)

theorem set_cursor_eq (s : State) (e : master_population_table_entry) (spike x : Nat)
    (hx : e.extra_info_flag = true → s.address_list[e.start]? = some x) :
    set_cursor s e spike = some
      { s with
        last_spike := spike
        next_item := e.start + extra_slots e
        items_to_go := e.count
        last_neuron_id := cursor_neuron_id e x spike } := by
  unfold set_cursor extra_slots cursor_neuron_id
  cases h : e.extra_info_flag
  · simp
  · have h1 : (e.start + 1) % 65536 = e.start + 1 := by
      have := start_lt e
      omega
    simp [hx h, h1]

theorem filter_rejects_congr (s t : State) (p : Nat)
    (h1 : s.connectivity_bit_field = t.connectivity_bit_field)
    (h2 : s.last_neuron_id = t.last_neuron_id) :
    filter_rejects s p = filter_rejects t p := by
  unfold filter_rejects
  rw [h1, h2]

theorem get_first_address_pass (hw : Nat) (s : State) (spike ra nb p : Nat)
    (e : master_population_table_entry) (x : Nat)
    (hfind : population_table_position_in_the_master_pop_array s spike = some (some p))
    (he : s.master_population_table[p]? = some e)
    (hx : e.extra_info_flag = true → s.address_list[e.start]? = some x)
    (hfilter : filter_rejects { s with last_neuron_id := cursor_neuron_id e x spike } p
      = some false) :
    population_table_get_first_address hw s spike ra nb =
      match population_table_get_next_address hw
          { s with
            last_spike := spike
            next_item := e.start + extra_slots e
            items_to_go := e.count
            last_neuron_id := cursor_neuron_id e x spike }
          { spike := 0, row_address := ra, n_bytes_to_transfer := nb } with
      | none => none
      | some (get_next, s3, out) =>
        if get_next = false then
          some (false,
            { s3 with
              ghost_pop_table_searches := (s3.ghost_pop_table_searches + 1) % 4294967296 },
            out.row_address, out.n_bytes_to_transfer)
        else
          some (true, s3, out.row_address, out.n_bytes_to_transfer) := by
  have hf : filter_rejects
      { s with
        last_spike := spike
        next_item := e.start + extra_slots e
        items_to_go := e.count
        last_neuron_id := cursor_neuron_id e x spike } p = some false :=
    (filter_rejects_congr _ _ p rfl rfl).trans hfilter
  unfold population_table_get_first_address
  simp only [hfind, he, set_cursor_eq s e spike x hx, hf]

theorem get_first_address_pass_true (hw : Nat) (s : State) (spike ra nb p : Nat)
    (e : master_population_table_entry) (x : Nat)
    (hfind : population_table_position_in_the_master_pop_array s spike = some (some p))
    (he : s.master_population_table[p]? = some e)
    (hx : e.extra_info_flag = true → s.address_list[e.start]? = some x)
    (hfilter : filter_rejects { s with last_neuron_id := cursor_neuron_id e x spike } p
      = some false)
    (s3 : State) (out : Outputs)
    (hn : population_table_get_next_address hw
        { s with
          last_spike := spike
          next_item := e.start + extra_slots e
          items_to_go := e.count
          last_neuron_id := cursor_neuron_id e x spike }
        { spike := 0, row_address := ra, n_bytes_to_transfer := nb } = some (true, s3, out)) :
    population_table_get_first_address hw s spike ra nb =
      some (true, s3, out.row_address, out.n_bytes_to_transfer) := by
  rw [get_first_address_pass hw s spike ra nb p e x hfind he hx hfilter, hn]
  rfl

theorem get_first_address_reject (hw : Nat) (s : State) (spike ra nb p : Nat)
    (e : master_population_table_entry) (x : Nat)
    (hfind : population_table_position_in_the_master_pop_array s spike = some (some p))
    (he : s.master_population_table[p]? = some e)
    (hx : e.extra_info_flag = true → s.address_list[e.start]? = some x)
    (hfilter : filter_rejects { s with last_neuron_id := cursor_neuron_id e x spike } p
      = some true) :
    population_table_get_first_address hw s spike ra nb =
      some (false,
        { s with
          last_spike := spike
          next_item := e.start + extra_slots e
          items_to_go := e.count
          last_neuron_id := cursor_neuron_id e x spike
          bit_field_filtered_packets := (s.bit_field_filtered_packets + 1) % 4294967296 },
        ra, nb) := by
  have hf : filter_rejects
      { s with
        last_spike := spike
        next_item := e.start + extra_slots e
        items_to_go := e.count
        last_neuron_id := cursor_neuron_id e x spike } p = some true :=
    (filter_rejects_congr _ _ p rfl rfl).trans hfilter
  unfold population_table_get_first_address
  simp only [hfind, he, set_cursor_eq s e spike x hx, hf]

/-! ## Claims -/

/-- Claim C1. Placeholder skipping and draining: from a cursor with
`next_item = s` and `items_to_go = n` whose slots `[s, s + n)` lie inside the
address list, with `s + n <= 65535`, the driver that calls
`population_table_get_next_address` until it returns false is given, in slot
order, exactly one descriptor for each record of the slice whose address is not
`INVALID_ADDRESS`, none for an invalid record, and sees false within `n + 1`
calls. -/
theorem drain_emits_valid_records_in_slot_order (hw : Nat) (s : State) (out : Outputs)
    (hlen : s.next_item + s.items_to_go ≤ s.address_list.length)
    (hwrap : s.next_item + s.items_to_go ≤ 65535) :
    drain hw (s.items_to_go + 1) s out = some
      ((((s.address_list.drop s.next_item).take s.items_to_go).filter
          (fun w => decide ((address_list_entry.addr w).address ≠ INVALID_ADDRESS))).map
        (fun w => spec_descriptor hw s.direct_rows_base_address
          s.synaptic_rows_base_address s.last_neuron_id (address_list_entry.addr w)),
       true) :=
  drain_spec hw s.items_to_go s out (s.items_to_go + 1) rfl (Nat.lt_succ_self _) hlen hwrap

/-- Witness for claim C1: the slice `[INVALID, valid_record]` gives exactly one
descriptor, the one of the valid record, and then false. -/
theorem drain_emits_valid_records_in_slot_order_witness :
    placeholder_slice.next_item + placeholder_slice.items_to_go
        ≤ placeholder_slice.address_list.length ∧
      placeholder_slice.next_item + placeholder_slice.items_to_go ≤ 65535 ∧
      drain 3 (placeholder_slice.items_to_go + 1) placeholder_slice no_outputs =
        some ([(0x60000000 + (10 <<< 4) + 2 * (3 + 1 + 3) * 4, (3 + 1 + 3) * 4)], true) :=
  ⟨by decide, by decide,
    (drain_emits_valid_records_in_slot_order 3 placeholder_slice no_outputs
      (by decide) (by decide)).trans (by decide)⟩

/-- Result of `population_table_get_first_address` for an entry with
`start + extra_info_flag + count <= 65536`, for which the 16-bit cursor does not
wrap before the last record of the slice: the descriptor of the first record
that is not a placeholder, or false and a ghost search when there is none. -/
theorem get_first_address_result_below_wrap (hw : Nat) (s : State) (spike ra nb p : Nat)
    (e : master_population_table_entry) (x : Nat)
    (hfind : population_table_position_in_the_master_pop_array s spike = some (some p))
    (he : s.master_population_table[p]? = some e)
    (hx : e.extra_info_flag = true → s.address_list[e.start]? = some x)
    (hwrap : e.start + extra_slots e + e.count ≤ 65536)
    (hfilter : filter_rejects { s with last_neuron_id := cursor_neuron_id e x spike } p
      = some false) :
    (∀ j w, j < e.count →
      (∀ i, i < j → ∃ v, s.address_list[e.start + extra_slots e + i]? = some v ∧
        (address_list_entry.addr v).address = INVALID_ADDRESS) →
      s.address_list[e.start + extra_slots e + j]? = some w →
      (address_list_entry.addr w).address ≠ INVALID_ADDRESS →
      population_table_get_first_address hw s spike ra nb =
        some (true,
          { s with
            last_spike := spike
            last_neuron_id := cursor_neuron_id e x spike
            next_item := (e.start + extra_slots e + j + 1) % 65536
            items_to_go := e.count - (j + 1) },
          (spec_descriptor hw s.direct_rows_base_address s.synaptic_rows_base_address
            (cursor_neuron_id e x spike) (address_list_entry.addr w)).1,
          (spec_descriptor hw s.direct_rows_base_address s.synaptic_rows_base_address
            (cursor_neuron_id e x spike) (address_list_entry.addr w)).2)) ∧
    ((∀ i, i < e.count → ∃ v, s.address_list[e.start + extra_slots e + i]? = some v ∧
        (address_list_entry.addr v).address = INVALID_ADDRESS) →
      population_table_get_first_address hw s spike ra nb =
        some (false,
          { s with
            last_spike := spike
            last_neuron_id := cursor_neuron_id e x spike
            next_item := (e.start + extra_slots e + e.count) % 65536
            items_to_go := 0
            ghost_pop_table_searches := (s.ghost_pop_table_searches + 1) % 4294967296 },
          ra, nb)) := by
  have hpass := get_first_address_pass hw s spike ra nb p e x hfind he hx hfilter
  constructor
  · intro j w hj hinv hr hv
    rw [hpass, get_next_first_valid hw w hv j _ _ hj hwrap hinv hr]
    simp only [Bool.true_eq_false, if_false]
    have hd := emit_descriptor hw
      { s with
        last_spike := spike
        next_item := e.start + extra_slots e
        items_to_go := e.count
        last_neuron_id := cursor_neuron_id e x spike } w
      { spike := 0, row_address := ra, n_bytes_to_transfer := nb } hv
    have h1 := congrArg Prod.fst hd
    have h2 := congrArg Prod.snd hd
    simp only at h1 h2
    rw [← h1, ← h2]
  · intro hinv
    rw [hpass]
    by_cases hc : e.count = 0
    · have hb : (e.start + extra_slots e) % 65536 = e.start + extra_slots e := by
        have h1 := start_lt e
        have h2 : extra_slots e ≤ 1 := by unfold extra_slots; split <;> omega
        omega
      simp [population_table_get_next_address, hc, hb]
    · obtain ⟨n, hn⟩ : ∃ n, e.count = n + 1 := ⟨e.count - 1, by omega⟩
      rw [get_next_all_invalid hw n _ _ hn (by rw [← hn]; exact hwrap)
        (by rw [← hn]; exact hinv)]
      simp [hn]

/-- Claim C3. Soundness of the search: for every table, sorted or not, a
position `p` that `population_table_position_in_the_master_pop_array` reports
is inside the table and its entry satisfies `(spike & mask) == key`; and, for a
table of fewer than `2^31` entries, the search reports false for every spike
that no entry matches. -/
theorem position_sound (s : State) (spike : Nat) :
    (∀ p, population_table_position_in_the_master_pop_array s spike = some (some p) →
      p < s.master_population_table.length ∧
      ∃ e, s.master_population_table[p]? = some e ∧ (spike &&& e.mask) = e.key) ∧
    (s.master_population_table.length < 2147483648 →
      (∀ e ∈ s.master_population_table, (spike &&& e.mask) ≠ e.key) →
      population_table_position_in_the_master_pop_array s spike = some none) := by
  constructor
  · intro p hp
    obtain ⟨e, he, hm⟩ := position_loop_sound _ _ _ _ _ p hp
    exact ⟨(List.getElem?_eq_some_iff.mp he).1, e, he, hm⟩
  · intro hlen hno
    obtain ⟨r, hr, -⟩ := position_loop_total s.master_population_table spike hlen
      (s.master_population_table.length + 1) 0 s.master_population_table.length
      (Nat.le_refl _) (by omega)
    have hr2 : population_table_position_in_the_master_pop_array s spike = some r := hr
    cases r with
    | none => exact hr2
    | some p =>
      obtain ⟨e, he, hm⟩ := position_loop_sound _ _ _ _ _ p hr
      exact absurd hm (hno e (List.getElem?_mem he))

/-- Witness for claim C3: on the table `{(0b00, 0b11), (0b10, 0b11)}` the
search for `0b01` reports false. -/
theorem position_sound_witness :
    two_entries.master_population_table.length < 2147483648 ∧
      (∀ e ∈ two_entries.master_population_table, (0b01 &&& e.mask) ≠ e.key) ∧
      population_table_position_in_the_master_pop_array two_entries 0b01 = some none :=
  ⟨by decide, by decide, (position_sound two_entries 0b01).2 (by decide) (by decide)⟩

/-- Claim C4. Completeness of the search for present keys: on a table of fewer
than `2^31` entries that is sorted ascending by key and in which every entry
matches its own key, the search for the key of entry `i` reports a position `p`
whose entry matches that key; when the key is a 32-bit value and no 32-bit
spike matches two entries, `p = i`. -/
theorem position_finds_present_key (s : State) (i : Nat) (ei : master_population_table_entry)
    (hlen : s.master_population_table.length < 2147483648)
    (hsorted : sorted_by_key s.master_population_table)
    (hself : self_matching s.master_population_table)
    (hi : s.master_population_table[i]? = some ei) :
    ∃ p ep, population_table_position_in_the_master_pop_array s ei.key = some (some p) ∧
      s.master_population_table[p]? = some ep ∧ (ei.key &&& ep.mask) = ep.key ∧
      (ei.key < 4294967296 → disjoint_groups s.master_population_table → p = i) := by
  have hilt : i < s.master_population_table.length := (List.getElem?_eq_some_iff.mp hi).1
  have hnav : ∀ j e, s.master_population_table[j]? = some e → (ei.key &&& e.mask) ≠ e.key →
      (e.key < ei.key → j < i) ∧ (¬ e.key < ei.key → i < j) := by
    intro j e hj hm
    constructor
    · intro hk
      by_contra hji
      have := sorted_mono _ hsorted i j ei e (by omega) hi hj
      omega
    · intro hk
      by_contra hij
      have h1 := sorted_mono _ hsorted j i e ei (by omega) hj hi
      have h2 : e.key = ei.key := by omega
      exact hm (by rw [← h2]; exact hself e (List.getElem?_mem hj))
  obtain ⟨p, hp⟩ := position_loop_complete s.master_population_table ei.key hlen i hnav
    (s.master_population_table.length + 1) 0 s.master_population_table.length
    (Nat.le_refl _) (by omega) (Nat.zero_le _) hilt
  obtain ⟨ep, hep, hm⟩ := position_loop_sound _ _ _ _ _ p hp
  exact ⟨p, ep, hp, hep, hm, fun h32 hdis =>
    hdis ei.key p i ep ei h32 hep hi hm (hself ei (List.getElem?_mem hi))⟩

/-- Witness for claim C4: on the table `{(0b00, 0b11) -> A, (0b10, 0b11) -> B}`
the search for `0b00` reports position 0 and the search for `0b10` reports
position 1. -/
theorem position_finds_present_key_witness :
    (∃ p, population_table_position_in_the_master_pop_array two_entries 0b00
        = some (some p) ∧ p = 0) ∧
    population_table_position_in_the_master_pop_array two_entries 0b00 = some (some 0) ∧
    population_table_position_in_the_master_pop_array two_entries 0b10 = some (some 1) := by
  obtain ⟨p, _, h1, _, _, h4⟩ := position_finds_present_key two_entries 0
    { key := 0b00, mask := 0b11, bits := pack_entry_bits 0 false 1 }
    (by decide) (by simp [two_entries]) (by decide) (by decide)
  exact ⟨⟨p, h1, h4 (by decide) two_entries_disjoint⟩, by decide, by decide⟩

/-- Counterexample to claim C5 as stated: `gap_mask_table` is sorted ascending
by key, every entry matches its own key and no 32-bit spike matches two
entries; entry 0 matches the spike 4, and the search for 4 reports false. -/
theorem position_misses_matched_spike :
    gap_mask_table.master_population_table.length < 2147483648 ∧
      sorted_by_key gap_mask_table.master_population_table ∧
      self_matching gap_mask_table.master_population_table ∧
      disjoint_groups gap_mask_table.master_population_table ∧
      (∃ e, gap_mask_table.master_population_table[0]? = some e ∧ (4 &&& e.mask) = e.key) ∧
      population_table_position_in_the_master_pop_array gap_mask_table 4 = some none :=
  ⟨by decide, by simp [gap_mask_table], by decide, gap_mask_table_disjoint,
    ⟨_, rfl, by decide⟩, by decide⟩

/-- Claim C5, amended. Completeness of the search for masked spikes: on a table
of fewer than `2^31` entries that is sorted ascending by key, whose entries
match their own keys, whose groups are pairwise disjoint, and in which every
spike matched by an entry is at most the key of every later entry, the search
for a 32-bit spike that entry `i` matches reports exactly position `i`. -/
theorem position_finds_matched_spike (s : State) (spike i : Nat)
    (ei : master_population_table_entry)
    (hlen : s.master_population_table.length < 2147483648)
    (hsorted : sorted_by_key s.master_population_table)
    (hself : self_matching s.master_population_table)
    (hdis : disjoint_groups s.master_population_table)
    (hbelow : groups_below_later_keys s.master_population_table)
    (h32 : spike < 4294967296)
    (hi : s.master_population_table[i]? = some ei)
    (hm : (spike &&& ei.mask) = ei.key) :
    population_table_position_in_the_master_pop_array s spike = some (some i) := by
  have hilt : i < s.master_population_table.length := (List.getElem?_eq_some_iff.mp hi).1
  have hge : ei.key ≤ spike := by rw [← hm]; exact Nat.and_le_left
  have hnav : ∀ j e, s.master_population_table[j]? = some e → (spike &&& e.mask) ≠ e.key →
      (e.key < spike → j < i) ∧ (¬ e.key < spike → i < j) := by
    intro j e hj hne
    have hji : j ≠ i := by
      rintro rfl
      rw [hi] at hj
      exact hne (by rw [← Option.some.inj hj]; exact hm)
    constructor
    · intro hk
      by_contra hlt
      have := hbelow spike i j ei e h32 (by omega) hi hj hm
      omega
    · intro hk
      by_contra hlt
      have h1 := sorted_mono _ hsorted j i e ei (by omega) hj hi
      have h2 : e.key = spike := by omega
      exact hne (by rw [← h2]; exact hself e (List.getElem?_mem hj))
  obtain ⟨p, hp⟩ := position_loop_complete s.master_population_table spike hlen i hnav
    (s.master_population_table.length + 1) 0 s.master_population_table.length
    (Nat.le_refl _) (by omega) (Nat.zero_le _) hilt
  obtain ⟨ep, hep, hmp⟩ := position_loop_sound _ _ _ _ _ p hp
  have hpi : p = i := hdis spike p i ep ei h32 hep hi hmp hm
  rw [← hpi]
  exact hp

/-- Witness for claim C5, amended: on `prefix_mask_table` the search for the
spike 2, which entry 0 matches, reports position 0. -/
theorem position_finds_matched_spike_witness :
    population_table_position_in_the_master_pop_array prefix_mask_table 2 = some (some 0) :=
  position_finds_matched_spike prefix_mask_table 2 0
    { key := 0, mask := 0xFFFFFFFC, bits := pack_entry_bits 0 false 1 }
    (by decide) (by simp [prefix_mask_table]) (by decide) prefix_mask_table_disjoint
    prefix_mask_table_below (by decide) (by decide) (by decide)

/-- Claim C6. Row address formula: when `population_table_get_next_address`
returns true, the record `r` it emitted for, the one in the slot just before
the new `next_item`, is not invalid, and with `g` the cursor's neuron id the
row address is `direct_base + r.address + g * 4` if `r.is_single`, and
`indirect_base + (r.address << 4) + g * (r.row_length + 1 + header_words) * 4`
otherwise, modulo `2^32`. -/
theorem row_address_formula (hw : Nat) (s : State) (out : Outputs) (s1 : State)
    (out1 : Outputs)
    (h : population_table_get_next_address hw s out = some (true, s1, out1)) :
    ∃ (slot : Nat) (w : Nat), s.address_list[slot]? = some w ∧ s1.next_item = (slot + 1) % 65536 ∧
      (address_list_entry.addr w).address ≠ INVALID_ADDRESS ∧
      out1.row_address =
        if (address_list_entry.addr w).is_single then
          (s.direct_rows_base_address + (address_list_entry.addr w).address
            + s.last_neuron_id * 4) % 4294967296
        else
          (s.synaptic_rows_base_address + ((address_list_entry.addr w).address <<< 4)
            + s.last_neuron_id * ((address_list_entry.addr w).row_length + 1 + hw) * 4)
            % 4294967296 := by
  obtain ⟨slot, w, hr, hn, hv, ho⟩ := get_next_emits hw s out s1 out1 h
  refine ⟨slot, w, hr, hn, hv, ?_⟩
  have hd := congrArg Prod.fst (emit_descriptor hw s w out hv)
  simp only at hd
  rw [ho, hd]
  unfold spec_descriptor
  split <;> rfl

/-- Witness for claim C6: the first call on the slice `[INVALID, valid_record]`
with neuron id 2. -/
theorem row_address_formula_witness :
    ∃ (slot : Nat) (w : Nat), placeholder_slice.address_list[slot]? = some w ∧
      (address_list_entry.addr w).is_single = false ∧
      (0x60000000 + (10 <<< 4) + 2 * (3 + 1 + 3) * 4 : Nat) =
        (placeholder_slice.synaptic_rows_base_address
          + ((address_list_entry.addr w).address <<< 4)
          + placeholder_slice.last_neuron_id
            * ((address_list_entry.addr w).row_length + 1 + 3) * 4) % 4294967296 := by
  obtain ⟨slot, w, hr, hn, _, ho⟩ := row_address_formula 3 placeholder_slice no_outputs
    { placeholder_slice with next_item := 2, items_to_go := 0 }
    { spike := 0, row_address := 0x60000000 + (10 <<< 4) + 2 * (3 + 1 + 3) * 4,
      n_bytes_to_transfer := (3 + 1 + 3) * 4 } (by decide)
  have hslot : slot = 1 := by
    have hlt := (List.getElem?_eq_some_iff.mp hr).1
    have hl : placeholder_slice.address_list.length = 2 := rfl
    have hn2 : (2 : Nat) = (slot + 1) % 65536 := hn
    omega
  subst hslot
  have hw1 : w = pack_address_and_row_length 3 10 false := (Option.some.inj hr).symm
  subst hw1
  exact ⟨1, _, rfl, by decide, by rw [if_neg (by decide)] at ho; exact ho⟩

/-- Claim C7. Single-row signalling: when `population_table_get_next_address`
returns true, `n_bytes_to_transfer` is 0 exactly when the emitting record has
`is_single` set, and for a record that is not single it is
`(row_length + 1 + header_words) * 4`, which is greater than 0; the header size
is such that `(MAX_ROW_LENGTH + header_words) * 4` fits 32 bits. -/
theorem single_row_signalling (hw : Nat) (s : State) (out : Outputs) (s1 : State)
    (out1 : Outputs) (hhw : (MAX_ROW_LENGTH + hw) * 4 < 4294967296)
    (h : population_table_get_next_address hw s out = some (true, s1, out1)) :
    ∃ (slot : Nat) (w : Nat), s.address_list[slot]? = some w ∧ s1.next_item = (slot + 1) % 65536 ∧
      (address_list_entry.addr w).address ≠ INVALID_ADDRESS ∧
      (out1.n_bytes_to_transfer = 0 ↔ (address_list_entry.addr w).is_single = true) ∧
      ((address_list_entry.addr w).is_single = false →
        out1.n_bytes_to_transfer = ((address_list_entry.addr w).row_length + 1 + hw) * 4 ∧
        0 < out1.n_bytes_to_transfer) := by
  obtain ⟨slot, w, hr, hn, hv, ho⟩ := get_next_emits hw s out s1 out1 h
  refine ⟨slot, w, hr, hn, hv, ?_⟩
  have hd := congrArg Prod.snd (emit_descriptor hw s w out hv)
  simp only at hd
  have hrl : (address_list_entry.addr w).row_length < 256 := Nat.mod_lt _ (by decide)
  have hhw2 : (256 + hw) * 4 < 4294967296 := hhw
  rw [ho, hd]
  unfold spec_descriptor
  cases hs : (address_list_entry.addr w).is_single
  · simp only [Bool.false_eq_true, if_false, iff_false, forall_const]
    omega
  · simp

/-- Witness for claim C7: the first call on the slice `[INVALID, valid_record]`
reports 28 bytes for the record of row length 3 + 1 with 3 header words. -/
theorem single_row_signalling_witness :
    (MAX_ROW_LENGTH + 3) * 4 < 4294967296 ∧
      ∃ (slot : Nat) (w : Nat), placeholder_slice.address_list[slot]? = some w ∧
        (address_list_entry.addr w).address ≠ INVALID_ADDRESS ∧
        (((3 + 1 + 3) * 4 : Nat) = 0 ↔ (address_list_entry.addr w).is_single = true) := by
  obtain ⟨slot, w, hr, _, hv, hz, _⟩ := single_row_signalling 3 placeholder_slice no_outputs
    { placeholder_slice with next_item := 2, items_to_go := 0 }
    { spike := 0, row_address := 0x60000000 + (10 <<< 4) + 2 * (3 + 1 + 3) * 4,
      n_bytes_to_transfer := (3 + 1 + 3) * 4 } (by decide) (by decide)
  exact ⟨by decide, slot, w, hr, hv, hz⟩

/-- Claim C8. Neuron id resolution: when `population_table_get_first_address`
has located entry `e` for the spike, the cursor's neuron id is `spike & ~e.mask`
if `e` has no extra info, and otherwise, with `x` the extra info decoded from
slot `e.start`, it is `(spike & ~(e.mask | (x.core_mask << x.mask_shift)))
+ ((spike >> x.mask_shift) & x.core_mask) * x.n_neurons`, in 32-bit arithmetic;
and the call does return when the slice of `e` lies inside the address list,
the cursor does not wrap and the bit field read is in range. -/
theorem neuron_id_resolution (hw : Nat) (s : State) (spike ra nb p : Nat)
    (e : master_population_table_entry) (x : Nat)
    (hfind : population_table_position_in_the_master_pop_array s spike = some (some p))
    (he : s.master_population_table[p]? = some e)
    (hx : e.extra_info_flag = true → s.address_list[e.start]? = some x) :
    (∀ r s1 ra1 nb1,
      population_table_get_first_address hw s spike ra nb = some (r, s1, ra1, nb1) →
      s1.last_neuron_id =
        if e.extra_info_flag then
          ((spike &&& u32_not (e.mask |||
              (((address_list_entry.extra x).core_mask <<< (address_list_entry.extra x).mask_shift)
                % 4294967296)))
            + ((spike >>> (address_list_entry.extra x).mask_shift)
                &&& (address_list_entry.extra x).core_mask)
              * (address_list_entry.extra x).n_neurons) % 4294967296
        else
          spike &&& u32_not e.mask) ∧
    (e.start + extra_slots e + e.count ≤ s.address_list.length →
      e.start + extra_slots e + e.count ≤ 65535 →
      filter_rejects { s with last_neuron_id := cursor_neuron_id e x spike } p ≠ none →
      ∃ r s1 ra1 nb1,
        population_table_get_first_address hw s spike ra nb = some (r, s1, ra1, nb1)) := by
  have hid : cursor_neuron_id e x spike =
      if e.extra_info_flag then
        ((spike &&& u32_not (e.mask |||
            (((address_list_entry.extra x).core_mask <<< (address_list_entry.extra x).mask_shift)
              % 4294967296)))
          + ((spike >>> (address_list_entry.extra x).mask_shift)
              &&& (address_list_entry.extra x).core_mask)
            * (address_list_entry.extra x).n_neurons) % 4294967296
      else
        spike &&& u32_not e.mask := by
    unfold cursor_neuron_id get_extended_neuron_id get_local_neuron_id get_core_sum
      get_neuron_id
    split
    · exact Nat.add_mod_mod _ _ _
    · rfl
  constructor
  · intro r s1 ra1 nb1 h
    rw [← hid]
    cases hf : filter_rejects { s with last_neuron_id := cursor_neuron_id e x spike } p with
    | none =>
      have hf2 : filter_rejects
          { s with
            last_spike := spike
            next_item := e.start + extra_slots e
            items_to_go := e.count
            last_neuron_id := cursor_neuron_id e x spike } p = none :=
        (filter_rejects_congr _ _ p rfl rfl).trans hf
      unfold population_table_get_first_address at h
      simp [hfind, he, set_cursor_eq s e spike x hx, hf2] at h
    | some b =>
      cases b with
      | true =>
        rw [get_first_address_reject hw s spike ra nb p e x hfind he hx hf] at h
        simp only [Option.some.injEq, Prod.mk.injEq] at h
        rw [← h.2.1]
      | false =>
        rw [get_first_address_pass hw s spike ra nb p e x hfind he hx hf] at h
        split at h
        · simp at h
        · rename_i get_next s3 out hn
          have hfr := get_next_frame hw _ _ _ _ _ hn
          have h3 : s3.last_neuron_id = cursor_neuron_id e x spike := by rw [hfr]
          split at h
          · simp only [Option.some.injEq, Prod.mk.injEq] at h
            rw [← h.2.1]
            exact h3
          · simp only [Option.some.injEq, Prod.mk.injEq] at h
            rw [← h.2.1]
            exact h3
  · intro hlen hwrap hf
    cases hfb : filter_rejects { s with last_neuron_id := cursor_neuron_id e x spike } p with
    | none => exact absurd hfb hf
    | some b =>
      cases b with
      | true =>
        exact ⟨_, _, _, _, get_first_address_reject hw s spike ra nb p e x hfind he hx hfb⟩
      | false =>
        rw [get_first_address_pass hw s spike ra nb p e x hfind he hx hfb]
        obtain ⟨r, s3, out, hn⟩ := get_next_total hw e.count
          { s with
            last_spike := spike
            next_item := e.start + extra_slots e
            items_to_go := e.count
            last_neuron_id := cursor_neuron_id e x spike }
          { spike := 0, row_address := ra, n_bytes_to_transfer := nb } rfl hlen hwrap
        rw [hn]
        cases r with
        | true => exact ⟨_, _, _, _, rfl⟩
        | false => exact ⟨_, _, _, _, rfl⟩

/-- Witness for claim C8: on `multi_core` the spike `0x13` (core 1, neuron 3 of
the core) resolves to neuron id `3 + 1 * 10`. -/
theorem neuron_id_resolution_witness :
    ∃ r s1 ra1 nb1,
      population_table_get_first_address 3 multi_core 0x13 0 0 = some (r, s1, ra1, nb1) ∧
      s1.last_neuron_id = 3 + 1 * 10 := by
  have h := neuron_id_resolution 3 multi_core 0x13 0 0 0
    { key := 0, mask := 0xFFFFFFE0, bits := pack_entry_bits 0 true 1 }
    (pack_extra_info 1 4 10) (by decide) (by decide) (by decide)
  obtain ⟨r, s1, ra1, nb1, hres⟩ := h.2 (by decide) (by decide) (by decide)
  exact ⟨r, s1, ra1, nb1, hres, (h.1 r s1 ra1 nb1 hres).trans (by decide)⟩

/-- Claim C9. Table miss: when the search reports false,
`population_table_get_first_address` returns false, `invalid_master_pop_hits`
is incremented by one (as a `uint32_t`: modulo `2^32`, and by exactly one below
the maximum), and the other counters, the cursor (`last_spike`,
`last_neuron_id`, `next_item`, `items_to_go`), the tables and the caller's
output locations are unchanged. -/
theorem table_miss (hw : Nat) (s : State) (spike ra nb : Nat)
    (hfind : population_table_position_in_the_master_pop_array s spike = some none) :
    ∃ s1, population_table_get_first_address hw s spike ra nb = some (false, s1, ra, nb) ∧
      s1 = { s with invalid_master_pop_hits := (s.invalid_master_pop_hits + 1) % 4294967296 } ∧
      (s.invalid_master_pop_hits < 4294967295 →
        s1.invalid_master_pop_hits = s.invalid_master_pop_hits + 1) ∧
      s1.ghost_pop_table_searches = s.ghost_pop_table_searches ∧
      s1.bit_field_filtered_packets = s.bit_field_filtered_packets ∧
      s1.last_spike = s.last_spike ∧ s1.last_neuron_id = s.last_neuron_id ∧
      s1.next_item = s.next_item ∧ s1.items_to_go = s.items_to_go := by
  refine ⟨_, ?_, rfl, ?_, rfl, rfl, rfl, rfl, rfl, rfl⟩
  · unfold population_table_get_first_address
    simp only [hfind]
  · intro hlt
    exact Nat.mod_eq_of_lt (by omega)

/-- Witness for claim C9: the spike 9 is not in the table of the end-to-end
scenario. -/
theorem table_miss_witness :
    population_table_position_in_the_master_pop_array scenario 9 = some none ∧
      ∃ s1, population_table_get_first_address 3 scenario 9 0 0 = some (false, s1, 0, 0) ∧
        s1.invalid_master_pop_hits = scenario.invalid_master_pop_hits + 1 := by
  obtain ⟨s1, h1, _, h3, _⟩ := table_miss 3 scenario 9 0 0 (by decide)
  exact ⟨by decide, s1, h1, h3 (by decide)⟩

/-- Counterexample to claim C10 as stated: on `multi_core` the search locates
the spike `0x13` at position 0, whose entry has extra info and a bit field; the
local neuron id `spike & ~(mask | (core_mask << mask_shift))` is 3 and bit 3 of
the bit field is 0, yet `population_table_get_first_address` returns true and
does not count a filtered packet. -/
theorem filter_tests_extended_neuron_id :
    population_table_position_in_the_master_pop_array multi_core 0x13 = some (some 0) ∧
      (∃ e field, multi_core.master_population_table[0]? = some e ∧
        e.extra_info_flag = true ∧
        multi_core.connectivity_bit_field = some [some field] ∧
        get_local_neuron_id e (address_list_entry.extra (pack_extra_info 1 4 10)) 0x13 = 3 ∧
        bit_field_test field 3 = some false) ∧
      ∃ s1 ra1 nb1,
        population_table_get_first_address 3 multi_core 0x13 0 0 = some (true, s1, ra1, nb1) ∧
        s1.bit_field_filtered_packets = multi_core.bit_field_filtered_packets :=
  ⟨by decide, ⟨_, _, rfl, by decide, rfl, by decide, by decide⟩,
    ⟨{ multi_core with
        last_spike := 0x13
        last_neuron_id := 13
        next_item := 2
        items_to_go := 0 },
      0x60000000 + (10 <<< 4) + 13 * (3 + 1 + 3) * 4, (3 + 1 + 3) * 4, by decide, rfl⟩⟩

/-- Claim C10, amended. Filter rejection: when the search locates the spike at
position `p`, a bit field set is attached and the bit field for `p` is present,
and bit `k` of that bit field is 0, where `k` is the neuron id the call stores
in the cursor (`spike & ~mask` without extra info, and with extra info the local
id `spike & ~(mask | (core_mask << mask_shift))` plus the core index times
`n_neurons`), `population_table_get_first_address` returns false and increments
`bit_field_filtered_packets` by one (as a `uint32_t`), leaving the ghost-search
and invalid-hit counters unchanged. -/
theorem filter_rejection (hw : Nat) (s : State) (spike ra nb p : Nat)
    (e : master_population_table_entry) (x : Nat)
    (fields : List (Option bit_field_t)) (field : bit_field_t)
    (hfind : population_table_position_in_the_master_pop_array s spike = some (some p))
    (he : s.master_population_table[p]? = some e)
    (hx : e.extra_info_flag = true → s.address_list[e.start]? = some x)
    (hattached : s.connectivity_bit_field = some fields)
    (hpresent : fields[p]? = some (some field))
    (hbit : bit_field_test field
      (if e.extra_info_flag then
        (get_local_neuron_id e (address_list_entry.extra x) spike
          + get_core_sum (address_list_entry.extra x) spike) % 4294967296
      else
        get_neuron_id e spike) = some false) :
    ∃ s1, population_table_get_first_address hw s spike ra nb = some (false, s1, ra, nb) ∧
      s1.bit_field_filtered_packets = (s.bit_field_filtered_packets + 1) % 4294967296 ∧
      (s.bit_field_filtered_packets < 4294967295 →
        s1.bit_field_filtered_packets = s.bit_field_filtered_packets + 1) ∧
      s1.ghost_pop_table_searches = s.ghost_pop_table_searches ∧
      s1.invalid_master_pop_hits = s.invalid_master_pop_hits := by
  have hk : cursor_neuron_id e x spike =
      if e.extra_info_flag then
        (get_local_neuron_id e (address_list_entry.extra x) spike
          + get_core_sum (address_list_entry.extra x) spike) % 4294967296
      else
        get_neuron_id e spike := rfl
  have hf : filter_rejects { s with last_neuron_id := cursor_neuron_id e x spike } p
      = some true := by
    unfold filter_rejects
    simp only [hattached, hpresent, hk, hbit, Bool.not_false]
  refine ⟨_, get_first_address_reject hw s spike ra nb p e x hfind he hx hf, rfl, ?_, rfl, rfl⟩
  intro hlt
  exact Nat.mod_eq_of_lt (by omega)

/-- Witness for claim C10, amended: on `multi_core` the spike `0x03` (core 0,
neuron 3) has neuron id 3, bit 3 of the bit field is 0, and the call returns
false counting one filtered packet. -/
theorem filter_rejection_witness :
    ∃ s1, population_table_get_first_address 3 multi_core 0x03 0 0 = some (false, s1, 0, 0) ∧
      s1.bit_field_filtered_packets = multi_core.bit_field_filtered_packets + 1 := by
  obtain ⟨s1, h1, _, h3, _⟩ := filter_rejection 3 multi_core 0x03 0 0 0
    { key := 0, mask := 0xFFFFFFE0, bits := pack_entry_bits 0 true 1 }
    (pack_extra_info 1 4 10) [some (List.replicate 13 false ++ [true])]
    (List.replicate 13 false ++ [true])
    (by decide) (by decide) (by decide) (by decide) (by decide) (by decide)
  exact ⟨s1, h1, h3 (by decide)⟩

/-! ## Lemmas on the outcomes of `population_table_get_first_address` -/

theorem set_cursor_some (s : State) (e : master_population_table_entry) (spike : Nat)
    (s2 : State) (h : set_cursor s e spike = some s2) :
    ∃ x, (e.extra_info_flag = true → s.address_list[e.start]? = some x) ∧
      s2 = { s with
        last_spike := spike
        next_item := e.start + extra_slots e
        items_to_go := e.count
        last_neuron_id := cursor_neuron_id e x spike } := by
  cases hflag : e.extra_info_flag with
  | false =>
    have hx : e.extra_info_flag = true → s.address_list[e.start]? = some 0 := by
      intro h1
      rw [hflag] at h1
      exact absurd h1 (by decide)
    refine ⟨0, fun h1 => absurd h1 (by decide), ?_⟩
    rw [set_cursor_eq s e spike 0 hx] at h
    exact (Option.some.inj h).symm
  | true =>
    cases hr : s.address_list[e.start]? with
    | none =>
      unfold set_cursor at h
      simp [hflag, hr] at h
    | some x =>
      refine ⟨x, fun _ => rfl, ?_⟩
      rw [set_cursor_eq s e spike x (fun _ => hr)] at h
      exact (Option.some.inj h).symm

theorem get_first_address_cases (hw : Nat) (s : State) (spike ra nb : Nat)
    (r : Bool) (s1 : State) (a b : Nat)
    (h : population_table_get_first_address hw s spike ra nb = some (r, s1, a, b)) :
    (population_table_position_in_the_master_pop_array s spike = some none ∧ r = false ∧
      s1 = { s with
        invalid_master_pop_hits := (s.invalid_master_pop_hits + 1) % 4294967296 } ∧
      a = ra ∧ b = nb) ∨
    (∃ (p : Nat) (e : master_population_table_entry) (s2 : State),
      population_table_position_in_the_master_pop_array s spike = some (some p) ∧
      s.master_population_table[p]? = some e ∧ set_cursor s e spike = some s2 ∧
      ((filter_rejects s2 p = some true ∧ r = false ∧
          s1 = { s2 with
            bit_field_filtered_packets :=
              (s2.bit_field_filtered_packets + 1) % 4294967296 } ∧
          a = ra ∧ b = nb) ∨
       (filter_rejects s2 p = some false ∧
          ∃ (g : Bool) (s3 : State) (out : Outputs),
            population_table_get_next_address hw s2
              { spike := 0, row_address := ra, n_bytes_to_transfer := nb }
              = some (g, s3, out) ∧
            r = g ∧ a = out.row_address ∧ b = out.n_bytes_to_transfer ∧
            ((g = false ∧ s1 = { s3 with
                ghost_pop_table_searches :=
                  (s3.ghost_pop_table_searches + 1) % 4294967296 }) ∨
             (g = true ∧ s1 = s3))))) := by
  unfold population_table_get_first_address at h
  split at h
  · simp at h
  · rename_i hfind
    simp only [Option.some.injEq, Prod.mk.injEq] at h
    exact Or.inl ⟨hfind, h.1.symm, h.2.1.symm, h.2.2.1.symm, h.2.2.2.symm⟩
  · rename_i p hfind
    split at h
    · simp at h
    · rename_i e he
      split at h
      · simp at h
      · rename_i s2 hs2
        refine Or.inr ⟨p, e, s2, hfind, he, hs2, ?_⟩
        split at h
        · simp at h
        · rename_i hf
          simp only [Option.some.injEq, Prod.mk.injEq] at h
          exact Or.inl ⟨hf, h.1.symm, h.2.1.symm, h.2.2.1.symm, h.2.2.2.symm⟩
        · rename_i hf
          split at h
          · simp at h
          · rename_i g s3 out hn
            refine Or.inr ⟨hf, g, s3, out, hn, ?_⟩
            split at h
            · rename_i hg
              simp only [Option.some.injEq, Prod.mk.injEq] at h
              exact ⟨by rw [hg]; exact h.1.symm, h.2.2.1.symm, h.2.2.2.symm,
                Or.inl ⟨hg, h.2.1.symm⟩⟩
            · rename_i hg
              simp only [Option.some.injEq, Prod.mk.injEq] at h
              have hg2 : g = true := by
                cases g with
                | true => rfl
                | false => exact absurd rfl hg
              exact ⟨by rw [hg2]; exact h.1.symm, h.2.2.1.symm, h.2.2.2.symm,
                Or.inr ⟨hg2, h.2.1.symm⟩⟩

theorem get_next_loop_false (hw : Nat) :
    ∀ (fuel : Nat) (s : State) (out : Outputs) (s1 : State) (out1 : Outputs),
      get_next_loop hw fuel s out = some (false, s1, out1) →
      s1.items_to_go = 0 ∧ out1 = out := by
  intro fuel
  induction fuel with
  | zero => intro s out s1 out1 h; simp [get_next_loop] at h
  | succ n ih =>
    intro s out s1 out1 h
    simp only [get_next_loop] at h
    split at h
    · simp at h
    · split at h
      · rename_i hc
        rw [emit_false hw s _ out hc.1] at h
        exact ih (advance s) out s1 out1 h
      · rename_i hc
        simp only [Option.some.injEq, Prod.mk.injEq] at h
        have h1 := emit_false hw s _ out h.1
        refine ⟨?_, by rw [← h.2.2, h1]⟩
        rw [← h.2.1]
        by_contra hne
        exact hc ⟨h.1, Nat.pos_of_ne_zero hne⟩

theorem get_next_false (hw : Nat) (s : State) (out : Outputs) (s1 : State) (out1 : Outputs)
    (h : population_table_get_next_address hw s out = some (false, s1, out1)) :
    s1.items_to_go = 0 ∧ out1 = out := by
  unfold population_table_get_next_address at h
  split at h
  · rename_i h0
    simp only [Option.some.injEq, Prod.mk.injEq, true_and] at h
    exact ⟨by rw [← h.1]; omega, h.2.symm⟩
  · exact get_next_loop_false hw _ _ _ _ _ h

theorem get_next_idle (hw : Nat) (s : State) (out : Outputs) (h : s.items_to_go = 0) :
    population_table_get_next_address hw s out = some (false, s, out) := by
  unfold population_table_get_next_address
  rw [if_pos (by omega)]

/-- Counterexample to claim C11 as stated: on `multi_core` the search locates the
spike `0x03` at position 0, whose entry has `start = 0`, extra info and
`count = 1`; the bit field rejects the spike and
`population_table_get_first_address` returns false with `next_item = 1`, not
`start`: the extra info slot has been read and consumed. -/
theorem filtered_spike_has_consumed_extra_info :
    population_table_position_in_the_master_pop_array multi_core 0x03 = some (some 0) ∧
      (∃ e, multi_core.master_population_table[0]? = some e ∧ e.start = 0 ∧
        e.extra_info_flag = true ∧ e.count = 1) ∧
      population_table_get_first_address 3 multi_core 0x03 0 0 =
        some (false,
          { multi_core with
            last_spike := 0x03
            last_neuron_id := 3
            next_item := 1
            items_to_go := 1
            bit_field_filtered_packets := 1 },
          0, 0) :=
  ⟨by decide, ⟨_, rfl, by decide, by decide, by decide⟩, by decide⟩

/-- Claim C11, amended. A filtered spike consumes no address record: when the
search locates entry `e` and the bit field rejects the spike,
`population_table_get_first_address` returns false and leaves the cursor at the
first address record of the slice with all of them remaining,
`next_item = e.start + e.extra_info_flag` and `items_to_go = e.count`; the only
slot read is the extra info slot `e.start` of an entry that has one. The address
list and the caller's output locations are unchanged. -/
theorem filtered_spike_cursor (hw : Nat) (s : State) (spike ra nb p : Nat)
    (e : master_population_table_entry) (x : Nat)
    (hfind : population_table_position_in_the_master_pop_array s spike = some (some p))
    (he : s.master_population_table[p]? = some e)
    (hx : e.extra_info_flag = true → s.address_list[e.start]? = some x)
    (hfilter : filter_rejects { s with last_neuron_id := cursor_neuron_id e x spike } p
      = some true) :
    ∃ s1, population_table_get_first_address hw s spike ra nb = some (false, s1, ra, nb) ∧
      s1.next_item = e.start + extra_slots e ∧ s1.items_to_go = e.count ∧
      (e.extra_info_flag = false → s1.next_item = e.start) ∧
      (e.extra_info_flag = true → s1.next_item = e.start + 1) ∧
      s1.address_list = s.address_list :=
  ⟨_, get_first_address_reject hw s spike ra nb p e x hfind he hx hfilter, rfl, rfl,
    fun h => by simp [extra_slots, h], fun h => by simp [extra_slots, h], rfl⟩

/-- Witness for claim C11, amended: on `multi_core` the rejected spike `0x03`
leaves the cursor at slot 1 with one record remaining. -/
theorem filtered_spike_cursor_witness :
    ∃ s1, population_table_get_first_address 3 multi_core 0x03 0 0 = some (false, s1, 0, 0) ∧
      s1.next_item = 1 ∧ s1.items_to_go = 1 := by
  obtain ⟨s1, h1, h2, h3, _⟩ := filtered_spike_cursor 3 multi_core 0x03 0 0 0
    { key := 0, mask := 0xFFFFFFE0, bits := pack_entry_bits 0 true 1 }
    (pack_extra_info 1 4 10) (by decide) (by decide) (by decide) (by decide)
  exact ⟨s1, h1, h2.trans (by decide), h3.trans (by decide)⟩

/-- Counterexample to claim C14 as stated: `multi_core` is the state that
`population_table_initialise` and `population_table_set_connectivity_bit_field`
produce from the initial state; the call for the spike `0x03` returns false, the
bit field having rejected the spike, and leaves `items_to_go = 1`; the call of
`population_table_get_next_address` that follows returns true with a
descriptor. -/
theorem filter_rejection_leaves_cursor_populated :
    (∃ s0 n,
      population_table_initialise 3 initial_state multi_core_blob 0x60000000 0x70000000
        true true = some (some (s0, n)) ∧
      population_table_set_connectivity_bit_field s0
        (some [some (List.replicate 13 false ++ [true])]) = multi_core) ∧
    ∃ s1, population_table_get_first_address 3 multi_core 0x03 0 0 = some (false, s1, 0, 0) ∧
      s1.items_to_go = 1 ∧
      ∃ s2 out, population_table_get_next_address 3 s1 no_outputs = some (true, s2, out) :=
  ⟨⟨{ multi_core with connectivity_bit_field := none }, 259, by decide, by decide⟩,
    ⟨{ multi_core with
        last_spike := 0x03
        last_neuron_id := 3
        next_item := 1
        items_to_go := 1
        bit_field_filtered_packets := 1 },
      by decide, by decide,
      ⟨{ multi_core with
          last_spike := 0x03
          last_neuron_id := 3
          next_item := 2
          items_to_go := 0
          bit_field_filtered_packets := 1 },
        { spike := 0x03
          row_address := 0x60000000 + (10 <<< 4) + 3 * (3 + 1 + 3) * 4
          n_bytes_to_transfer := (3 + 1 + 3) * 4 },
        by decide⟩⟩⟩

/-- Claim C14, amended. The cursor after a call of
`population_table_get_first_address` that returns false: after a ghost search
(entry found, spike not rejected) `items_to_go` is 0 and the call of
`population_table_get_next_address` that follows returns false and changes
nothing; after a table miss the cursor is the one before the call, so the
iterator is idle exactly when it was idle before; after a filter rejection
`items_to_go` is the entry's `count`, so the iterator is idle only for an entry
without address records. -/
theorem no_match_cursor (hw : Nat) (s : State) (spike ra nb : Nat) (s1 : State) (a b : Nat)
    (h : population_table_get_first_address hw s spike ra nb = some (false, s1, a, b)) :
    (population_table_position_in_the_master_pop_array s spike = some none →
      s1.next_item = s.next_item ∧ s1.items_to_go = s.items_to_go ∧
      (s1.items_to_go = 0 ↔ s.items_to_go = 0)) ∧
    (∀ p e x, population_table_position_in_the_master_pop_array s spike = some (some p) →
      s.master_population_table[p]? = some e →
      (e.extra_info_flag = true → s.address_list[e.start]? = some x) →
      filter_rejects { s with last_neuron_id := cursor_neuron_id e x spike } p = some true →
      s1.items_to_go = e.count) ∧
    (∀ p e x, population_table_position_in_the_master_pop_array s spike = some (some p) →
      s.master_population_table[p]? = some e →
      (e.extra_info_flag = true → s.address_list[e.start]? = some x) →
      filter_rejects { s with last_neuron_id := cursor_neuron_id e x spike } p = some false →
      s1.items_to_go = 0 ∧
      ∀ out, population_table_get_next_address hw s1 out = some (false, s1, out)) := by
  refine ⟨?_, ?_, ?_⟩
  · intro hfind
    unfold population_table_get_first_address at h
    simp only [hfind, Option.some.injEq, Prod.mk.injEq, true_and] at h
    rw [← h.1]
    exact ⟨rfl, rfl, Iff.rfl⟩
  · intro p e x hfind he hx hf
    rw [get_first_address_reject hw s spike ra nb p e x hfind he hx hf] at h
    simp only [Option.some.injEq, Prod.mk.injEq, true_and] at h
    rw [← h.1]
  · intro p e x hfind he hx hf
    rw [get_first_address_pass hw s spike ra nb p e x hfind he hx hf] at h
    split at h
    · simp at h
    · rename_i g s3 out hn
      split at h
      · rename_i hg
        rw [hg] at hn
        have h0 := (get_next_false hw _ _ _ _ hn).1
        simp only [Option.some.injEq, Prod.mk.injEq, true_and] at h
        have h1 : s1.items_to_go = 0 := by rw [← h.1]; exact h0
        exact ⟨h1, fun out => get_next_idle hw s1 out h1⟩
      · simp at h

/-- Witness for claim C14, amended: in the end-to-end scenario with both records
invalid the call for the spike `0x6` is a ghost search and leaves the iterator
idle. -/
theorem no_match_cursor_witness :
    ∃ s1, population_table_get_first_address 3
        { scenario with address_list :=
            [pack_address_and_row_length 0 INVALID_ADDRESS false,
             pack_address_and_row_length 0 INVALID_ADDRESS false] } 0x6 0 0
        = some (false, s1, 0, 0) ∧
      s1.items_to_go = 0 ∧
      population_table_get_next_address 3 s1 no_outputs = some (false, s1, no_outputs) := by
  have h : population_table_get_first_address 3
      { scenario with address_list :=
          [pack_address_and_row_length 0 INVALID_ADDRESS false,
           pack_address_and_row_length 0 INVALID_ADDRESS false] } 0x6 0 0
      = some (false,
          { scenario with
            address_list :=
              [pack_address_and_row_length 0 INVALID_ADDRESS false,
               pack_address_and_row_length 0 INVALID_ADDRESS false]
            last_spike := 0x6
            last_neuron_id := 2
            next_item := 2
            items_to_go := 0
            ghost_pop_table_searches := 1 }, 0, 0) := by decide
  have h3 := (no_match_cursor 3 _ 0x6 0 0 _ 0 0 h).2.2 0
    { key := 0x4, mask := 0xFFFFFFFC, bits := pack_entry_bits 0 false 2 } 0
    (by decide) (by decide) (by decide) (by decide)
  exact ⟨_, h, h3.1, h3.2 no_outputs⟩

/-- Claim C15, failing input. In `direct_row` the call for the spike `0x6` emits
the indirect record of slot 0; the call of `population_table_get_next_address`
that follows, made with 99 in the caller's spike location, returns true for the
single record of slot 1 with size 0 and leaves 99 in the spike location, while
`last_spike` is `0x6`. The same call on the indirect record of
`placeholder_slice` stores `last_spike` in the spike location. -/
theorem single_row_leaves_spike_unwritten :
    population_table_get_first_address 3 direct_row 0x6 0 0 =
        some (true,
          { direct_row with
            last_spike := 0x6
            last_neuron_id := 2
            next_item := 1
            items_to_go := 1 },
          0x60000000 + (10 <<< 4) + 2 * (3 + 1 + 3) * 4, (3 + 1 + 3) * 4) ∧
      population_table_get_next_address 3
          { direct_row with
            last_spike := 0x6
            last_neuron_id := 2
            next_item := 1
            items_to_go := 1 }
          { spike := 99, row_address := 0, n_bytes_to_transfer := 0 } =
        some (true,
          { direct_row with
            last_spike := 0x6
            last_neuron_id := 2
            next_item := 2
            items_to_go := 0 },
          { spike := 99, row_address := 0x70000000 + 5 + 2 * 4, n_bytes_to_transfer := 0 }) ∧
      population_table_get_next_address 3 { placeholder_slice with last_spike := 0x6 }
          { spike := 99, row_address := 0, n_bytes_to_transfer := 0 } =
        some (true,
          { placeholder_slice with last_spike := 0x6, next_item := 2, items_to_go := 0 },
          { spike := 0x6
            row_address := 0x60000000 + (10 <<< 4) + 2 * (3 + 1 + 3) * 4
            n_bytes_to_transfer := (3 + 1 + 3) * 4 }) :=
  ⟨by decide, by decide, by decide⟩

theorem get_next_loop_reframe (hw : Nat) (g i f : Nat)
    (c : Option (List (Option bit_field_t))) :
    ∀ (fuel : Nat) (s : State) (out : Outputs),
      get_next_loop hw fuel (reframe s g i f c) out =
        (get_next_loop hw fuel s out).map
          (fun res => (res.1, reframe res.2.1 g i f c, res.2.2)) := by
  intro fuel
  induction fuel with
  | zero => intro s out; rfl
  | succ n ih =>
    intro s out
    simp only [get_next_loop]
    have hal : (reframe s g i f c).address_list = s.address_list := rfl
    have hni : (reframe s g i f c).next_item = s.next_item := rfl
    rw [hal, hni]
    cases hr : s.address_list[s.next_item]? with
    | none => rfl
    | some w =>
      simp only []
      have he : emit hw (reframe s g i f c) (address_list_entry.addr w) out
          = emit hw s (address_list_entry.addr w) out := rfl
      have ha : advance (reframe s g i f c) = reframe (advance s) g i f c := rfl
      have hi : (reframe (advance s) g i f c).items_to_go = (advance s).items_to_go := rfl
      rw [he, ha, hi]
      split
      · exact ih (advance s) _
      · rfl

theorem get_next_reframe (hw : Nat) (g i f : Nat) (c : Option (List (Option bit_field_t)))
    (s : State) (out : Outputs) :
    population_table_get_next_address hw (reframe s g i f c) out =
      (population_table_get_next_address hw s out).map
        (fun res => (res.1, reframe res.2.1 g i f c, res.2.2)) := by
  unfold population_table_get_next_address
  have hi : (reframe s g i f c).items_to_go = s.items_to_go := rfl
  rw [hi]
  split
  · rfl
  · exact get_next_loop_reframe hw g i f c _ s out

theorem get_first_address_undefined (hw : Nat) (s : State) (spike ra nb p : Nat)
    (e : master_population_table_entry) (x : Nat)
    (hfind : population_table_position_in_the_master_pop_array s spike = some (some p))
    (he : s.master_population_table[p]? = some e)
    (hx : e.extra_info_flag = true → s.address_list[e.start]? = some x)
    (hfilter : filter_rejects { s with last_neuron_id := cursor_neuron_id e x spike } p
      = none) :
    population_table_get_first_address hw s spike ra nb = none := by
  have hf : filter_rejects
      { s with
        last_spike := spike
        next_item := e.start + extra_slots e
        items_to_go := e.count
        last_neuron_id := cursor_neuron_id e x spike } p = none :=
    (filter_rejects_congr _ _ p rfl rfl).trans hfilter
  unfold population_table_get_first_address
  simp only [hfind, he, set_cursor_eq s e spike x hx, hf]

theorem get_first_address_no_extra_info (hw : Nat) (s : State) (spike ra nb p : Nat)
    (e : master_population_table_entry)
    (hfind : population_table_position_in_the_master_pop_array s spike = some (some p))
    (he : s.master_population_table[p]? = some e)
    (hflag : e.extra_info_flag = true) (hr : s.address_list[e.start]? = none) :
    population_table_get_first_address hw s spike ra nb = none := by
  unfold population_table_get_first_address
  simp [hfind, he, set_cursor, hflag, hr]

/-- The observations of two calls that pass the filter from states with the same
tables and base addresses are the same. -/
theorem observation_of_pass (hw : Nat) (s t : State) (spike ra nb p : Nat)
    (e : master_population_table_entry) (x : Nat) (g i f : Nat)
    (c : Option (List (Option bit_field_t)))
    (hfind : population_table_position_in_the_master_pop_array s spike = some (some p))
    (he : s.master_population_table[p]? = some e)
    (hx : e.extra_info_flag = true → s.address_list[e.start]? = some x)
    (hfs : filter_rejects { s with last_neuron_id := cursor_neuron_id e x spike } p
      = some false)
    (hfindt : population_table_position_in_the_master_pop_array t spike = some (some p))
    (het : t.master_population_table[p]? = some e)
    (hxt : e.extra_info_flag = true → t.address_list[e.start]? = some x)
    (hft : filter_rejects { t with last_neuron_id := cursor_neuron_id e x spike } p
      = some false)
    (hcursor : ({ t with
        last_spike := spike
        next_item := e.start + extra_slots e
        items_to_go := e.count
        last_neuron_id := cursor_neuron_id e x spike } : State) =
      reframe
        { s with
          last_spike := spike
          next_item := e.start + extra_slots e
          items_to_go := e.count
          last_neuron_id := cursor_neuron_id e x spike } g i f c) :
    (population_table_get_first_address hw t spike ra nb).map observation =
      (population_table_get_first_address hw s spike ra nb).map observation := by
  rw [get_first_address_pass hw s spike ra nb p e x hfind he hx hfs,
    get_first_address_pass hw t spike ra nb p e x hfindt het hxt hft, hcursor,
    get_next_reframe]
  cases population_table_get_next_address hw
      { s with
        last_spike := spike
        next_item := e.start + extra_slots e
        items_to_go := e.count
        last_neuron_id := cursor_neuron_id e x spike }
      { spike := 0, row_address := ra, n_bytes_to_transfer := nb } with
  | none => rfl
  | some res =>
    obtain ⟨gn, s3, out⟩ := res
    cases gn <;> rfl

theorem found_entry (s : State) (spike p : Nat)
    (hfind : population_table_position_in_the_master_pop_array s spike = some (some p)) :
    ∃ e, s.master_population_table[p]? = some e := by
  obtain ⟨e, he, -⟩ := position_loop_sound _ _ _ _ _ p hfind
  exact ⟨e, he⟩

theorem extra_info_read (s : State) (e : master_population_table_entry) :
    (e.extra_info_flag = true ∧ s.address_list[e.start]? = none) ∨
    ∃ x, (e.extra_info_flag = true → s.address_list[e.start]? = some x) := by
  cases hflag : e.extra_info_flag with
  | false => exact Or.inr ⟨0, fun h => absurd h (by decide)⟩
  | true =>
    cases hr : s.address_list[e.start]? with
    | none => exact Or.inl ⟨rfl, rfl⟩
    | some x => exact Or.inr ⟨x, fun _ => rfl⟩

/-- Claim C12. No bit field means no filtering: when no bit field set is
attached, or the bit field for the position that the search reports is absent,
`population_table_get_first_address` does not change
`bit_field_filtered_packets`, and its result, outputs and final cursor are those
of the same call made with a bit field set attached whose bit field for that
position has every bit set and covers the neuron id. -/
theorem no_bit_field_no_filtering (hw : Nat) (s : State) (spike ra nb : Nat)
    (all_set : List (Option bit_field_t))
    (hoff : s.connectivity_bit_field = none ∨
      ∃ fields, s.connectivity_bit_field = some fields ∧
        ∀ p, population_table_position_in_the_master_pop_array s spike = some (some p) →
          fields[p]? = some none)
    (hon : ∀ p e x, population_table_position_in_the_master_pop_array s spike = some (some p) →
      s.master_population_table[p]? = some e →
      (e.extra_info_flag = true → s.address_list[e.start]? = some x) →
      ∃ (field : bit_field_t), all_set[p]? = some (some field) ∧
        (∀ (k : Nat) (bit : Bool), field[k]? = some bit → bit = true) ∧
        cursor_neuron_id e x spike < field.length) :
    (∀ r s1 a b, population_table_get_first_address hw s spike ra nb = some (r, s1, a, b) →
      s1.bit_field_filtered_packets = s.bit_field_filtered_packets) ∧
    (population_table_get_first_address hw
        (population_table_set_connectivity_bit_field s (some all_set)) spike ra nb).map
          observation =
      (population_table_get_first_address hw s spike ra nb).map observation := by
  have hpass : ∀ p (id : Nat),
      population_table_position_in_the_master_pop_array s spike = some (some p) →
      filter_rejects { s with last_neuron_id := id } p = some false := by
    intro p id hfind
    unfold filter_rejects
    rcases hoff with h | ⟨fields, h, hp⟩
    · simp only [h]
    · simp only [h, hp p hfind]
  constructor
  · intro r s1 a b h
    rcases get_first_address_cases hw s spike ra nb r s1 a b h with
      ⟨-, -, hs1, -, -⟩ | ⟨p, e, s2, hfind, he, hs2, hrest⟩
    · rw [hs1]
    · obtain ⟨x, hx, hs2eq⟩ := set_cursor_some s e spike s2 hs2
      have hf := hpass p (cursor_neuron_id e x spike) hfind
      have hf2 : filter_rejects s2 p = some false := by
        rw [hs2eq]
        exact (filter_rejects_congr _ _ p rfl rfl).trans hf
      rcases hrest with ⟨hrej, -⟩ | ⟨-, g, s3, out, hn, -, -, -, hg⟩
      · rw [hf2] at hrej
        exact absurd hrej (by decide)
      · have hfr := get_next_frame hw _ _ _ _ _ hn
        have h3 : s3.bit_field_filtered_packets = s.bit_field_filtered_packets := by
          rw [hfr, hs2eq]
        rcases hg with ⟨-, hs1⟩ | ⟨-, hs1⟩
        · rw [hs1]
          exact h3
        · rw [hs1]
          exact h3
  · cases hfind : population_table_position_in_the_master_pop_array s spike with
    | none =>
      have ht : population_table_position_in_the_master_pop_array
          (population_table_set_connectivity_bit_field s (some all_set)) spike = none := hfind
      unfold population_table_get_first_address
      simp only [hfind, ht]
    | some q =>
      cases q with
      | none =>
        have ht : population_table_position_in_the_master_pop_array
            (population_table_set_connectivity_bit_field s (some all_set)) spike
            = some none := hfind
        unfold population_table_get_first_address
        simp only [hfind, ht]
        rfl
      | some p =>
        obtain ⟨e, he⟩ := found_entry s spike p hfind
        rcases extra_info_read s e with ⟨hflag, hr⟩ | ⟨x, hx⟩
        · rw [get_first_address_no_extra_info hw s spike ra nb p e hfind he hflag hr,
            get_first_address_no_extra_info hw
              (population_table_set_connectivity_bit_field s (some all_set)) spike ra nb p e
              hfind he hflag hr]
        · obtain ⟨field, hfield, hall, hcover⟩ := hon p e x hfind he hx
          have hbit : bit_field_test field (cursor_neuron_id e x spike) = some true := by
            unfold bit_field_test
            have h1 : field[cursor_neuron_id e x spike]?
                = some field[cursor_neuron_id e x spike] := List.getElem?_eq_getElem hcover
            rw [h1, hall _ _ h1]
          have hft : filter_rejects
              { population_table_set_connectivity_bit_field s (some all_set) with
                last_neuron_id := cursor_neuron_id e x spike } p = some false := by
            unfold filter_rejects population_table_set_connectivity_bit_field
            simp only [hfield, hbit, Bool.not_true]
          exact observation_of_pass hw s _ spike ra nb p e x s.ghost_pop_table_searches
            s.invalid_master_pop_hits s.bit_field_filtered_packets (some all_set)
            hfind he hx (hpass p _ hfind) hfind he hx hft rfl

/-- Witness for claim C12: `multi_core` without its bit field set resolves the
spike `0x13` as `multi_core`, whose bit 13 is set, does, and counts no filtered
packet. -/
theorem no_bit_field_no_filtering_witness :
    (∃ s1 a b, population_table_get_first_address 3
        unfiltered_multi_core 0x13 0 0 = some (true, s1, a, b) ∧
      s1.bit_field_filtered_packets = 0) ∧
    (population_table_get_first_address 3
        (population_table_set_connectivity_bit_field
          unfiltered_multi_core
          (some [some (List.replicate 14 true)])) 0x13 0 0).map observation =
      (population_table_get_first_address 3
        unfiltered_multi_core 0x13 0 0).map observation := by
  have h := no_bit_field_no_filtering 3 unfiltered_multi_core
    0x13 0 0 [some (List.replicate 14 true)] (Or.inl rfl)
    (by
      intro p e x hfind he hx
      have hp : p = 0 := by
        have h0 : population_table_position_in_the_master_pop_array
            unfiltered_multi_core 0x13 = some (some 0) := by
          decide
        rw [h0] at hfind
        exact (Option.some.inj (Option.some.inj hfind)).symm
      subst hp
      have he2 : e = { key := 0, mask := 0xFFFFFFE0, bits := pack_entry_bits 0 true 1 } :=
        (Option.some.inj he).symm
      subst he2
      have hx2 : x = pack_extra_info 1 4 10 := (Option.some.inj (hx (by decide))).symm
      subst hx2
      refine ⟨List.replicate 14 true, rfl, ?_, by decide⟩
      intro k bit hk
      rw [List.getElem?_replicate] at hk
      split at hk
      · exact (Option.some.inj hk).symm
      · exact absurd hk (by simp))
  have hres : population_table_get_first_address 3
      unfiltered_multi_core 0x13 0 0 =
      some (true,
        { unfiltered_multi_core with
          last_spike := 0x13
          last_neuron_id := 13
          next_item := 2
          items_to_go := 0 },
        0x60000000 + (10 <<< 4) + 13 * (3 + 1 + 3) * 4, (3 + 1 + 3) * 4) := by decide
  exact ⟨⟨_, _, _, hres, (h.1 _ _ _ _ hres).trans rfl⟩, h.2⟩

/-- Claim C20. A new `population_table_get_first_address` overwrites the cursor:
for a spike that the search locates, the call made from the state `s` with any
other cursor (`last_spike`, `last_neuron_id`, `next_item`, `items_to_go`) gives
exactly what the call made from `s` gives; and when the statistics counters
differ as well, the two calls still agree on the result, the outputs and the
final cursor. -/
theorem new_resolution_overwrites_cursor (hw : Nat) (s : State) (spike ra nb p : Nat)
    (ls ln ni n : Nat)
    (hfind : population_table_position_in_the_master_pop_array s spike = some (some p)) :
    population_table_get_first_address hw
        { s with last_spike := ls, last_neuron_id := ln, next_item := ni, items_to_go := n }
        spike ra nb =
      population_table_get_first_address hw s spike ra nb ∧
    ∀ g i f,
      (population_table_get_first_address hw
        { s with
          last_spike := ls
          last_neuron_id := ln
          next_item := ni
          items_to_go := n
          ghost_pop_table_searches := g
          invalid_master_pop_hits := i
          bit_field_filtered_packets := f } spike ra nb).map observation =
      (population_table_get_first_address hw s spike ra nb).map observation := by
  obtain ⟨e, he⟩ := found_entry s spike p hfind
  rcases extra_info_read s e with ⟨hflag, hr⟩ | ⟨x, hx⟩
  · constructor
    · rw [get_first_address_no_extra_info hw s spike ra nb p e hfind he hflag hr]
      exact get_first_address_no_extra_info hw
        { s with last_spike := ls, last_neuron_id := ln, next_item := ni, items_to_go := n }
        spike ra nb p e hfind he hflag hr
    · intro g i f
      rw [get_first_address_no_extra_info hw s spike ra nb p e hfind he hflag hr,
        get_first_address_no_extra_info hw
        { s with
          last_spike := ls
          last_neuron_id := ln
          next_item := ni
          items_to_go := n
          ghost_pop_table_searches := g
          invalid_master_pop_hits := i
          bit_field_filtered_packets := f }
        spike ra nb p e hfind he hflag hr]
  · cases hf : filter_rejects { s with last_neuron_id := cursor_neuron_id e x spike } p with
    | none =>
      constructor
      · rw [get_first_address_undefined hw s spike ra nb p e x hfind he hx hf]
        exact get_first_address_undefined hw
          { s with last_spike := ls, last_neuron_id := ln, next_item := ni, items_to_go := n }
          spike ra nb p e x hfind he hx
          ((filter_rejects_congr _ _ p rfl rfl).trans hf)
      · intro g i f
        rw [get_first_address_undefined hw s spike ra nb p e x hfind he hx hf,
          get_first_address_undefined hw
          { s with
            last_spike := ls
            last_neuron_id := ln
            next_item := ni
            items_to_go := n
            ghost_pop_table_searches := g
            invalid_master_pop_hits := i
            bit_field_filtered_packets := f }
          spike ra nb p e x hfind he hx
          ((filter_rejects_congr _ _ p rfl rfl).trans hf)]
    | some rej =>
      cases rej with
      | true =>
        constructor
        · rw [get_first_address_reject hw s spike ra nb p e x hfind he hx hf]
          exact get_first_address_reject hw
            { s with last_spike := ls, last_neuron_id := ln, next_item := ni, items_to_go := n }
            spike ra nb p e x hfind he hx
            ((filter_rejects_congr _ _ p rfl rfl).trans hf)
        · intro g i f
          rw [get_first_address_reject hw s spike ra nb p e x hfind he hx hf,
            get_first_address_reject hw
            { s with
              last_spike := ls
              last_neuron_id := ln
              next_item := ni
              items_to_go := n
              ghost_pop_table_searches := g
              invalid_master_pop_hits := i
              bit_field_filtered_packets := f }
            spike ra nb p e x hfind he hx
            ((filter_rejects_congr _ _ p rfl rfl).trans hf)]
          rfl
      | false =>
        constructor
        · rw [get_first_address_pass hw s spike ra nb p e x hfind he hx hf]
          exact get_first_address_pass hw
            { s with last_spike := ls, last_neuron_id := ln, next_item := ni, items_to_go := n }
            spike ra nb p e x hfind he hx
            ((filter_rejects_congr _ _ p rfl rfl).trans hf)
        · intro g i f
          exact observation_of_pass hw s _ spike ra nb p e x g i f s.connectivity_bit_field
            hfind he hx hf hfind he hx ((filter_rejects_congr _ _ p rfl rfl).trans hf) rfl

/-- Witness for claim C20: in the end-to-end scenario the call for the spike
`0x6` made on top of an unfinished resolution of the spike 77 gives what the
call from the fresh state gives. -/
theorem new_resolution_overwrites_cursor_witness :
    population_table_position_in_the_master_pop_array scenario 0x6 = some (some 0) ∧
      population_table_get_first_address 3
          { scenario with last_spike := 77, last_neuron_id := 5, next_item := 1,
                          items_to_go := 1 } 0x6 0 0 =
        population_table_get_first_address 3 scenario 0x6 0 0 ∧
      population_table_get_first_address 3 scenario 0x6 0 0 =
        some (true,
          { scenario with last_spike := 0x6, last_neuron_id := 2, next_item := 1,
                          items_to_go := 1 },
          0x60000000 + (10 <<< 4) + 2 * (4 + 3) * 4, (3 + 1 + 3) * 4) :=
  ⟨by decide, (new_resolution_overwrites_cursor 3 scenario 0x6 0 0 0 77 5 1 1 (by decide)).1,
    by decide⟩

theorem get_next_loop_false_invalid (hw : Nat) :
    ∀ (fuel : Nat) (s : State) (out : Outputs) (s1 : State) (out1 : Outputs),
      get_next_loop hw fuel s out = some (false, s1, out1) →
      0 < s.items_to_go → s.next_item + s.items_to_go ≤ 65536 →
      ∀ i, i < s.items_to_go → ∃ v, s.address_list[s.next_item + i]? = some v ∧
        (address_list_entry.addr v).address = INVALID_ADDRESS := by
  intro fuel
  induction fuel with
  | zero => intro s out s1 out1 h; simp [get_next_loop] at h
  | succ n ih =>
    intro s out s1 out1 h hpos hwrap
    simp only [get_next_loop] at h
    split at h
    · simp at h
    · rename_i w hr
      have hinv : ∀ (hfalse : (emit hw s (address_list_entry.addr w) out).1 = false),
          (address_list_entry.addr w).address = INVALID_ADDRESS := by
        intro hfalse
        by_contra hv
        rw [emit_valid hw s w out hv] at hfalse
        exact absurd hfalse (by decide)
      split at h
      · rename_i hc
        have h1 : (advance s).items_to_go = s.items_to_go - 1 := by
          show (s.items_to_go + 65535) % 65536 = s.items_to_go - 1
          omega
        have h2 : 0 < s.items_to_go - 1 := by rw [← h1]; exact hc.2
        have h3 : (advance s).next_item = s.next_item + 1 := by
          show (s.next_item + 1) % 65536 = s.next_item + 1
          omega
        have hrec := ih (advance s) _ s1 out1 h hc.2 (by rw [h1, h3]; omega)
        intro i hi
        rcases Nat.eq_zero_or_pos i with h0 | h0
        · subst h0
          exact ⟨w, hr, hinv hc.1⟩
        · obtain ⟨v, hv, hvi⟩ := hrec (i - 1) (by rw [h1]; omega)
          refine ⟨v, ?_, hvi⟩
          have h4 : (advance s).next_item + (i - 1) = s.next_item + i := by rw [h3]; omega
          rw [← h4]
          exact hv
      · rename_i hc
        simp only [Option.some.injEq, Prod.mk.injEq] at h
        have h1 : ¬ 0 < (advance s).items_to_go := fun hp => hc ⟨h.1, hp⟩
        have h2 : (s.items_to_go + 65535) % 65536 = 0 := by
          have h3 : (advance s).items_to_go = (s.items_to_go + 65535) % 65536 := rfl
          omega
        intro i hi
        have h0 : i = 0 := by omega
        subst h0
        exact ⟨w, hr, hinv h.1⟩

theorem get_next_false_invalid (hw : Nat) (s : State) (out : Outputs) (s1 : State)
    (out1 : Outputs)
    (h : population_table_get_next_address hw s out = some (false, s1, out1))
    (hwrap : s.next_item + s.items_to_go ≤ 65536) :
    ∀ i, i < s.items_to_go → ∃ v, s.address_list[s.next_item + i]? = some v ∧
      (address_list_entry.addr v).address = INVALID_ADDRESS := by
  unfold population_table_get_next_address at h
  split at h
  · intro i hi
    omega
  · exact get_next_loop_false_invalid hw _ s out s1 out1 h (by omega) hwrap

theorem get_first_address_ghost (hw : Nat) (s : State) (spike ra nb p : Nat)
    (e : master_population_table_entry) (x : Nat)
    (hfind : population_table_position_in_the_master_pop_array s spike = some (some p))
    (he : s.master_population_table[p]? = some e)
    (hx : e.extra_info_flag = true → s.address_list[e.start]? = some x)
    (hwrap : e.start + extra_slots e + e.count ≤ 65536)
    (hfilter : filter_rejects { s with last_neuron_id := cursor_neuron_id e x spike } p
      = some false)
    (hinv : ∀ i, i < e.count → ∃ v, s.address_list[e.start + extra_slots e + i]? = some v ∧
      (address_list_entry.addr v).address = INVALID_ADDRESS) :
    population_table_get_first_address hw s spike ra nb =
      some (false,
        { s with
          last_spike := spike
          last_neuron_id := cursor_neuron_id e x spike
          next_item := (e.start + extra_slots e + e.count) % 65536
          items_to_go := 0
          ghost_pop_table_searches := (s.ghost_pop_table_searches + 1) % 4294967296 },
        ra, nb) := by
  rw [get_first_address_pass hw s spike ra nb p e x hfind he hx hfilter]
  by_cases hc : e.count = 0
  · have hb : (e.start + extra_slots e) % 65536 = e.start + extra_slots e := by
      have h1 := start_lt e
      have h2 : extra_slots e ≤ 1 := by unfold extra_slots; split <;> omega
      omega
    simp [population_table_get_next_address, hc, hb]
  · obtain ⟨n, hn⟩ : ∃ n, e.count = n + 1 := ⟨e.count - 1, by omega⟩
    rw [get_next_all_invalid hw n _ _ hn (by rw [← hn]; exact hwrap)
      (by rw [← hn]; exact hinv)]
    simp [hn]

/-- Ghost-search accounting for entries with
`start + extra_info_flag + count <= 65536`, for which the 16-bit cursor does not
wrap inside the slice. -/
theorem ghost_search_accounting_below_wrap (hw : Nat) (s : State) (spike ra nb : Nat)
    (hwrap : ∀ p e, population_table_position_in_the_master_pop_array s spike = some (some p) →
      s.master_population_table[p]? = some e → e.start + extra_slots e + e.count ≤ 65536) :
    (ghost_condition s spike →
      ∃ s1, population_table_get_first_address hw s spike ra nb = some (false, s1, ra, nb) ∧
        s1.ghost_pop_table_searches = (s.ghost_pop_table_searches + 1) % 4294967296 ∧
        (s.ghost_pop_table_searches < 4294967295 →
          s1.ghost_pop_table_searches = s.ghost_pop_table_searches + 1)) ∧
    (∀ r s1 a b, population_table_get_first_address hw s spike ra nb = some (r, s1, a, b) →
      ¬ ghost_condition s spike →
      s1.ghost_pop_table_searches = s.ghost_pop_table_searches) := by
  constructor
  · rintro ⟨p, e, x, hfind, he, hx, hf, hinv⟩
    refine ⟨_, get_first_address_ghost hw s spike ra nb p e x hfind he hx (hwrap p e hfind he)
      hf hinv, rfl, ?_⟩
    intro hlt
    exact Nat.mod_eq_of_lt (by omega)
  · intro r s1 a b h hno
    rcases get_first_address_cases hw s spike ra nb r s1 a b h with
      ⟨-, -, hs1, -, -⟩ | ⟨p, e, s2, hfind, he, hs2, hrest⟩
    · rw [hs1]
    · obtain ⟨x, hx, hs2eq⟩ := set_cursor_some s e spike s2 hs2
      rcases hrest with ⟨-, -, hs1, -, -⟩ | ⟨hf, g, s3, out, hn, -, -, -, hg⟩
      · rw [hs1, hs2eq]
      · have hfr := get_next_frame hw _ _ _ _ _ hn
        have h3 : s3.ghost_pop_table_searches = s.ghost_pop_table_searches := by
          rw [hfr, hs2eq]
        rcases hg with ⟨hg, -⟩ | ⟨-, hs1⟩
        · exfalso
          apply hno
          rw [hg, hs2eq] at hn
          rw [hs2eq] at hf
          exact ⟨p, e, x, hfind, he, hx, (filter_rejects_congr _ _ p rfl rfl).trans hf,
            get_next_false_invalid hw _ _ _ _ hn (hwrap p e hfind he)⟩
        · rw [hs1]
          exact h3

theorem entries_of_words_length (ws : List Nat) :
    (entries_of_words ws).length = ws.length / 3 := by
  induction ws using entries_of_words.induct with
  | case1 key mask bits rest ih =>
    simp only [entries_of_words, List.length_cons, ih]
    omega
  | case2 ws h =>
    have hlt : ws.length < 3 := by
      match ws, h with
      | [], _ => simp
      | [_], _ => simp
      | [_, _], _ => simp
      | k :: m :: b :: rest, h => exact absurd rfl (h k m b rest)
    rw [entries_of_words.eq_2 ws h]
    simp only [List.length_nil]
    omega

theorem entries_of_words_getElem (ws : List Nat) :
    ∀ (i : Nat) (key mask bits : Nat), ws[3 * i]? = some key → ws[3 * i + 1]? = some mask →
      ws[3 * i + 2]? = some bits →
      (entries_of_words ws)[i]? = some { key := key, mask := mask, bits := bits } := by
  induction ws using entries_of_words.induct with
  | case1 k m b rest ih =>
    intro i key mask bits h0 h1 h2
    cases i with
    | zero =>
      simp only [Nat.mul_zero, Nat.zero_add, List.getElem?_cons_zero, List.getElem?_cons_succ,
        Option.some.injEq] at h0 h1 h2
      simp only [entries_of_words, List.getElem?_cons_zero, h0, h1, h2]
    | succ j =>
      have e0 : 3 * (j + 1) = (3 * j) + 1 + 1 + 1 := by omega
      have e1 : 3 * (j + 1) + 1 = (3 * j + 1) + 1 + 1 + 1 := by omega
      have e2 : 3 * (j + 1) + 2 = (3 * j + 2) + 1 + 1 + 1 := by omega
      rw [e0] at h0
      rw [e1] at h1
      rw [e2] at h2
      simp only [List.getElem?_cons_succ] at h0 h1 h2
      simp only [entries_of_words, List.getElem?_cons_succ]
      exact ih j key mask bits h0 h1 h2
  | case2 ws h =>
    intro i key mask bits h0 h1 h2
    exfalso
    have hlen : 3 * i + 2 < ws.length := (List.getElem?_eq_some_iff.mp h2).1
    match ws, h with
    | [], _ => simp at hlen
    | [_], _ => simp at hlen
    | [_, _], _ => simp at hlen
    | k :: m :: b :: rest, h => exact h k m b rest rfl

/-! ## Lemmas on print_master_population_table -/

theorem print_entry_loop_diverges (s : State) (bound : Nat) (hb : 65536 ≤ bound) :
    ∀ (fuel j : Nat), j < 65536 → print_entry_loop s bound fuel j = none := by
  intro fuel
  induction fuel with
  | zero => intro j _; rfl
  | succ n ih =>
    intro j hj
    simp only [print_entry_loop]
    rw [if_pos (by omega)]
    split
    · rfl
    · exact ih _ (Nat.mod_lt _ (by decide))

theorem print_entry_loop_some (s : State) (bound : Nat) :
    ∀ (fuel j : Nat), j ≤ bound → j < 65536 → print_entry_loop s bound fuel j = some () →
      bound ≤ 65535 ∧ ∀ k, j ≤ k → k < bound → ∃ (w : Nat), s.address_list[k]? = some w := by
  intro fuel
  induction fuel with
  | zero => intro j _ _ h; simp [print_entry_loop] at h
  | succ n ih =>
    intro j hjb hj h
    have hbound : bound ≤ 65535 := by
      by_contra hnot
      rw [print_entry_loop_diverges s bound (by omega) _ j hj] at h
      simp at h
    refine ⟨hbound, ?_⟩
    simp only [print_entry_loop] at h
    split at h
    · rename_i hlt
      split at h
      · simp at h
      · rename_i w hw
        rw [Nat.mod_eq_of_lt (by omega : j + 1 < 65536)] at h
        obtain ⟨-, hrest⟩ := ih (j + 1) (by omega) (by omega) h
        intro k hk1 hk2
        by_cases hkj : k = j
        · subst hkj
          exact ⟨w, hw⟩
        · exact hrest k (by omega) hk2
    · intro k hk1 hk2
      omega

theorem print_entry_loop_total (s : State) (bound : Nat) (hb : bound ≤ 65535) :
    ∀ (fuel j : Nat), j ≤ bound → bound - j < fuel →
      (∀ k, j ≤ k → k < bound → ∃ (w : Nat), s.address_list[k]? = some w) →
      print_entry_loop s bound fuel j = some () := by
  intro fuel
  induction fuel with
  | zero => intro j _ h _; omega
  | succ n ih =>
    intro j hjb hfuel hread
    simp only [print_entry_loop]
    split
    · rename_i hlt
      obtain ⟨w, hw⟩ := hread j (Nat.le_refl _) hlt
      simp only [hw]
      rw [Nat.mod_eq_of_lt (by omega : j + 1 < 65536)]
      exact ih (j + 1) (by omega) (by omega) (fun k hk1 hk2 => hread k (by omega) hk2)
    · rfl

theorem print_entry_iff (s : State) (e : master_population_table_entry) :
    print_entry s e = some () ↔ slice_readable s e := by
  have hstart := start_lt e
  have hcount := count_lt e
  unfold print_entry slice_readable extra_slots
  cases hflag : e.extra_info_flag
  · simp only [Bool.false_eq_true, if_false, Nat.add_zero, Nat.zero_add]
    rw [Nat.mod_eq_of_lt (by omega : e.start < 65536)]
    constructor
    · intro h
      obtain ⟨h1, h2⟩ := print_entry_loop_some s _ _ e.start (by omega) (by omega) h
      exact ⟨h1, fun k hk => h2 (e.start + k) (by omega) (by omega)⟩
    · rintro ⟨h1, h2⟩
      refine print_entry_loop_total s _ h1 _ e.start (by omega) (by omega) fun k hk1 hk2 => ?_
      obtain ⟨w, hw⟩ := h2 (k - e.start) (by omega)
      rw [show e.start + (k - e.start) = k by omega] at hw
      exact ⟨w, hw⟩
  · simp only [if_true]
    rw [Nat.mod_eq_of_lt (by omega : e.start + 1 < 65536)]
    constructor
    · intro h
      split at h
      · simp at h
      · rename_i x hx
        obtain ⟨h1, h2⟩ := print_entry_loop_some s _ _ (e.start + 1) (by omega) (by omega) h
        refine ⟨h1, fun k hk => ?_⟩
        by_cases hk0 : k = 0
        · subst hk0
          exact ⟨x, hx⟩
        · exact h2 (e.start + k) (by omega) (by omega)
    · rintro ⟨h1, h2⟩
      obtain ⟨x, hx⟩ := h2 0 (by omega)
      rw [Nat.add_zero] at hx
      simp only [hx]
      refine print_entry_loop_total s _ h1 _ (e.start + 1) (by omega) (by omega)
        fun k hk1 hk2 => ?_
      obtain ⟨w, hw⟩ := h2 (k - e.start) (by omega)
      rw [show e.start + (k - e.start) = k by omega] at hw
      exact ⟨w, hw⟩

theorem print_table_loop_some (s : State) (hlen : s.master_population_table.length < 4294967296) :
    ∀ (fuel i : Nat), print_table_loop s fuel i = some () →
      ∀ (p : Nat) (e : master_population_table_entry), i ≤ p →
        s.master_population_table[p]? = some e → slice_readable s e := by
  intro fuel
  induction fuel with
  | zero => intro i h; simp [print_table_loop] at h
  | succ n ih =>
    intro i h p e hip hp
    have hplt : p < s.master_population_table.length := (List.getElem?_eq_some_iff.mp hp).1
    simp only [print_table_loop] at h
    rw [if_pos (by omega)] at h
    split at h
    · simp at h
    · rename_i entry hentry
      split at h
      · simp at h
      · rename_i u hprint
        rw [Nat.mod_eq_of_lt (by omega : i + 1 < 4294967296)] at h
        by_cases hpi : p = i
        · subst hpi
          rw [hentry] at hp
          rw [← Option.some.inj hp]
          exact (print_entry_iff s entry).mp hprint
        · exact ih (i + 1) h p e (by omega) hp

theorem print_table_loop_total (s : State)
    (hlen : s.master_population_table.length < 4294967296) (hload : loadable s) :
    ∀ (fuel i : Nat), i ≤ s.master_population_table.length →
      s.master_population_table.length - i < fuel → print_table_loop s fuel i = some () := by
  intro fuel
  induction fuel with
  | zero => intro i _ h; omega
  | succ n ih =>
    intro i hi hfuel
    simp only [print_table_loop]
    split
    · rename_i hlt
      rw [List.getElem?_eq_getElem hlt]
      simp only []
      rw [(print_entry_iff s _).mpr (hload i _ (List.getElem?_eq_getElem hlt))]
      simp only []
      rw [Nat.mod_eq_of_lt (by omega : i + 1 < 4294967296)]
      exact ih (i + 1) (by omega) (by omega)
    · rfl

theorem print_iff_loadable (s : State) (hlen : s.master_population_table.length < 4294967296) :
    print_master_population_table s = some () ↔ loadable s :=
  ⟨fun h p e hp => print_table_loop_some s hlen _ 0 h p e (Nat.zero_le _) hp,
    fun h => print_table_loop_total s hlen h _ 0 (Nat.zero_le _) (by omega)⟩

theorem loadable_congr (s t : State) (h1 : t.master_population_table = s.master_population_table)
    (h2 : t.address_list = s.address_list) (h : loadable s) : loadable t := by
  intro p e hp
  rw [h1] at hp
  obtain ⟨ha, hb⟩ := h p e hp
  exact ⟨ha, fun k hk => by rw [h2]; exact hb k hk⟩

theorem initialise_success (hw : Nat) (s : State) (blob : List Nat)
    (syn dir : Nat) (mt ml : Bool) (N M : Nat)
    (h0 : blob[0]? = some N) (h1 : blob[1]? = some M)
    (hN : N * 12 < 4294967296) (hM : M * 4 < 4294967296)
    (hlen : 2 + 3 * N + M ≤ blob.length)
    (hmt : N ≠ 0 → mt = true) (hml : M ≠ 0 → ml = true)
    (hprint : print_master_population_table
      { s with
        master_population_table := entries_of_words ((blob.drop 2).take (3 * N))
        address_list :=
          if M ≠ 0 then (blob.drop (2 + 3 * N)).take M else s.address_list
        synaptic_rows_base_address := syn
        direct_rows_base_address := dir } = some ()) :
    population_table_initialise hw s blob syn dir mt ml =
      some (some
        ({ s with
            master_population_table := entries_of_words ((blob.drop 2).take (3 * N))
            address_list :=
              if M ≠ 0 then (blob.drop (2 + 3 * N)).take M else s.address_list
            synaptic_rows_base_address := syn
            direct_rows_base_address := dir },
          (MAX_ROW_LENGTH + hw) % 4294967296)) := by
  have hbytes : (N * 12) % 4294967296 = N * 12 := Nat.mod_eq_of_lt hN
  have hwords : (N * 12) >>> 2 = 3 * N := by
    rw [Nat.shiftRight_eq_div_pow]
    omega
  have hlist : (M * 4) % 4294967296 = M * 4 := Nat.mod_eq_of_lt hM
  have hlw : M * 4 / 4 = M := by omega
  have hc1 : ¬ (N * 12 ≠ 0 ∧ mt = false) := by
    rintro ⟨hn, hf⟩
    rw [hmt (by omega)] at hf
    exact absurd hf (by decide)
  have hc2 : ¬ (M * 4 ≠ 0 ∧ ml = false) := by
    rintro ⟨hn, hf⟩
    rw [hml (by omega)] at hf
    exact absurd hf (by decide)
  have hc3 : (M * 4 ≠ 0) = (M ≠ 0) := by
    apply propext
    constructor <;> intro h <;> omega
  unfold population_table_initialise
  simp only [h0, h1, hbytes, hwords, hlist, hlw]
  rw [if_neg (by omega), if_neg hc1, if_neg hc2, if_neg (by omega)]
  simp only [hc3, hprint]

theorem initialise_stops (hw : Nat) (s : State) (blob : List Nat)
    (syn dir : Nat) (mt ml : Bool) (N M : Nat)
    (h0 : blob[0]? = some N) (h1 : blob[1]? = some M)
    (hN : N * 12 < 4294967296) (hM : M * 4 < 4294967296)
    (hlen : 2 + 3 * N + M ≤ blob.length)
    (hmt : N ≠ 0 → mt = true) (hml : M ≠ 0 → ml = true)
    (hprint : print_master_population_table
      { s with
        master_population_table := entries_of_words ((blob.drop 2).take (3 * N))
        address_list :=
          if M ≠ 0 then (blob.drop (2 + 3 * N)).take M else s.address_list
        synaptic_rows_base_address := syn
        direct_rows_base_address := dir } = none) :
    population_table_initialise hw s blob syn dir mt ml = none := by
  have hbytes : (N * 12) % 4294967296 = N * 12 := Nat.mod_eq_of_lt hN
  have hwords : (N * 12) >>> 2 = 3 * N := by
    rw [Nat.shiftRight_eq_div_pow]
    omega
  have hlist : (M * 4) % 4294967296 = M * 4 := Nat.mod_eq_of_lt hM
  have hlw : M * 4 / 4 = M := by omega
  have hc1 : ¬ (N * 12 ≠ 0 ∧ mt = false) := by
    rintro ⟨hn, hf⟩
    rw [hmt (by omega)] at hf
    exact absurd hf (by decide)
  have hc2 : ¬ (M * 4 ≠ 0 ∧ ml = false) := by
    rintro ⟨hn, hf⟩
    rw [hml (by omega)] at hf
    exact absurd hf (by decide)
  have hc3 : (M * 4 ≠ 0) = (M ≠ 0) := by
    apply propext
    constructor <;> intro h <;> omega
  unfold population_table_initialise
  simp only [h0, h1, hbytes, hwords, hlist, hlw]
  rw [if_neg (by omega), if_neg hc1, if_neg hc2, if_neg (by omega)]
  simp only [hc3, hprint]

/-- Counterexample to claim C16 as stated: for `missing_list_blob` and for
`long_slice_blob` the sizes `12 * N` and `4 * M` fit 32 bits, the blob holds its
`2 + 3 * N + M` words and the allocations succeed, and
`population_table_initialise` does not return true. Its closing call of
`print_master_population_table` reads the slots of every entry through a
`uint16_t` index: for the first blob it reads slot 0 of an address list that was
not allocated, for the second one the index never reaches the bound 65536 of the
loop. -/
theorem initialise_stops_on_unreadable_slice :
    (missing_list_blob[0]? = some 1 ∧ missing_list_blob[1]? = some 0 ∧
      2 + 3 * 1 + 0 ≤ missing_list_blob.length ∧
      population_table_initialise 3 initial_state missing_list_blob 0x60000000 0x70000000
        true true = none) ∧
    (long_slice_blob[0]? = some 1 ∧ long_slice_blob[1]? = some 65536 ∧
      2 + 3 * 1 + 65536 ≤ long_slice_blob.length ∧
      (∃ e, entries_of_words ((long_slice_blob.drop 2).take 3) = [e] ∧ e.start = 1 ∧
        e.extra_info_flag = false ∧ e.count = 65535) ∧
      population_table_initialise 3 initial_state long_slice_blob 0x60000000 0x70000000
        true true = none) := by
  have hlen : long_slice_blob.length = 65541 := by
    unfold long_slice_blob
    rw [List.length_cons, List.length_cons, List.length_cons, List.length_cons,
      List.length_cons, List.length_replicate]
  have h0 : long_slice_blob[0]? = some 1 := by
    unfold long_slice_blob
    exact List.getElem?_cons_zero
  have h1 : long_slice_blob[1]? = some 65536 := by
    unfold long_slice_blob
    rw [List.getElem?_cons_succ]
    exact List.getElem?_cons_zero
  have hwords : (long_slice_blob.drop 2).take 3 =
      [0x4, 0xFFFFFFFC, pack_entry_bits 1 false 65535] := by
    unfold long_slice_blob
    simp only [List.drop_succ_cons, List.drop_zero, List.take_succ_cons, List.take_zero]
  have htable : entries_of_words ((long_slice_blob.drop 2).take 3) =
      [{ key := 0x4, mask := 0xFFFFFFFC, bits := pack_entry_bits 1 false 65535 }] := by
    rw [hwords]
    rfl
  have hlong : 2 + 3 * 1 + 65536 ≤ long_slice_blob.length := by
    rw [hlen]
  refine ⟨⟨rfl, rfl, by decide, by decide⟩, h0, h1, hlong,
    ⟨_, htable, by decide, by decide, by decide⟩, ?_⟩
  apply initialise_stops 3 initial_state long_slice_blob 0x60000000 0x70000000 true true 1 65536
    h0 h1 (by decide) (by decide) hlong (fun _ => rfl) (fun _ => rfl)
  cases hprint : print_master_population_table
      { initial_state with
        master_population_table := entries_of_words ((long_slice_blob.drop 2).take (3 * 1))
        address_list :=
          if 65536 ≠ 0 then (long_slice_blob.drop (2 + 3 * 1)).take 65536
          else initial_state.address_list
        synaptic_rows_base_address := 0x60000000
        direct_rows_base_address := 0x70000000 } with
  | none => rfl
  | some u =>
    exfalso
    have hload := (print_iff_loadable _ (by
      show (entries_of_words ((long_slice_blob.drop 2).take (3 * 1))).length < 4294967296
      rw [show 3 * 1 = 3 by decide, htable]
      exact (by decide : 1 < 4294967296))).mp hprint
    have hentry := hload 0 { key := 0x4, mask := 0xFFFFFFFC, bits := pack_entry_bits 1 false 65535 }
      (by
        show (entries_of_words ((long_slice_blob.drop 2).take (3 * 1)))[0]? = _
        rw [show 3 * 1 = 3 by decide, htable]
        rfl)
    exact absurd hentry.1 (by decide)

/-- Claim C16, amended. Load layout for blobs whose slices can be read: for a
blob with `N = word[0]` and `M = word[1]`, `12 * N` and `4 * M` fitting 32 bits,
the blob holding the `2 + 3 * N + M` words, and every entry `i < N` having
`start + extra_info_flag + count` at most `M` and at most 65535,
`population_table_initialise` returns true when the allocations it makes
succeed, and afterwards `population_table_length` is `N`, the key and the mask
of entry `i` are `word[2 + 3 * i]` and `word[3 + 3 * i]`, its `start`,
`extra_info_flag` and `count` are the 15, 1 and 16 bit fields of
`word[4 + 3 * i]`, slot `j` of the address list is `word[2 + 3 * N + j]`, and the
two base addresses are stored as given. -/
theorem load_layout (hw : Nat) (s : State) (blob : List Nat)
    (syn dir : Nat) (mt ml : Bool) (N M : Nat)
    (h0 : blob[0]? = some N) (h1 : blob[1]? = some M)
    (hN : N * 12 < 4294967296) (hM : M * 4 < 4294967296)
    (hlen : 2 + 3 * N + M ≤ blob.length)
    (hmt : N ≠ 0 → mt = true) (hml : M ≠ 0 → ml = true)
    (hslices : ∀ (i key mask bits : Nat), i < N → blob[2 + 3 * i]? = some key →
      blob[3 + 3 * i]? = some mask → blob[4 + 3 * i]? = some bits →
      ({ key := key, mask := mask, bits := bits } : master_population_table_entry).start +
          extra_slots { key := key, mask := mask, bits := bits } +
          ({ key := key, mask := mask, bits := bits } : master_population_table_entry).count
        ≤ min M 65535) :
    ∃ s1 n, population_table_initialise hw s blob syn dir mt ml = some (some (s1, n)) ∧
      population_table_length s1 = N ∧
      (∀ i, i < N →
        population_table_get_spike_for_index s1 i = blob[2 + 3 * i]? ∧
        population_table_get_mask_for_entry s1 i = blob[3 + 3 * i]? ∧
        ∃ (e : master_population_table_entry) (w : Nat),
          s1.master_population_table[i]? = some e ∧ blob[4 + 3 * i]? = some w ∧
          e.start = w % 32768 ∧ e.extra_info_flag = decide ((w / 32768) % 2 = 1) ∧
          e.count = (w / 65536) % 65536) ∧
      (∀ j, j < M → s1.address_list[j]? = blob[2 + 3 * N + j]?) ∧
      s1.synaptic_rows_base_address = syn ∧ s1.direct_rows_base_address = dir := by
  have htlen : (entries_of_words ((blob.drop 2).take (3 * N))).length = N := by
    rw [entries_of_words_length, List.length_take, List.length_drop]
    omega
  have hentry : ∀ i, i < N →
      (entries_of_words ((blob.drop 2).take (3 * N)))[i]? =
        some { key := blob[2 + 3 * i + 0]?.getD 0, mask := blob[2 + 3 * i + 1]?.getD 0,
               bits := blob[2 + 3 * i + 2]?.getD 0 } ∧
      blob[2 + 3 * i + 0]? = some (blob[2 + 3 * i + 0]?.getD 0) ∧
      blob[2 + 3 * i + 1]? = some (blob[2 + 3 * i + 1]?.getD 0) ∧
      blob[2 + 3 * i + 2]? = some (blob[2 + 3 * i + 2]?.getD 0) := by
    intro i hi
    have hword : ∀ k, k < 3 → ((blob.drop 2).take (3 * N))[3 * i + k]? = blob[2 + 3 * i + k]? := by
      intro k hk
      rw [List.getElem?_take_of_lt (by omega), List.getElem?_drop]
      congr 1
      omega
    have hget : ∀ k, k < 3 → blob[2 + 3 * i + k]? = some (blob[2 + 3 * i + k]?.getD 0) := by
      intro k hk
      have hk0 : 2 + 3 * i + k < blob.length := by omega
      rw [List.getElem?_eq_getElem hk0]
      rfl
    exact ⟨entries_of_words_getElem ((blob.drop 2).take (3 * N)) i _ _ _
        ((hword 0 (by omega)).trans (hget 0 (by omega)))
        ((hword 1 (by omega)).trans (hget 1 (by omega)))
        ((hword 2 (by omega)).trans (hget 2 (by omega))),
      hget 0 (by omega), hget 1 (by omega), hget 2 (by omega)⟩
  have hload : loadable
      { s with
        master_population_table := entries_of_words ((blob.drop 2).take (3 * N))
        address_list := if M ≠ 0 then (blob.drop (2 + 3 * N)).take M else s.address_list
        synaptic_rows_base_address := syn
        direct_rows_base_address := dir } := by
    intro p e hp
    have hp2 : (entries_of_words ((blob.drop 2).take (3 * N)))[p]? = some e := hp
    have hpN : p < N := by
      rw [← htlen]
      exact (List.getElem?_eq_some_iff.mp hp2).1
    obtain ⟨he, hk0, hk1, hk2⟩ := hentry p hpN
    rw [he] at hp2
    have hbound := hslices p _ _ _ hpN hk0
      (by rw [show 3 + 3 * p = 2 + 3 * p + 1 by omega]; exact hk1)
      (by rw [show 4 + 3 * p = 2 + 3 * p + 2 by omega]; exact hk2)
    rw [Option.some.inj hp2] at hbound
    refine ⟨by omega, fun k hk => ?_⟩
    have hM0 : M ≠ 0 := by omega
    show ∃ (w : Nat), (if M ≠ 0 then (blob.drop (2 + 3 * N)).take M else s.address_list)[e.start + k]?
      = some w
    rw [if_pos hM0, List.getElem?_take_of_lt (by omega), List.getElem?_drop]
    exact ⟨_, List.getElem?_eq_getElem (by omega)⟩
  have hprint := (print_iff_loadable _ (by
    show (entries_of_words ((blob.drop 2).take (3 * N))).length < 4294967296
    omega)).mpr hload
  refine ⟨_, _, initialise_success hw s blob syn dir mt ml N M h0 h1 hN hM hlen hmt hml hprint,
    htlen, ?_, ?_, rfl, rfl⟩
  · intro i hi
    obtain ⟨he, hk0, hk1, hk2⟩ := hentry i hi
    have hentry2 : ({ s with
        master_population_table := entries_of_words ((blob.drop 2).take (3 * N))
        address_list := if M ≠ 0 then (blob.drop (2 + 3 * N)).take M else s.address_list
        synaptic_rows_base_address := syn
        direct_rows_base_address := dir } : State).master_population_table[i]? = _ := he
    refine ⟨?_, ?_, _, _, hentry2, ?_, rfl, rfl, rfl⟩
    · unfold population_table_get_spike_for_index
      rw [hentry2]
      exact hk0.symm
    · unfold population_table_get_mask_for_entry
      rw [hentry2]
      rw [show 3 + 3 * i = 2 + 3 * i + 1 by omega]
      exact hk1.symm
    · rw [show 4 + 3 * i = 2 + 3 * i + 2 by omega]
      exact hk2
  · intro j hj
    show (if M ≠ 0 then (blob.drop (2 + 3 * N)).take M else s.address_list)[j]? = _
    rw [if_pos (by omega), List.getElem?_take_of_lt hj, List.getElem?_drop]

/-- Witness for claim C16, amended: loading `multi_core_blob`, whose entry has
`start + extra_info_flag + count = 2` for `M = 2`, into the initial state. -/
theorem load_layout_witness :
    ∃ s1 n, population_table_initialise 3 initial_state multi_core_blob 0x60000000 0x70000000
        true true = some (some (s1, n)) ∧
      population_table_length s1 = 1 ∧
      population_table_get_spike_for_index s1 0 = some 0 ∧
      population_table_get_mask_for_entry s1 0 = some 0xFFFFFFE0 ∧
      s1.address_list[1]? = some (pack_address_and_row_length 3 10 false) := by
  obtain ⟨s1, n, hinit, hlen, hentries, hlist, _, _⟩ :=
    load_layout 3 initial_state multi_core_blob 0x60000000 0x70000000 true true 1 2
      (by decide) (by decide) (by decide) (by decide) (by decide) (fun _ => rfl) (fun _ => rfl)
      (by
        intro i key mask bits hi hk hm hb
        have hi0 : i = 0 := by omega
        subst hi0
        simp only [multi_core_blob, Nat.mul_zero, Nat.add_zero, List.getElem?_cons_succ,
          List.getElem?_cons_zero, Option.some.injEq] at hk hm hb
        subst hk hm hb
        decide)
  obtain ⟨hkey, hmask, _⟩ := hentries 0 (by decide)
  exact ⟨s1, n, hinit, hlen, hkey.trans (by decide), hmask.trans (by decide),
    (hlist 1 (by decide)).trans (by decide)⟩

theorem initialise_prints (hw : Nat) (s : State) (blob : List Nat) (syn dir : Nat)
    (mt ml : Bool) (s1 : State) (n : Nat)
    (h : population_table_initialise hw s blob syn dir mt ml = some (some (s1, n))) :
    n = (MAX_ROW_LENGTH + hw) % 4294967296 ∧ print_master_population_table s1 = some () ∧
      s1.master_population_table.length < 4294967296 := by
  unfold population_table_initialise at h
  split at h
  · simp at h
  · rename_i N h0
    split at h
    · simp at h
    · split at h
      · simp at h
      · try dsimp only at h
        split at h
        · simp at h
        · try dsimp only at h
          split at h
          · simp at h
          · try dsimp only at h
            split at h
            · simp at h
            · try dsimp only at h
              split at h
              · simp at h
              · rename_i u hprint
                simp only [Option.some.injEq, Prod.mk.injEq] at h
                obtain ⟨hs1, hn⟩ := h
                refine ⟨hn.symm, ?_, ?_⟩
                · rw [← hs1]
                  exact hprint
                · rw [← hs1]
                  show (entries_of_words _).length < 4294967296
                  rw [entries_of_words_length, List.length_take]
                  have h1 : (N * 12 % 4294967296) >>> 2 < 4294967296 := by
                    rw [Nat.shiftRight_eq_div_pow]
                    omega
                  omega

theorem initialise_row_max (hw : Nat) (s : State) (blob : List Nat) (syn dir : Nat)
    (mt ml : Bool) (s1 : State) (n : Nat)
    (h : population_table_initialise hw s blob syn dir mt ml = some (some (s1, n))) :
    n = (MAX_ROW_LENGTH + hw) % 4294967296 :=
  (initialise_prints hw s blob syn dir mt ml s1 n h).1

theorem get_first_address_true (hw : Nat) (s : State) (spike ra nb : Nat) (s1 : State)
    (a b : Nat)
    (h : population_table_get_first_address hw s spike ra nb = some (true, s1, a, b)) :
    ∃ (s2 : State) (out : Outputs), s2.address_list = s.address_list ∧
      population_table_get_next_address hw s2
        { spike := 0, row_address := ra, n_bytes_to_transfer := nb } = some (true, s1, out) ∧
      a = out.row_address ∧ b = out.n_bytes_to_transfer := by
  rcases get_first_address_cases hw s spike ra nb true s1 a b h with
    ⟨-, hr, -⟩ | ⟨p, e, s2, -, -, hs2, hrest⟩
  · exact absurd hr (by decide)
  · obtain ⟨x, -, hs2eq⟩ := set_cursor_some s e spike s2 hs2
    rcases hrest with ⟨-, hr, -⟩ | ⟨-, g, s3, out, hn, hg, ha, hb, hcase⟩
    · exact absurd hr (by decide)
    · rcases hcase with ⟨hg2, -⟩ | ⟨-, hs1⟩
      · rw [hg2] at hg
        exact absurd hg (by decide)
      · rw [← hg, ← hs1] at hn
        exact ⟨s2, out, by rw [hs2eq], hn, ha, hb⟩

theorem emitted_size (hw : Nat) (hhw : (MAX_ROW_LENGTH + hw) * 4 < 4294967296) (s : State)
    (out : Outputs) (s1 : State) (out1 : Outputs)
    (h : population_table_get_next_address hw s out = some (true, s1, out1)) :
    ∃ (slot : Nat) (w : Nat), s.address_list[slot]? = some w ∧
      s1.next_item = (slot + 1) % 65536 ∧
      (address_list_entry.addr w).address ≠ INVALID_ADDRESS ∧
      out1.n_bytes_to_transfer ≤ (MAX_ROW_LENGTH + hw) * 4 ∧
      (out1.n_bytes_to_transfer = (MAX_ROW_LENGTH + hw) * 4 ↔
        ((address_list_entry.addr w).is_single = false ∧
          (address_list_entry.addr w).row_length = 255)) := by
  obtain ⟨slot, w, hr, hn, hv, ho⟩ := get_next_emits hw s out s1 out1 h
  refine ⟨slot, w, hr, hn, hv, ?_⟩
  have hd := congrArg Prod.snd (emit_descriptor hw s w out hv)
  simp only at hd
  have hrl : (address_list_entry.addr w).row_length < 256 := Nat.mod_lt _ (by decide)
  have hhw2 : (256 + hw) * 4 < 4294967296 := hhw
  have hmax : (MAX_ROW_LENGTH + hw) * 4 = (256 + hw) * 4 := rfl
  rw [ho, hd, hmax]
  unfold spec_descriptor
  cases hs : (address_list_entry.addr w).is_single
  · simp only [Bool.false_eq_true, if_false, true_and]
    omega
  · simp only [if_true, Bool.true_eq_false, false_and, iff_false]
    omega

/-- Claim C17. `row_max_n_words` is the maximum row size: for a header size with
`(MAX_ROW_LENGTH + header_words) * 4` fitting 32 bits,
`population_table_initialise` stores `MAX_ROW_LENGTH + header_words` whenever it
returns true, and every `n_bytes_to_transfer` that
`population_table_get_next_address` or `population_table_get_first_address`
emits is at most that number of words times 4, with equality exactly for a
record that is not single and has `row_length = 255`. -/
theorem row_max_words_bounds_transfer (hw : Nat)
    (hhw : (MAX_ROW_LENGTH + hw) * 4 < 4294967296) :
    (∀ s blob syn dir mt ml s1 n,
      population_table_initialise hw s blob syn dir mt ml = some (some (s1, n)) →
      n = MAX_ROW_LENGTH + hw) ∧
    (∀ s out s1 out1,
      population_table_get_next_address hw s out = some (true, s1, out1) →
      ∃ (slot : Nat) (w : Nat), s.address_list[slot]? = some w ∧
        s1.next_item = (slot + 1) % 65536 ∧
        out1.n_bytes_to_transfer ≤ (MAX_ROW_LENGTH + hw) * 4 ∧
        (out1.n_bytes_to_transfer = (MAX_ROW_LENGTH + hw) * 4 ↔
          ((address_list_entry.addr w).is_single = false ∧
            (address_list_entry.addr w).row_length = 255))) ∧
    (∀ s spike ra nb s1 a b,
      population_table_get_first_address hw s spike ra nb = some (true, s1, a, b) →
      ∃ (slot : Nat) (w : Nat), s.address_list[slot]? = some w ∧
        s1.next_item = (slot + 1) % 65536 ∧
        b ≤ (MAX_ROW_LENGTH + hw) * 4 ∧
        (b = (MAX_ROW_LENGTH + hw) * 4 ↔
          ((address_list_entry.addr w).is_single = false ∧
            (address_list_entry.addr w).row_length = 255))) := by
  refine ⟨?_, ?_, ?_⟩
  · intro s blob syn dir mt ml s1 n h
    rw [initialise_row_max hw s blob syn dir mt ml s1 n h]
    have h2 : (256 + hw) * 4 < 4294967296 := hhw
    show (256 + hw) % 4294967296 = 256 + hw
    omega
  · intro s out s1 out1 h
    obtain ⟨slot, w, hr, hn, -, hle, heq⟩ := emitted_size hw hhw s out s1 out1 h
    exact ⟨slot, w, hr, hn, hle, heq⟩
  · intro s spike ra nb s1 a b h
    obtain ⟨s2, out, hal, hnext, -, hb⟩ := get_first_address_true hw s spike ra nb s1 a b h
    obtain ⟨slot, w, hr, hn, -, hle, heq⟩ := emitted_size hw hhw s2 _ s1 out hnext
    rw [hal] at hr
    rw [hb]
    exact ⟨slot, w, hr, hn, hle, heq⟩

/-- Witness for claim C17: with 3 header words the loaded `multi_core_blob` gives
`row_max_n_words = 259`, and the row of the end-to-end scenario has 28 bytes,
less than `259 * 4`. -/
theorem row_max_words_bounds_transfer_witness :
    (MAX_ROW_LENGTH + 3) * 4 < 4294967296 ∧
      (∃ s1, population_table_initialise 3 initial_state multi_core_blob 0x60000000
          0x70000000 true true = some (some (s1, 259))) ∧
      ∃ s1 a b, population_table_get_first_address 3 scenario 0x6 0 0 = some (true, s1, a, b) ∧
        b ≤ (MAX_ROW_LENGTH + 3) * 4 := by
  have h := row_max_words_bounds_transfer 3 (by decide)
  have hget : population_table_get_first_address 3 scenario 0x6 0 0 =
      some (true,
        { scenario with last_spike := 0x6, last_neuron_id := 2, next_item := 1,
                        items_to_go := 1 },
        0x60000000 + (10 <<< 4) + 2 * (4 + 3) * 4, (3 + 1 + 3) * 4) := by decide
  obtain ⟨_, _, _, _, hle, _⟩ := h.2.2 _ _ _ _ _ _ _ hget
  exact ⟨by decide, ⟨unfiltered_multi_core, by decide⟩, _, _, _, hget, hle⟩

theorem pack_address_arith (row_length address k : Nat) (h1 : row_length < 256)
    (h2 : address < 8388608) (hk : k = 0 ∨ k = 2147483648) :
    (row_length + address * 256 + k) % 256 = row_length ∧
      (row_length + address * 256 + k) / 256 % 8388608 = address ∧
      ((row_length + address * 256 + k) / 2147483648 % 2 = 1 ↔ k = 2147483648) ∧
      row_length + address * 256 + k < 4294967296 := by
  rcases hk with hk | hk <;> subst hk <;> refine ⟨?_, ?_, ?_, ?_⟩ <;> omega

theorem pack_extra_arith (core_mask mask_shift n_neurons : Nat) (h1 : core_mask < 65536)
    (h2 : mask_shift < 32) (h3 : n_neurons < 2048) :
    (core_mask + mask_shift * 65536 + n_neurons * 2097152) % 65536 = core_mask ∧
      (core_mask + mask_shift * 65536 + n_neurons * 2097152) / 65536 % 32 = mask_shift ∧
      (core_mask + mask_shift * 65536 + n_neurons * 2097152) / 2097152 % 2048 = n_neurons ∧
      core_mask + mask_shift * 65536 + n_neurons * 2097152 < 4294967296 := by
  refine ⟨?_, ?_, ?_, ?_⟩ <;> omega

theorem pack_entry_arith (start count k : Nat) (h1 : start < 32768) (h2 : count < 65536)
    (hk : k = 0 ∨ k = 32768) :
    (start + k + count * 65536) % 32768 = start ∧
      ((start + k + count * 65536) / 32768 % 2 = 1 ↔ k = 32768) ∧
      (start + k + count * 65536) / 65536 % 65536 = count ∧
      start + k + count * 65536 < 4294967296 := by
  rcases hk with hk | hk <;> subst hk <;> refine ⟨?_, ?_, ?_, ?_⟩ <;> omega

/-- Claim C18. Packed record round trip: packing the fields of an address
record (`row_length < 2^8`, `address < 2^23`, `is_single`), of an extra info
(`core_mask < 2^16`, `mask_shift < 2^5`, `n_neurons < 2^11`) or of the third word
of a table entry (`start < 2^15`, `extra_info_flag`, `count < 2^16`) into one word
with these bit widths gives a 32-bit word from which the accessors of the code
read every field back. -/
theorem packed_round_trip :
    (∀ (row_length address : Nat) (is_single : Bool), row_length < 256 → address < 8388608 →
      address_list_entry.addr (pack_address_and_row_length row_length address is_single) =
        { row_length := row_length, address := address, is_single := is_single } ∧
      pack_address_and_row_length row_length address is_single < 4294967296) ∧
    (∀ (core_mask mask_shift n_neurons : Nat), core_mask < 65536 → mask_shift < 32 →
      n_neurons < 2048 →
      address_list_entry.extra (pack_extra_info core_mask mask_shift n_neurons) =
        { core_mask := core_mask, mask_shift := mask_shift, n_neurons := n_neurons } ∧
      pack_extra_info core_mask mask_shift n_neurons < 4294967296) ∧
    (∀ (key mask start count : Nat) (extra_flag : Bool), start < 32768 → count < 65536 →
      master_population_table_entry.start
        { key := key, mask := mask, bits := pack_entry_bits start extra_flag count } = start ∧
      master_population_table_entry.extra_info_flag
        { key := key, mask := mask, bits := pack_entry_bits start extra_flag count }
        = extra_flag ∧
      master_population_table_entry.count
        { key := key, mask := mask, bits := pack_entry_bits start extra_flag count } = count ∧
      pack_entry_bits start extra_flag count < 4294967296) := by
  refine ⟨?_, ?_, ?_⟩
  · intro row_length address is_single h1 h2
    cases is_single
    · have h := pack_address_arith row_length address 0 h1 h2 (Or.inl rfl)
      refine ⟨?_, h.2.2.2⟩
      show address_and_row_length.mk _ _ _ = _
      rw [address_and_row_length.mk.injEq]
      exact ⟨h.1, h.2.1, decide_eq_false (fun hc => absurd (h.2.2.1.mp hc) (by decide))⟩
    · have h := pack_address_arith row_length address 2147483648 h1 h2 (Or.inr rfl)
      refine ⟨?_, h.2.2.2⟩
      show address_and_row_length.mk _ _ _ = _
      rw [address_and_row_length.mk.injEq]
      exact ⟨h.1, h.2.1, decide_eq_true (h.2.2.1.mpr rfl)⟩
  · intro core_mask mask_shift n_neurons h1 h2 h3
    have h := pack_extra_arith core_mask mask_shift n_neurons h1 h2 h3
    refine ⟨?_, h.2.2.2⟩
    show extra_info.mk _ _ _ = _
    rw [extra_info.mk.injEq]
    exact ⟨h.1, h.2.1, h.2.2.1⟩
  · intro key mask start count extra_flag h1 h2
    cases extra_flag
    · have h := pack_entry_arith start count 0 h1 h2 (Or.inl rfl)
      exact ⟨h.1, decide_eq_false (fun hc => absurd (h.2.1.mp hc) (by decide)), h.2.2.1,
        h.2.2.2⟩
    · have h := pack_entry_arith start count 32768 h1 h2 (Or.inr rfl)
      exact ⟨h.1, decide_eq_true (h.2.1.mpr rfl), h.2.2.1, h.2.2.2⟩

/-- Witness for claim C18: the boundary values `row_length` 0 and 255, `address`
0 and `2^23 - 2`, `mask_shift` 0 and 31, `n_neurons` 0 and 2047. -/
theorem packed_round_trip_witness :
    address_list_entry.addr (pack_address_and_row_length 0 0 false) =
        { row_length := 0, address := 0, is_single := false } ∧
      address_list_entry.addr (pack_address_and_row_length 255 8388606 true) =
        { row_length := 255, address := 8388606, is_single := true } ∧
      address_list_entry.extra (pack_extra_info 65535 0 0) =
        { core_mask := 65535, mask_shift := 0, n_neurons := 0 } ∧
      address_list_entry.extra (pack_extra_info 0 31 2047) =
        { core_mask := 0, mask_shift := 31, n_neurons := 2047 } ∧
      master_population_table_entry.count
        { key := 0, mask := 0, bits := pack_entry_bits 32767 true 65535 } = 65535 :=
  ⟨(packed_round_trip.1 0 0 false (by decide) (by decide)).1,
    (packed_round_trip.1 255 8388606 true (by decide) (by decide)).1,
    (packed_round_trip.2.1 65535 0 0 (by decide) (by decide) (by decide)).1,
    (packed_round_trip.2.1 0 31 2047 (by decide) (by decide) (by decide)).1,
    (packed_round_trip.2.2 0 0 32767 65535 true (by decide) (by decide)).2.2.1⟩

theorem get_first_address_counters (hw : Nat) (s : State) (spike ra nb : Nat) (r : Bool)
    (s1 : State) (a b : Nat)
    (h : population_table_get_first_address hw s spike ra nb = some (r, s1, a, b)) :
    (r = true ∧ counters s1 = counters s) ∨
    (r = false ∧
      (counters s1 = ((s.ghost_pop_table_searches + 1) % 4294967296,
          s.invalid_master_pop_hits, s.bit_field_filtered_packets) ∨
       counters s1 = (s.ghost_pop_table_searches,
          (s.invalid_master_pop_hits + 1) % 4294967296, s.bit_field_filtered_packets) ∨
       counters s1 = (s.ghost_pop_table_searches, s.invalid_master_pop_hits,
          (s.bit_field_filtered_packets + 1) % 4294967296))) := by
  rcases get_first_address_cases hw s spike ra nb r s1 a b h with
    ⟨-, hr, hs1, -, -⟩ | ⟨p, e, s2, -, -, hs2, hrest⟩
  · exact Or.inr ⟨hr, Or.inr (Or.inl (by rw [hs1]; rfl))⟩
  · obtain ⟨x, -, hs2eq⟩ := set_cursor_some s e spike s2 hs2
    rcases hrest with ⟨-, hr, hs1, -, -⟩ | ⟨-, g, s3, out, hn, hg, -, -, hcase⟩
    · exact Or.inr ⟨hr, Or.inr (Or.inr (by rw [hs1, hs2eq]; rfl))⟩
    · have hfr := get_next_frame hw _ _ _ _ _ hn
      have h3 : counters s3 = counters s := by rw [hfr, hs2eq]; rfl
      have h3g : s3.ghost_pop_table_searches = s.ghost_pop_table_searches :=
        congrArg Prod.fst h3
      have h3i : s3.invalid_master_pop_hits = s.invalid_master_pop_hits :=
        congrArg (fun c => c.2.1) h3
      have h3f : s3.bit_field_filtered_packets = s.bit_field_filtered_packets :=
        congrArg (fun c => c.2.2) h3
      rcases hcase with ⟨hg2, hs1⟩ | ⟨hg2, hs1⟩
      · refine Or.inr ⟨by rw [hg, hg2], Or.inl ?_⟩
        rw [hs1]
        show ((s3.ghost_pop_table_searches + 1) % 4294967296, s3.invalid_master_pop_hits,
          s3.bit_field_filtered_packets) = _
        rw [h3g, h3i, h3f]
      · exact Or.inl ⟨by rw [hg, hg2], by rw [hs1]; exact h3⟩

theorem call_counters (hw : Nat) (s : State) (c : Call) (s1 : State)
    (h : call hw s c = some s1) :
    (s1.ghost_pop_table_searches = s.ghost_pop_table_searches ∨
      s1.ghost_pop_table_searches = (s.ghost_pop_table_searches + 1) % 4294967296) ∧
    (s1.invalid_master_pop_hits = s.invalid_master_pop_hits ∨
      s1.invalid_master_pop_hits = (s.invalid_master_pop_hits + 1) % 4294967296) ∧
    (s1.bit_field_filtered_packets = s.bit_field_filtered_packets ∨
      s1.bit_field_filtered_packets = (s.bit_field_filtered_packets + 1) % 4294967296) := by
  cases c with
  | get_first_address spike ra nb =>
    simp only [call] at h
    split at h
    · simp at h
    · rename_i res hres
      obtain ⟨r, s2, a, b⟩ := res
      simp only [Option.some.injEq] at h
      subst h
      have hc := get_first_address_counters hw s spike ra nb r s2 a b hres
      have key : ∀ t : Nat × Nat × Nat, counters s2 = t →
          s2.ghost_pop_table_searches = t.1 ∧ s2.invalid_master_pop_hits = t.2.1 ∧
          s2.bit_field_filtered_packets = t.2.2 :=
        fun t ht => ⟨congrArg Prod.fst ht, congrArg (fun c => c.2.1) ht,
          congrArg (fun c => c.2.2) ht⟩
      rcases hc with ⟨-, h1⟩ | ⟨-, h1 | h1 | h1⟩
      · obtain ⟨h2, h3, h4⟩ := key _ h1
        exact ⟨Or.inl h2, Or.inl h3, Or.inl h4⟩
      · obtain ⟨h2, h3, h4⟩ := key _ h1
        exact ⟨Or.inr h2, Or.inl h3, Or.inl h4⟩
      · obtain ⟨h2, h3, h4⟩ := key _ h1
        exact ⟨Or.inl h2, Or.inr h3, Or.inl h4⟩
      · obtain ⟨h2, h3, h4⟩ := key _ h1
        exact ⟨Or.inl h2, Or.inl h3, Or.inr h4⟩
  | get_next_address out =>
    simp only [call] at h
    split at h
    · simp at h
    · rename_i res hres
      obtain ⟨r, s2, out1⟩ := res
      simp only [Option.some.injEq] at h
      subst h
      have hfr := get_next_frame hw _ _ _ _ _ hres
      exact ⟨Or.inl (by rw [hfr]), Or.inl (by rw [hfr]), Or.inl (by rw [hfr])⟩
  | set_connectivity_bit_field fields =>
    simp only [call, Option.some.injEq] at h
    subst h
    exact ⟨Or.inl rfl, Or.inl rfl, Or.inl rfl⟩

theorem run_counters (hw : Nat) :
    ∀ (cs : List Call) (s s1 : State), run hw cs s = some s1 →
      s.ghost_pop_table_searches + cs.length < 4294967296 →
      s.invalid_master_pop_hits + cs.length < 4294967296 →
      s.bit_field_filtered_packets + cs.length < 4294967296 →
      (s.ghost_pop_table_searches ≤ s1.ghost_pop_table_searches ∧
        s1.ghost_pop_table_searches ≤ s.ghost_pop_table_searches + cs.length) ∧
      (s.invalid_master_pop_hits ≤ s1.invalid_master_pop_hits ∧
        s1.invalid_master_pop_hits ≤ s.invalid_master_pop_hits + cs.length) ∧
      (s.bit_field_filtered_packets ≤ s1.bit_field_filtered_packets ∧
        s1.bit_field_filtered_packets ≤ s.bit_field_filtered_packets + cs.length) := by
  intro cs
  induction cs with
  | nil =>
    intro s s1 h _ _ _
    simp only [run, Option.some.injEq] at h
    subst h
    simp
  | cons c cs ih =>
    intro s s1 h hg hi hf
    simp only [run] at h
    split at h
    · simp at h
    · rename_i s2 hc
      simp only [List.length_cons] at hg hi hf ⊢
      obtain ⟨h1, h2, h3⟩ := call_counters hw s c s2 hc
      have hrec := ih s2 s1 h (by omega) (by omega) (by omega)
      omega
theorem run_misses (hw spike ra nb : Nat) :
    ∀ (n : Nat) (s : State),
      population_table_position_in_the_master_pop_array s spike = some none →
      s.invalid_master_pop_hits < 4294967296 →
      run hw (List.replicate n (Call.get_first_address spike ra nb)) s =
        some { s with
          invalid_master_pop_hits := (s.invalid_master_pop_hits + n) % 4294967296 } := by
  intro n
  induction n with
  | zero =>
    intro s _ hlt
    simp only [List.replicate, run, Nat.add_zero, Nat.mod_eq_of_lt hlt]
  | succ n ih =>
    intro s hfind hlt
    have hcall : call hw s (Call.get_first_address spike ra nb) =
        some { s with
          invalid_master_pop_hits := (s.invalid_master_pop_hits + 1) % 4294967296 } := by
      simp only [call, population_table_get_first_address, hfind]
    have hrec := ih
      { s with invalid_master_pop_hits := (s.invalid_master_pop_hits + 1) % 4294967296 }
      hfind (Nat.mod_lt _ (by decide))
    simp only [List.replicate, run, hcall]
    rw [hrec]
    have harith : ((s.invalid_master_pop_hits + 1) % 4294967296 + n) % 4294967296 =
        (s.invalid_master_pop_hits + (n + 1)) % 4294967296 := by omega
    simp only [harith]

/-- Counterexample to claim C19 as stated: the invalid-hits counter is a 32-bit
word that wraps.
In the scenario state no entry matches spike 9. After 4294967295 calls of
get_first_address for that spike the counter reads 4294967295, and one more call
brings it back to 0: the counter has decreased, and the state is the initial one
again. -/
theorem invalid_hits_counter_wraps :
    population_table_position_in_the_master_pop_array scenario 9 = some none ∧
      population_table_get_invalid_master_pop_hits scenario = 0 ∧
      run 3 (List.replicate 4294967295 (Call.get_first_address 9 0 0)) scenario =
        some { scenario with invalid_master_pop_hits := 4294967295 } ∧
      population_table_get_first_address 3
          { scenario with invalid_master_pop_hits := 4294967295 } 9 0 0 =
        some (false, scenario, 0, 0) ∧
      run 3 (List.replicate 4294967296 (Call.get_first_address 9 0 0)) scenario =
        some scenario :=
  ⟨by decide, rfl,
    run_misses 3 9 0 0 4294967295 scenario (by decide) (by decide),
    by decide,
    run_misses 3 9 0 0 4294967296 scenario (by decide) (by decide)⟩

/-- Claim C19, amended. The counters change only by increments modulo 2^32.
Over a sequence of calls that is short enough for no counter to reach 2^32, no
counter decreases and none grows by more than the number of calls. For single
calls: get_next_address and attaching bit fields leave the three counters
unchanged; a get_first_address call that returns true leaves them unchanged; one
that returns false replaces exactly one of them by its successor modulo 2^32 and
leaves the other two unchanged. -/
theorem counters_grow_below_wrap (hw : Nat) (cs : List Call) (s s1 : State)
    (hrun : run hw cs s = some s1)
    (hghost : s.ghost_pop_table_searches + cs.length < 4294967296)
    (hinvalid : s.invalid_master_pop_hits + cs.length < 4294967296)
    (hfiltered : s.bit_field_filtered_packets + cs.length < 4294967296) :
    ((population_table_get_ghost_pop_table_searches s ≤
          population_table_get_ghost_pop_table_searches s1 ∧
        population_table_get_ghost_pop_table_searches s1 ≤
          population_table_get_ghost_pop_table_searches s + cs.length) ∧
      (population_table_get_invalid_master_pop_hits s ≤
          population_table_get_invalid_master_pop_hits s1 ∧
        population_table_get_invalid_master_pop_hits s1 ≤
          population_table_get_invalid_master_pop_hits s + cs.length) ∧
      (population_table_get_filtered_packet_count s ≤
          population_table_get_filtered_packet_count s1 ∧
        population_table_get_filtered_packet_count s1 ≤
          population_table_get_filtered_packet_count s + cs.length)) ∧
    (∀ (t : State) (out : Outputs) (r : Bool) (t1 : State) (out1 : Outputs),
      population_table_get_next_address hw t out = some (r, t1, out1) →
      counters t1 = counters t) ∧
    (∀ (t : State) (fields : Option (List (Option bit_field_t))),
      counters (population_table_set_connectivity_bit_field t fields) = counters t) ∧
    (∀ (t : State) (spike ra nb : Nat) (t1 : State) (a b : Nat),
      population_table_get_first_address hw t spike ra nb = some (true, t1, a, b) →
      counters t1 = counters t) ∧
    (∀ (t : State) (spike ra nb : Nat) (t1 : State) (a b : Nat),
      population_table_get_first_address hw t spike ra nb = some (false, t1, a, b) →
      counters t1 = ((t.ghost_pop_table_searches + 1) % 4294967296,
          t.invalid_master_pop_hits, t.bit_field_filtered_packets) ∨
      counters t1 = (t.ghost_pop_table_searches,
          (t.invalid_master_pop_hits + 1) % 4294967296, t.bit_field_filtered_packets) ∨
      counters t1 = (t.ghost_pop_table_searches, t.invalid_master_pop_hits,
          (t.bit_field_filtered_packets + 1) % 4294967296)) := by
  refine ⟨run_counters hw cs s s1 hrun hghost hinvalid hfiltered, ?_, ?_, ?_, ?_⟩
  · intro t out r t1 out1 h
    rw [get_next_frame hw _ _ _ _ _ h]
    rfl
  · intro t fields
    rfl
  · intro t spike ra nb t1 a b h
    rcases get_first_address_counters hw t spike ra nb true t1 a b h with ⟨-, h1⟩ | ⟨h1, -⟩
    · exact h1
    · exact absurd h1 (by decide)
  · intro t spike ra nb t1 a b h
    rcases get_first_address_counters hw t spike ra nb false t1 a b h with ⟨h1, -⟩ | ⟨-, h1⟩
    · exact absurd h1 (by decide)
    · exact h1

/-- Claim C19, witness: a miss, a hit, a further read and an attach from the scenario
state; only the invalid-hits counter has moved, by one. -/
theorem counters_grow_below_wrap_witness :
    run 3 [Call.get_first_address 9 0 0, Call.get_first_address 0x6 0 0,
        Call.get_next_address no_outputs, Call.set_connectivity_bit_field none] scenario =
      some { scenario with
        invalid_master_pop_hits := 1
        last_spike := 0x6
        last_neuron_id := 2
        next_item := 2
        items_to_go := 0 } ∧
    population_table_get_invalid_master_pop_hits scenario ≤
      population_table_get_invalid_master_pop_hits
        { scenario with
          invalid_master_pop_hits := 1
          last_spike := 0x6
          last_neuron_id := 2
          next_item := 2
          items_to_go := 0 } :=
  ⟨by decide,
    (counters_grow_below_wrap 3
      [Call.get_first_address 9 0 0, Call.get_first_address 0x6 0 0,
        Call.get_next_address no_outputs, Call.set_connectivity_bit_field none]
      scenario
      { scenario with
        invalid_master_pop_hits := 1
        last_spike := 0x6
        last_neuron_id := 2
        next_item := 2
        items_to_go := 0 }
      (by decide) (by decide) (by decide) (by decide)).1.2.1.1⟩

/-! ## Lemmas on the probes of the binary search -/

theorem position_loop_probes_result (table : List master_population_table_entry)
    (spike : Nat) :
    ∀ (fuel imin imax : Nat),
      (position_loop_probes table spike fuel imin imax).1 =
        position_loop table spike fuel imin imax := by
  intro fuel
  induction fuel with
  | zero => intro imin imax; rfl
  | succ n ih =>
    intro imin imax
    simp only [position_loop_probes, position_loop]
    split
    · split
      · rfl
      · split
        · rfl
        · split
          · exact ih _ _
          · exact ih _ _
    · rfl

theorem position_loop_probes_range (table : List master_population_table_entry)
    (spike : Nat) (hlen : table.length < 2147483648) :
    ∀ (fuel imin imax : Nat), imax ≤ table.length →
      (∀ pr ∈ (position_loop_probes table spike fuel imin imax).2,
        imin ≤ pr.1 ∧ pr.1 ≤ pr.2.1 ∧ pr.2.1 < pr.2.2 ∧ pr.2.2 ≤ imax ∧
          ∃ e, table[pr.2.1]? = some e) ∧
      List.Chain' (fun a b => b.2.2 - b.1 < a.2.2 - a.1)
        (position_loop_probes table spike fuel imin imax).2 := by
  intro fuel
  induction fuel with
  | zero =>
    intro imin imax _
    exact ⟨fun pr hpr => by simp [position_loop_probes] at hpr, List.chain'_nil⟩
  | succ n ih =>
    intro imin imax hmax
    simp only [position_loop_probes]
    split
    · rename_i hlt
      rw [imid_eq imin imax (by omega)]
      have hmid : (imax + imin) / 2 < table.length := by omega
      obtain ⟨entry, hentry⟩ : ∃ e, table[(imax + imin) / 2]? = some e :=
        ⟨table[(imax + imin) / 2], List.getElem?_eq_getElem hmid⟩
      have hhead : imin ≤ imin ∧ imin ≤ (imax + imin) / 2 ∧ (imax + imin) / 2 < imax ∧
          imax ≤ imax ∧ ∃ e, table[(imax + imin) / 2]? = some e :=
        ⟨Nat.le_refl _, by omega, by omega, Nat.le_refl _, entry, hentry⟩
      simp only [hentry]
      split
      · refine ⟨fun pr hpr => ?_, List.chain'_singleton _⟩
        simp only [List.mem_singleton] at hpr
        subst hpr
        exact hhead
      · split
        · obtain ⟨h1, h2⟩ := ih ((imax + imin) / 2 + 1) imax hmax
          refine ⟨fun pr hpr => ?_, ?_⟩
          · simp only [List.mem_cons] at hpr
            rcases hpr with rfl | hpr
            · exact hhead
            · obtain ⟨a, b, c, d, e⟩ := h1 pr hpr
              exact ⟨by omega, b, c, d, e⟩
          · refine List.Chain'.cons' h2 fun pr hpr => ?_
            obtain ⟨a, b, c, d, -⟩ := h1 pr (List.mem_of_mem_head? hpr)
            show pr.2.2 - pr.1 < imax - imin
            omega
        · obtain ⟨h1, h2⟩ := ih imin ((imax + imin) / 2) (by omega)
          refine ⟨fun pr hpr => ?_, ?_⟩
          · simp only [List.mem_cons] at hpr
            rcases hpr with rfl | hpr
            · exact hhead
            · obtain ⟨a, b, c, d, e⟩ := h1 pr hpr
              exact ⟨a, b, c, by omega, e⟩
          · refine List.Chain'.cons' h2 fun pr hpr => ?_
            obtain ⟨a, b, c, d, -⟩ := h1 pr (List.mem_of_mem_head? hpr)
            show pr.2.2 - pr.1 < imax - imin
            omega
    · exact ⟨fun pr hpr => by simp at hpr, List.chain'_nil⟩

theorem position_loop_probes_length (table : List master_population_table_entry)
    (spike : Nat) (hlen : table.length < 2147483648) :
    ∀ (fuel imin imax : Nat), imax ≤ table.length →
      (position_loop_probes table spike fuel imin imax).2.length ≤ imax - imin := by
  intro fuel
  induction fuel with
  | zero => intro imin imax _; simp [position_loop_probes]
  | succ n ih =>
    intro imin imax hmax
    simp only [position_loop_probes]
    split
    · rename_i hlt
      rw [imid_eq imin imax (by omega)]
      split
      · simp only [List.length_singleton]
        omega
      · split
        · simp only [List.length_singleton]
          omega
        · split
          · have := ih ((imax + imin) / 2 + 1) imax hmax
            simp only [List.length_cons]
            omega
          · have := ih imin ((imax + imin) / 2) (by omega)
            simp only [List.length_cons]
            omega
    · simp

/-- Claim C22. The search is total and reads only inside the table: for a table
of `N < 2^31` entries and every spike, `position_probes` has the result of
`population_table_position_in_the_master_pop_array`, which returns; every
iteration probes an index `imid` with `imin <= imid < imax <= N`, at which the
table has an entry; `imax - imin` is strictly smaller at each iteration than at
the one before, so that there are at most `N` iterations; and on the empty table
the search reports false without a probe. -/
theorem position_total_reads_in_range (s : State) (spike : Nat)
    (hlen : s.master_population_table.length < 2147483648) :
    (position_probes s spike).1 = population_table_position_in_the_master_pop_array s spike ∧
    (∃ r, population_table_position_in_the_master_pop_array s spike = some r) ∧
    (∀ pr ∈ (position_probes s spike).2,
      pr.1 ≤ pr.2.1 ∧ pr.2.1 < pr.2.2 ∧ pr.2.2 ≤ s.master_population_table.length ∧
        ∃ e, s.master_population_table[pr.2.1]? = some e) ∧
    List.Chain' (fun a b => b.2.2 - b.1 < a.2.2 - a.1) (position_probes s spike).2 ∧
    (position_probes s spike).2.length ≤ s.master_population_table.length ∧
    (s.master_population_table.length = 0 →
      population_table_position_in_the_master_pop_array s spike = some none ∧
        (position_probes s spike).2 = []) := by
  obtain ⟨r, hr, -⟩ := position_loop_total s.master_population_table spike hlen
    (s.master_population_table.length + 1) 0 s.master_population_table.length
    (Nat.le_refl _) (by omega)
  obtain ⟨h1, h2⟩ := position_loop_probes_range s.master_population_table spike hlen
    (s.master_population_table.length + 1) 0 s.master_population_table.length (Nat.le_refl _)
  refine ⟨position_loop_probes_result _ _ _ _ _, ⟨r, hr⟩, fun pr hpr => ?_, h2,
    position_loop_probes_length s.master_population_table spike hlen
      (s.master_population_table.length + 1) 0 s.master_population_table.length (Nat.le_refl _),
    fun h0 => ?_⟩
  · obtain ⟨-, b, c, d, e⟩ := h1 pr hpr
    exact ⟨b, c, d, e⟩
  · unfold position_probes population_table_position_in_the_master_pop_array
    rw [h0]
    exact ⟨rfl, rfl⟩

/-- Witness for claim C22: on the table `{(0b00, 0b11), (0b10, 0b11)}` the search
for `0b01` probes index 1 in `[0, 2)`, then index 0 in `[0, 1)`, and reports
false. -/
theorem position_total_reads_in_range_witness :
    two_entries.master_population_table.length < 2147483648 ∧
      position_probes two_entries 0b01 = (some none, [(0, 1, 2), (0, 0, 1)]) ∧
      (position_probes two_entries 0b01).1 =
        population_table_position_in_the_master_pop_array two_entries 0b01 :=
  ⟨by decide, by decide, (position_total_reads_in_range two_entries 0b01 (by decide)).1⟩

/-! ## Lemmas on prefix masks -/

theorem u32_not_prefix_mask (k : Nat) (hk : k ≤ 32) :
    u32_not (2 ^ k - 1) = (2 ^ (32 - k) - 1) <<< k ∧ u32_not (u32_not (2 ^ k - 1)) = 2 ^ k - 1 := by
  have h1 : 2 ^ k ≤ 2 ^ 32 := Nat.pow_le_pow_right (by decide) hk
  have h2 : 0 < 2 ^ k := Nat.pow_pos (by decide)
  have h3 : 2 ^ (32 - k) * 2 ^ k = 2 ^ 32 := by
    rw [← Nat.pow_add]
    congr 1
    omega
  have h4 : (2 : Nat) ^ 32 = 4294967296 := by decide
  have h5 : (2 ^ (32 - k) - 1) * 2 ^ k = 4294967296 - 2 ^ k := by
    rw [Nat.sub_mul, h3, h4, Nat.one_mul]
  unfold u32_not
  rw [Nat.shiftLeft_eq, h5]
  constructor <;> omega

theorem and_prefix_mask (spike k : Nat) (h32 : spike < 4294967296) (hk : k ≤ 32) :
    spike &&& u32_not (2 ^ k - 1) = (spike >>> k) <<< k := by
  rw [(u32_not_prefix_mask k hk).1]
  apply Nat.eq_of_testBit_eq
  intro i
  rw [Nat.testBit_and, Nat.testBit_shiftLeft, Nat.testBit_shiftLeft, Nat.testBit_shiftRight,
    Nat.testBit_two_pow_sub_one]
  by_cases hik : i ≥ k
  · have hki : k + (i - k) = i := by omega
    rw [hki]
    by_cases hi32 : i < 32
    · simp [hik, (by omega : i - k < 32 - k)]
    · have hlt : spike < 2 ^ i :=
        Nat.lt_of_lt_of_le h32 (by
          have : (2 : Nat) ^ 32 ≤ 2 ^ i := Nat.pow_le_pow_right (by decide) (by omega)
          simpa using this)
      simp [Nat.testBit_lt_two_pow hlt]
  · simp [hik]

theorem prefix_match_range (spike key mask k : Nat) (h32 : spike < 4294967296) (hk : k ≤ 32)
    (hmask : mask = u32_not (2 ^ k - 1)) (hm : (spike &&& mask) = key) :
    key ≤ spike ∧ spike ≤ key + u32_not mask := by
  have h2 : 0 < 2 ^ k := Nat.pow_pos (by decide)
  have hkey : key = spike / 2 ^ k * 2 ^ k := by
    rw [← hm, hmask, and_prefix_mask spike k h32 hk, Nat.shiftLeft_eq, Nat.shiftRight_eq_div_pow]
  have hdm := Nat.div_add_mod spike (2 ^ k)
  have hmod := Nat.mod_lt spike h2
  rw [Nat.mul_comm] at hdm
  rw [hmask, (u32_not_prefix_mask k hk).2, hkey]
  omega

/-- Claim C23. Completeness of the search on prefix-masked tables: on a table of
fewer than `2^31` entries that is sorted ascending by key, in which every mask
is a prefix mask, every entry matches its own key and the matched ranges
`[key, key + ~mask]` are pairwise disjoint, the search for a 32-bit spike that
entry `i` matches reports position `i`. -/
theorem position_finds_prefix_matched_spike (s : State) (spike i : Nat)
    (ei : master_population_table_entry)
    (hlen : s.master_population_table.length < 2147483648)
    (hsorted : sorted_by_key s.master_population_table)
    (hmasks : prefix_masks s.master_population_table)
    (hself : self_matching s.master_population_table)
    (hdis : disjoint_ranges s.master_population_table)
    (h32 : spike < 4294967296)
    (hi : s.master_population_table[i]? = some ei)
    (hm : (spike &&& ei.mask) = ei.key) :
    population_table_position_in_the_master_pop_array s spike = some (some i) := by
  have hilt : i < s.master_population_table.length := (List.getElem?_eq_some_iff.mp hi).1
  have hrange : ∀ (j : Nat) (e : master_population_table_entry),
      s.master_population_table[j]? = some e → (spike &&& e.mask) = e.key →
      e.key ≤ spike ∧ spike ≤ e.key + u32_not e.mask := by
    intro j e hj hme
    obtain ⟨k, hk, hmask⟩ := hmasks e (List.getElem?_mem hj)
    exact prefix_match_range spike e.key e.mask k h32 hk hmask hme
  have hri := hrange i ei hi hm
  have hnav : ∀ j e, s.master_population_table[j]? = some e → (spike &&& e.mask) ≠ e.key →
      (e.key < spike → j < i) ∧ (¬ e.key < spike → i < j) := by
    intro j e hj hne
    have hji : j ≠ i := by
      rintro rfl
      rw [hi] at hj
      exact hne (by rw [← Option.some.inj hj]; exact hm)
    constructor
    · intro hk
      by_contra hlt
      have h1 := sorted_mono _ hsorted i j ei e (by omega) hi hj
      rcases hdis i j ei e hi hj (Ne.symm hji) with h | h <;> omega
    · intro hk
      by_contra hlt
      have h1 := sorted_mono _ hsorted j i e ei (by omega) hj hi
      have h2 : e.key = spike := by omega
      exact hne (by rw [← h2]; exact hself e (List.getElem?_mem hj))
  obtain ⟨p, hp⟩ := position_loop_complete s.master_population_table spike hlen i hnav
    (s.master_population_table.length + 1) 0 s.master_population_table.length
    (Nat.le_refl _) (by omega) (Nat.zero_le _) hilt
  obtain ⟨ep, hep, hmp⟩ := position_loop_sound _ _ _ _ _ p hp
  have hrp := hrange p ep hep hmp
  have hpi : p = i := by
    by_contra hne
    rcases hdis p i ep ei hep hi hne with h | h <;> omega
  rw [← hpi]
  exact hp

/-- Witness for claim C23: on `prefix_mask_table`, whose masks are `~(2^2 - 1)`
and whose ranges are `[0, 3]` and `[4, 7]`, the search for the spike 6, which
entry 1 matches, reports position 1. -/
theorem position_finds_prefix_matched_spike_witness :
    prefix_masks prefix_mask_table.master_population_table ∧
      disjoint_ranges prefix_mask_table.master_population_table ∧
      population_table_position_in_the_master_pop_array prefix_mask_table 6 = some (some 1) := by
  have hp : prefix_masks prefix_mask_table.master_population_table := by
    intro e he
    simp only [prefix_mask_table, List.mem_cons, List.mem_singleton, List.not_mem_nil,
      or_false] at he
    rcases he with rfl | rfl <;> exact ⟨2, by decide, by decide⟩
  have hd : disjoint_ranges prefix_mask_table.master_population_table := by
    intro i j ei ej hi hj hij
    rcases i with _ | _ | i <;> rcases j with _ | _ | j <;>
      simp [prefix_mask_table] at hi hj hij <;> subst hi hj <;> decide
  exact ⟨hp, hd, position_finds_prefix_matched_spike prefix_mask_table 6 1
    { key := 4, mask := 0xFFFFFFFC, bits := pack_entry_bits 1 false 1 }
    (by decide) (by simp [prefix_mask_table]) hp (by decide) hd (by decide) (by decide)
    (by decide)⟩

/-! ## Lemmas on successive calls of population_table_get_next_address -/

theorem get_next_loop_slots_result (hw : Nat) :
    ∀ (fuel : Nat) (s : State) (out : Outputs),
      (get_next_loop_slots hw fuel s out).1 = get_next_loop hw fuel s out := by
  intro fuel
  induction fuel with
  | zero => intro s out; rfl
  | succ n ih =>
    intro s out
    simp only [get_next_loop_slots, get_next_loop]
    split
    · rfl
    · split
      · exact ih _ _
      · rfl

theorem get_next_address_slots_result (hw : Nat) (s : State) (out : Outputs) :
    (get_next_address_slots hw s out).1 = population_table_get_next_address hw s out := by
  unfold get_next_address_slots population_table_get_next_address
  split
  · rfl
  · exact get_next_loop_slots_result hw _ _ _

theorem get_next_calls_idle (hw : Nat) (s : State) (out : Outputs) (h : s.items_to_go = 0) :
    ∀ n, get_next_calls hw n s out = some (List.replicate n false, [], s, out) := by
  intro n
  induction n with
  | zero => rfl
  | succ n ih =>
    have h1 : get_next_address_slots hw s out = (some (false, s, out), []) := by
      unfold get_next_address_slots
      rw [if_pos (by omega)]
    simp only [get_next_calls, h1, ih]
    rfl

theorem get_next_loop_decreases (hw : Nat) :
    ∀ (fuel : Nat) (s : State) (out : Outputs) (r : Bool) (s1 : State) (out1 : Outputs),
      0 < s.items_to_go → get_next_loop hw fuel s out = some (r, s1, out1) →
      s1.items_to_go < s.items_to_go := by
  intro fuel
  induction fuel with
  | zero => intro s out r s1 out1 _ h; simp [get_next_loop] at h
  | succ n ih =>
    intro s out r s1 out1 hpos h
    simp only [get_next_loop] at h
    have hadv : (advance s).items_to_go < s.items_to_go := by
      show (s.items_to_go + 65535) % 65536 < s.items_to_go
      omega
    split at h
    · simp at h
    · split at h
      · rename_i hc
        have := ih _ _ _ _ _ hc.2 h
        omega
      · simp only [Option.some.injEq, Prod.mk.injEq] at h
        rw [← h.2.1]
        exact hadv

/-- Claim C24. Exhausted is a fixed point: in a state with `items_to_go = 0`,
`population_table_get_next_address` returns false and leaves the state and the
caller's output locations as they are, and so does every one of any number of
further calls, none of which decodes a slot; a call made with `items_to_go > 0`
that returns leaves `items_to_go` strictly smaller, and it returns when the
slots `[next_item, next_item + items_to_go)` are slots of the address list below
65536. -/
theorem exhausted_is_fixed_point (hw : Nat) (s : State) (out : Outputs) :
    (s.items_to_go = 0 →
      population_table_get_next_address hw s out = some (false, s, out) ∧
      ∀ n, get_next_calls hw n s out = some (List.replicate n false, [], s, out)) ∧
    (0 < s.items_to_go →
      (∀ r s1 out1, population_table_get_next_address hw s out = some (r, s1, out1) →
        s1.items_to_go < s.items_to_go) ∧
      (s.next_item + s.items_to_go ≤ s.address_list.length →
        s.next_item + s.items_to_go ≤ 65535 →
        ∃ r s1 out1, population_table_get_next_address hw s out = some (r, s1, out1))) ∧
    (get_next_address_slots hw s out).1 = population_table_get_next_address hw s out := by
  refine ⟨fun h0 => ⟨get_next_idle hw s out h0, get_next_calls_idle hw s out h0⟩,
    fun hpos => ⟨?_, fun hlen hwrap => get_next_total hw _ s out rfl hlen hwrap⟩,
    get_next_address_slots_result hw s out⟩
  intro r s1 out1 h
  unfold population_table_get_next_address at h
  rw [if_neg (by omega)] at h
  exact get_next_loop_decreases hw _ _ _ _ _ _ hpos h

/-- Witness for claim C24: the end-to-end scenario starts with `items_to_go = 0`
and three calls in a row return false and change nothing; on `placeholder_slice`,
with two records to go, one call skips the placeholder, emits the valid record
and leaves none to go. -/
theorem exhausted_is_fixed_point_witness :
    get_next_calls 3 3 scenario no_outputs = some ([false, false, false], [], scenario, no_outputs) ∧
    (∃ r s1 out1,
      population_table_get_next_address 3 placeholder_slice no_outputs = some (r, s1, out1) ∧
      s1.items_to_go < placeholder_slice.items_to_go) := by
  have h := exhausted_is_fixed_point 3 scenario no_outputs
  have h2 := exhausted_is_fixed_point 3 placeholder_slice no_outputs
  obtain ⟨hdec, htot⟩ := h2.2.1 (by decide)
  obtain ⟨r, s1, out1, hr⟩ := htot (by decide) (by decide)
  exact ⟨(h.1 (by decide)).2 3, r, s1, out1, hr, hdec r s1 out1 hr⟩

/-! ## Lemmas on the cursor and the slice of the entry -/

theorem get_next_loop_slots_slice (hw : Nat) (hi : Nat) (hhi : hi ≤ 65535) :
    ∀ (fuel : Nat) (s : State) (out : Outputs),
      s.next_item + s.items_to_go = hi → 0 < s.items_to_go →
      (∀ slot ∈ (get_next_loop_slots hw fuel s out).2, s.next_item ≤ slot ∧ slot < hi) ∧
      (∀ r s1 out1, (get_next_loop_slots hw fuel s out).1 = some (r, s1, out1) →
        s1.next_item + s1.items_to_go = hi ∧ s.next_item ≤ s1.next_item) := by
  intro fuel
  induction fuel with
  | zero =>
    intro s out _ _
    exact ⟨fun slot h => by simp [get_next_loop_slots] at h,
      fun r s1 out1 h => by simp [get_next_loop_slots] at h⟩
  | succ n ih =>
    intro s out hsum hpos
    have hadv1 : (advance s).next_item = s.next_item + 1 := by
      show (s.next_item + 1) % 65536 = s.next_item + 1
      omega
    have hadv2 : (advance s).items_to_go = s.items_to_go - 1 := by
      show (s.items_to_go + 65535) % 65536 = s.items_to_go - 1
      omega
    have hself : s.next_item ≤ s.next_item ∧ s.next_item < hi := ⟨Nat.le_refl _, by omega⟩
    simp only [get_next_loop_slots]
    split
    · refine ⟨fun slot h => ?_, fun r s1 out1 h => by simp at h⟩
      simp only [List.mem_singleton] at h
      rw [h]
      exact hself
    · split
      · rename_i hc
        obtain ⟨h1, h2⟩ := ih (advance s) _ (by rw [hadv1, hadv2]; omega) hc.2
        refine ⟨fun slot h => ?_, fun r s1 out1 h => ?_⟩
        · simp only [List.mem_cons] at h
          rcases h with h | h
          · rw [h]
            exact hself
          · have := h1 slot h
            omega
        · have := h2 r s1 out1 h
          omega
      · refine ⟨fun slot h => ?_, fun r s1 out1 h => ?_⟩
        · simp only [List.mem_singleton] at h
          rw [h]
          exact hself
        · simp only [Option.some.injEq, Prod.mk.injEq] at h
          rw [← h.2.1, hadv1, hadv2]
          omega

theorem get_next_address_slots_slice (hw : Nat) (hi : Nat) (hhi : hi ≤ 65535) (s : State)
    (out : Outputs) (hsum : s.next_item + s.items_to_go = hi) :
    (∀ slot ∈ (get_next_address_slots hw s out).2, s.next_item ≤ slot ∧ slot < hi) ∧
    (∀ r s1 out1, (get_next_address_slots hw s out).1 = some (r, s1, out1) →
      s1.next_item + s1.items_to_go = hi ∧ s.next_item ≤ s1.next_item) := by
  unfold get_next_address_slots
  split
  · refine ⟨fun slot h => by simp at h, fun r s1 out1 h => ?_⟩
    simp only [Option.some.injEq, Prod.mk.injEq] at h
    rw [← h.2.1]
    exact ⟨hsum, Nat.le_refl _⟩
  · exact get_next_loop_slots_slice hw hi hhi _ s out hsum (by omega)

theorem get_next_calls_slice (hw : Nat) (lo hi : Nat) (hhi : hi ≤ 65535) :
    ∀ (n : Nat) (s : State) (out : Outputs) (rs : List Bool) (slots : List Nat) (s1 : State)
      (out1 : Outputs),
      lo ≤ s.next_item → s.next_item + s.items_to_go = hi →
      get_next_calls hw n s out = some (rs, slots, s1, out1) →
      s1.next_item + s1.items_to_go = hi ∧ ∀ slot ∈ slots, lo ≤ slot ∧ slot < hi := by
  intro n
  induction n with
  | zero =>
    intro s out rs slots s1 out1 hlo hsum h
    simp only [get_next_calls, Option.some.injEq, Prod.mk.injEq] at h
    rw [← h.2.2.1, ← h.2.1]
    exact ⟨hsum, fun slot hs => by simp at hs⟩
  | succ n ih =>
    intro s out rs slots s1 out1 hlo hsum h
    obtain ⟨h1, h2⟩ := get_next_address_slots_slice hw hi hhi s out hsum
    simp only [get_next_calls] at h
    split at h
    · simp at h
    · rename_i g t out2 first hfirst
      rw [hfirst] at h1 h2
      obtain ⟨h3, h4⟩ := h2 g t out2 rfl
      split at h
      · simp at h
      · rename_i rs2 more t2 out3 hrest
        obtain ⟨h5, h6⟩ := ih t out2 rs2 more t2 out3 (by omega) h3 hrest
        simp only [Option.some.injEq, Prod.mk.injEq] at h
        rw [← h.2.2.1, ← h.2.1]
        refine ⟨h5, fun slot hs => ?_⟩
        simp only [List.mem_append] at hs
        rcases hs with hs | hs
        · have := h1 slot hs
          omega
        · exact h6 slot hs

/-- Claim C21. The cursor stays inside the slice of the entry: when the search
locates the entry `e` with `e.start + e.extra_info_flag + e.count <= 65535` and
`population_table_get_first_address` returns, then after the call, and after any
number of calls of `population_table_get_next_address` that follow it,
`next_item + items_to_go = e.start + e.extra_info_flag + e.count`; and every
slot that `population_table_get_next_address` decodes as an address record, in
the call made by `population_table_get_first_address` and in the calls that
follow, lies in `[e.start + e.extra_info_flag,
e.start + e.extra_info_flag + e.count)`. -/
theorem cursor_stays_in_slice (hw : Nat) (s : State) (spike ra nb p : Nat)
    (e : master_population_table_entry) (r : Bool) (s1 : State) (a b : Nat)
    (hfind : population_table_position_in_the_master_pop_array s spike = some (some p))
    (he : s.master_population_table[p]? = some e)
    (hbound : e.start + extra_slots e + e.count ≤ 65535)
    (h : population_table_get_first_address hw s spike ra nb = some (r, s1, a, b)) :
    s1.next_item + s1.items_to_go = e.start + extra_slots e + e.count ∧
    (∀ s2, set_cursor s e spike = some s2 →
      (get_next_address_slots hw s2
          { spike := 0, row_address := ra, n_bytes_to_transfer := nb }).1 =
        population_table_get_next_address hw s2
          { spike := 0, row_address := ra, n_bytes_to_transfer := nb } ∧
      ∀ slot ∈ (get_next_address_slots hw s2
          { spike := 0, row_address := ra, n_bytes_to_transfer := nb }).2,
        e.start + extra_slots e ≤ slot ∧ slot < e.start + extra_slots e + e.count) ∧
    (∀ n out rs slots s3 out3, get_next_calls hw n s1 out = some (rs, slots, s3, out3) →
      s3.next_item + s3.items_to_go = e.start + extra_slots e + e.count ∧
      ∀ slot ∈ slots,
        e.start + extra_slots e ≤ slot ∧ slot < e.start + extra_slots e + e.count) := by
  have hcur : ∀ s2, set_cursor s e spike = some s2 →
      s2.next_item = e.start + extra_slots e ∧ s2.items_to_go = e.count := by
    intro s2 hs2
    obtain ⟨x, -, hs2eq⟩ := set_cursor_some s e spike s2 hs2
    rw [hs2eq]
    exact ⟨rfl, rfl⟩
  have hafter : s1.next_item + s1.items_to_go = e.start + extra_slots e + e.count ∧
      e.start + extra_slots e ≤ s1.next_item := by
    rcases get_first_address_cases hw s spike ra nb r s1 a b h with
      ⟨hmiss, -⟩ | ⟨p2, e2, s2, hfind2, he2, hs2, hrest⟩
    · rw [hmiss] at hfind
      simp at hfind
    · rw [hfind2] at hfind
      simp only [Option.some.injEq] at hfind
      subst hfind
      rw [he] at he2
      simp only [Option.some.injEq] at he2
      subst he2
      obtain ⟨hn, hg⟩ := hcur s2 hs2
      rcases hrest with ⟨-, -, hs1, -, -⟩ | ⟨-, g, s3, out, hnext, -, -, -, hcase⟩
      · rw [hs1]
        show s2.next_item + s2.items_to_go = _ ∧ _ ≤ s2.next_item
        omega
      · rw [← get_next_address_slots_result] at hnext
        obtain ⟨h3, h4⟩ := (get_next_address_slots_slice hw _ hbound s2 _
          (by rw [hn, hg])).2 g s3 out hnext
        rcases hcase with ⟨-, hs1⟩ | ⟨-, hs1⟩
        · rw [hs1]
          show s3.next_item + s3.items_to_go = _ ∧ _ ≤ s3.next_item
          omega
        · rw [hs1]
          omega
  refine ⟨hafter.1, fun s2 hs2 => ⟨get_next_address_slots_result hw s2 _, fun slot hslot => ?_⟩,
    fun n out rs slots s3 out3 hcalls =>
      get_next_calls_slice hw _ _ hbound n s1 out rs slots s3 out3 hafter.2 hafter.1 hcalls⟩
  obtain ⟨hn, hg⟩ := hcur s2 hs2
  have := (get_next_address_slots_slice hw _ hbound s2 _ (by rw [hn, hg])).1 slot hslot
  omega

/-- Witness for claim C21: in `direct_row` the entry of the spike `0x6` owns the
slots 0 and 1; after `population_table_get_first_address` the cursor is at slot
1 with one record to go, the two calls of `population_table_get_next_address`
that follow decode slot 1 only, and the cursor ends at slot 2 with none to
go. -/
theorem cursor_stays_in_slice_witness :
    population_table_get_first_address 3 direct_row 0x6 0 0 =
        some (true,
          { direct_row with
            last_spike := 0x6
            last_neuron_id := 2
            next_item := 1
            items_to_go := 1 },
          0x60000000 + (10 <<< 4) + 2 * (3 + 1 + 3) * 4, (3 + 1 + 3) * 4) ∧
    get_next_calls 3 2
        { direct_row with
          last_spike := 0x6
          last_neuron_id := 2
          next_item := 1
          items_to_go := 1 } no_outputs =
      some ([true, false], [1],
        { direct_row with
          last_spike := 0x6
          last_neuron_id := 2
          next_item := 2
          items_to_go := 0 },
        { spike := 0, row_address := 0x70000000 + 5 + 2 * 4, n_bytes_to_transfer := 0 }) ∧
    (2 : Nat) + 0 = 2 ∧ ∀ slot ∈ [1], 0 ≤ slot ∧ slot < 2 := by
  have hfirst : population_table_get_first_address 3 direct_row 0x6 0 0 =
      some (true,
        { direct_row with
          last_spike := 0x6
          last_neuron_id := 2
          next_item := 1
          items_to_go := 1 },
        0x60000000 + (10 <<< 4) + 2 * (3 + 1 + 3) * 4, (3 + 1 + 3) * 4) := by decide
  have hcalls : get_next_calls 3 2
      { direct_row with
        last_spike := 0x6
        last_neuron_id := 2
        next_item := 1
        items_to_go := 1 } no_outputs =
      some ([true, false], [1],
        { direct_row with
          last_spike := 0x6
          last_neuron_id := 2
          next_item := 2
          items_to_go := 0 },
        { spike := 0, row_address := 0x70000000 + 5 + 2 * 4, n_bytes_to_transfer := 0 }) := by
    decide
  have h := (cursor_stays_in_slice 3 direct_row 0x6 0 0 0
    { key := 0x4, mask := 0xFFFFFFFC, bits := pack_entry_bits 0 false 2 } true _ _ _
    (by decide) (by decide) (by decide) hfirst).2.2 2 no_outputs _ _ _ _ hcalls
  exact ⟨hfirst, hcalls, h.1, h.2⟩

/-! ## Lemmas on the states that can be reached -/

theorem call_tables (hw : Nat) (s : State) (c : Call) (s1 : State) (h : call hw s c = some s1) :
    s1.master_population_table = s.master_population_table ∧
      s1.address_list = s.address_list := by
  cases c with
  | get_first_address spike ra nb =>
    simp only [call] at h
    split at h
    · simp at h
    · rename_i res hres
      obtain ⟨r, s2, a, b⟩ := res
      simp only [Option.some.injEq] at h
      subst h
      rcases get_first_address_cases hw s spike ra nb r s2 a b hres with
        ⟨-, -, hs1, -, -⟩ | ⟨p, e, s3, -, -, hs3, hrest⟩
      · rw [hs1]
        exact ⟨rfl, rfl⟩
      · obtain ⟨x, -, hs3eq⟩ := set_cursor_some s e spike s3 hs3
        rcases hrest with ⟨-, -, hs1, -, -⟩ | ⟨-, g, s4, out, hn, -, -, -, hcase⟩
        · rw [hs1, hs3eq]
          exact ⟨rfl, rfl⟩
        · have hfr := get_next_frame hw _ _ _ _ _ hn
          have h4 : s4.master_population_table = s.master_population_table ∧
              s4.address_list = s.address_list := by
            rw [hfr, hs3eq]
            exact ⟨rfl, rfl⟩
          rcases hcase with ⟨-, hs1⟩ | ⟨-, hs1⟩
          · rw [hs1]
            exact h4
          · rw [hs1]
            exact h4
  | get_next_address out =>
    simp only [call] at h
    split at h
    · simp at h
    · rename_i res hres
      obtain ⟨r, s2, out1⟩ := res
      simp only [Option.some.injEq] at h
      subst h
      have hfr := get_next_frame hw _ _ _ _ _ hres
      rw [hfr]
      exact ⟨rfl, rfl⟩
  | set_connectivity_bit_field fields =>
    simp only [call, Option.some.injEq] at h
    subst h
    exact ⟨rfl, rfl⟩

theorem run_tables (hw : Nat) :
    ∀ (cs : List Call) (s s1 : State), run hw cs s = some s1 →
      s1.master_population_table = s.master_population_table ∧
        s1.address_list = s.address_list := by
  intro cs
  induction cs with
  | nil =>
    intro s s1 h
    simp only [run, Option.some.injEq] at h
    subst h
    exact ⟨rfl, rfl⟩
  | cons c cs ih =>
    intro s s1 h
    simp only [run] at h
    split at h
    · simp at h
    · rename_i s2 hc
      obtain ⟨h1, h2⟩ := call_tables hw s c s2 hc
      obtain ⟨h3, h4⟩ := ih s2 s1 h
      exact ⟨h3.trans h1, h4.trans h2⟩

theorem reachable_loadable (hw : Nat) (s : State) (h : reachable hw s) : loadable s := by
  rcases h with ⟨cs, hrun⟩ | ⟨s0, blob, syn, dir, mt, ml, s1, n, cs, hinit, hrun⟩
  · obtain ⟨h1, h2⟩ := run_tables hw cs initial_state s hrun
    exact loadable_congr initial_state s h1 h2 fun p e hp => by simp [initial_state] at hp
  · obtain ⟨-, hprint, hlen⟩ := initialise_prints hw s0 blob syn dir mt ml s1 n hinit
    obtain ⟨h1, h2⟩ := run_tables hw cs s1 s hrun
    exact loadable_congr s1 s h1 h2 ((print_iff_loadable s1 hlen).mp hprint)

theorem first_valid_or_all_invalid (list : List Nat) (base : Nat) :
    ∀ (n : Nat), (∀ k, k < n → ∃ (w : Nat), list[base + k]? = some w) →
      (∃ (j : Nat) (w : Nat), j < n ∧
        (∀ i, i < j → ∃ v, list[base + i]? = some v ∧
          (address_list_entry.addr v).address = INVALID_ADDRESS) ∧
        list[base + j]? = some w ∧ (address_list_entry.addr w).address ≠ INVALID_ADDRESS) ∨
      (∀ i, i < n → ∃ v, list[base + i]? = some v ∧
        (address_list_entry.addr v).address = INVALID_ADDRESS) := by
  intro n
  induction n with
  | zero => intro _; exact Or.inr fun i hi => by omega
  | succ n ih =>
    intro hread
    rcases ih (fun k hk => hread k (by omega)) with ⟨j, w, hj, h1, h2, h3⟩ | hall
    · exact Or.inl ⟨j, w, by omega, h1, h2, h3⟩
    · obtain ⟨w, hw⟩ := hread n (by omega)
      by_cases hv : (address_list_entry.addr w).address = INVALID_ADDRESS
      · refine Or.inr fun i hi => ?_
        by_cases hin : i = n
        · subst hin
          exact ⟨w, hw, hv⟩
        · exact hall i (by omega)
      · exact Or.inl ⟨n, w, by omega, hall, hw, hv⟩

/-- Claim C2. Result of `population_table_get_first_address`: in a state that
can be reached, when the search locates the entry `e` for the spike and the
filter does not reject the spike, the call returns the descriptor of the first
record whose address is not `INVALID_ADDRESS` among the slots
`[start + extra_info_flag, start + extra_info_flag + count)`, computed with the
neuron id that the call stores, and leaves the cursor just behind that record;
it returns false, counting a ghost search, when every record of that range is
invalid; and one of the two is the case. The extra info slot `start` is not
among the slots decoded as address records and `items_to_go` counts address
records only. -/
theorem get_first_address_result (hw : Nat) (s : State) (spike ra nb p : Nat)
    (e : master_population_table_entry) (x : Nat)
    (hreach : reachable hw s)
    (hfind : population_table_position_in_the_master_pop_array s spike = some (some p))
    (he : s.master_population_table[p]? = some e)
    (hx : e.extra_info_flag = true → s.address_list[e.start]? = some x)
    (hfilter : filter_rejects { s with last_neuron_id := cursor_neuron_id e x spike } p
      = some false) :
    (∀ j w, j < e.count →
      (∀ i, i < j → ∃ v, s.address_list[e.start + extra_slots e + i]? = some v ∧
        (address_list_entry.addr v).address = INVALID_ADDRESS) →
      s.address_list[e.start + extra_slots e + j]? = some w →
      (address_list_entry.addr w).address ≠ INVALID_ADDRESS →
      population_table_get_first_address hw s spike ra nb =
        some (true,
          { s with
            last_spike := spike
            last_neuron_id := cursor_neuron_id e x spike
            next_item := (e.start + extra_slots e + j + 1) % 65536
            items_to_go := e.count - (j + 1) },
          (spec_descriptor hw s.direct_rows_base_address s.synaptic_rows_base_address
            (cursor_neuron_id e x spike) (address_list_entry.addr w)).1,
          (spec_descriptor hw s.direct_rows_base_address s.synaptic_rows_base_address
            (cursor_neuron_id e x spike) (address_list_entry.addr w)).2)) ∧
    ((∀ i, i < e.count → ∃ v, s.address_list[e.start + extra_slots e + i]? = some v ∧
        (address_list_entry.addr v).address = INVALID_ADDRESS) →
      population_table_get_first_address hw s spike ra nb =
        some (false,
          { s with
            last_spike := spike
            last_neuron_id := cursor_neuron_id e x spike
            next_item := (e.start + extra_slots e + e.count) % 65536
            items_to_go := 0
            ghost_pop_table_searches := (s.ghost_pop_table_searches + 1) % 4294967296 },
          ra, nb)) ∧
    ((∃ (j : Nat) (w : Nat), j < e.count ∧
        (∀ i, i < j → ∃ v, s.address_list[e.start + extra_slots e + i]? = some v ∧
          (address_list_entry.addr v).address = INVALID_ADDRESS) ∧
        s.address_list[e.start + extra_slots e + j]? = some w ∧
        (address_list_entry.addr w).address ≠ INVALID_ADDRESS) ∨
      (∀ i, i < e.count → ∃ v, s.address_list[e.start + extra_slots e + i]? = some v ∧
        (address_list_entry.addr v).address = INVALID_ADDRESS)) := by
  obtain ⟨hbound, hread⟩ := reachable_loadable hw s hreach p e he
  obtain ⟨h1, h2⟩ := get_first_address_result_below_wrap hw s spike ra nb p e x hfind he hx
    (by omega) hfilter
  refine ⟨h1, h2, first_valid_or_all_invalid s.address_list (e.start + extra_slots e) e.count
    fun k hk => ?_⟩
  obtain ⟨w, hw⟩ := hread (extra_slots e + k) (by omega)
  rw [← Nat.add_assoc] at hw
  exact ⟨w, hw⟩

/-- Witness for claim C2: the end-to-end scenario of the specification, loaded
from `scenario_blob`. Spike `0x6` gets the descriptor of slot 0, and the next
call returns false. -/
theorem get_first_address_result_witness :
    reachable 3 scenario ∧
      population_table_get_first_address 3 scenario 0x6 0 0 =
        some (true,
          { scenario with last_spike := 0x6, last_neuron_id := 2, next_item := 1,
                          items_to_go := 1 },
          0x60000000 + (10 <<< 4) + 2 * (4 + 3) * 4, (3 + 1 + 3) * 4) ∧
      population_table_get_next_address 3
          { scenario with last_spike := 0x6, last_neuron_id := 2, next_item := 1,
                          items_to_go := 1 } no_outputs =
        some (false,
          { scenario with last_spike := 0x6, last_neuron_id := 2, next_item := 2,
                          items_to_go := 0 }, no_outputs) := by
  have hreach : reachable 3 scenario :=
    Or.inr ⟨initial_state, scenario_blob, 0x60000000, 0x70000000, true, true, scenario, 259,
      [], by decide, rfl⟩
  exact ⟨hreach,
    ((get_first_address_result 3 scenario 0x6 0 0 0
      { key := 0x4, mask := 0xFFFFFFFC, bits := pack_entry_bits 0 false 2 } 0
      hreach (by decide) (by decide) (by decide) (by decide)).1 0
      (pack_address_and_row_length 3 10 false) (by decide) (by decide) (by decide)
      (by decide)).trans (by decide),
    by decide⟩

/-- Claim C13. Ghost-search accounting: in a state that can be reached, a call
of `population_table_get_first_address` increments `ghost_pop_table_searches`,
by one as a `uint32_t`, if and only if the search locates an entry for the
spike, the filter does not reject it and the entry's slice holds no record that
is not a placeholder (also when `count` is 0); the call then returns false. -/
theorem ghost_search_accounting (hw : Nat) (s : State) (spike ra nb : Nat)
    (hreach : reachable hw s) :
    (ghost_condition s spike →
      ∃ s1, population_table_get_first_address hw s spike ra nb = some (false, s1, ra, nb) ∧
        s1.ghost_pop_table_searches = (s.ghost_pop_table_searches + 1) % 4294967296 ∧
        (s.ghost_pop_table_searches < 4294967295 →
          s1.ghost_pop_table_searches = s.ghost_pop_table_searches + 1)) ∧
    (∀ r s1 a b, population_table_get_first_address hw s spike ra nb = some (r, s1, a, b) →
      ¬ ghost_condition s spike →
      s1.ghost_pop_table_searches = s.ghost_pop_table_searches) :=
  ghost_search_accounting_below_wrap hw s spike ra nb fun p e _ he => by
    have := (reachable_loadable hw s hreach p e he).1
    omega

/-- Witness for claim C13: `three_placeholders` and `placeholder_first` are
loaded from their blobs; the spike `0x6` whose slice is three placeholders is
counted as one ghost search; with the slice `[INVALID, valid_record]` the call
returns true and counts none. -/
theorem ghost_search_accounting_witness :
    reachable 3 three_placeholders ∧ reachable 3 placeholder_first ∧
    (∃ s1, population_table_get_first_address 3 three_placeholders 0x6 0 0
        = some (false, s1, 0, 0) ∧
      s1.ghost_pop_table_searches = three_placeholders.ghost_pop_table_searches + 1) ∧
    ∃ s1 a b, population_table_get_first_address 3 placeholder_first 0x6 0 0
        = some (true, s1, a, b) ∧
      s1.ghost_pop_table_searches = placeholder_first.ghost_pop_table_searches := by
  have hreach : reachable 3 three_placeholders :=
    Or.inr ⟨initial_state, three_placeholders_blob, 0x60000000, 0x70000000, true, true,
      three_placeholders, 259, [], by decide, rfl⟩
  have hreach2 : reachable 3 placeholder_first :=
    Or.inr ⟨initial_state, placeholder_first_blob, 0x60000000, 0x70000000, true, true,
      placeholder_first, 259, [], by decide, rfl⟩
  have hcond : ghost_condition three_placeholders 0x6 := by
    refine ⟨0, { key := 0x4, mask := 0xFFFFFFFC, bits := pack_entry_bits 0 false 3 }, 0,
      by decide, rfl, by decide, rfl, ?_⟩
    intro i hi
    have hi3 : i < 3 := hi
    match i, hi3 with
    | 0, _ => exact ⟨_, rfl, by decide⟩
    | 1, _ => exact ⟨_, rfl, by decide⟩
    | 2, _ => exact ⟨_, rfl, by decide⟩
  have hget : population_table_get_first_address 3 placeholder_first 0x6 0 0 =
      some (true,
        { placeholder_first with
          last_spike := 0x6
          last_neuron_id := 2
          next_item := 2
          items_to_go := 0 },
        0x60000000 + (10 <<< 4) + 2 * (3 + 1 + 3) * 4, (3 + 1 + 3) * 4) := by decide
  have hnot : ¬ ghost_condition placeholder_first 0x6 := by
    rintro ⟨p, e, x, hfind, he, -, -, hinv⟩
    have h0 : population_table_position_in_the_master_pop_array placeholder_first 0x6
        = some (some 0) := by decide
    rw [h0] at hfind
    have hp : p = 0 := (Option.some.inj (Option.some.inj hfind)).symm
    subst hp
    have he2 : e = { key := 0x4, mask := 0xFFFFFFFC, bits := pack_entry_bits 0 false 2 } :=
      (Option.some.inj he).symm
    subst he2
    obtain ⟨v, hv, hvi⟩ := hinv 1 (by decide)
    have hv2 : v = pack_address_and_row_length 3 10 false := (Option.some.inj hv).symm
    subst hv2
    exact absurd hvi (by decide)
  obtain ⟨s1, h1, _, h3⟩ := (ghost_search_accounting 3 three_placeholders 0x6 0 0 hreach).1 hcond
  exact ⟨hreach, hreach2, ⟨s1, h1, h3 (by decide)⟩, _, _, _, hget,
    (ghost_search_accounting 3 placeholder_first 0x6 0 0 hreach2).2 _ _ _ _ hget hnot⟩

end PopulationTable

namespace NeuronRecording

/-! ## Lemmas on the loops of reset_record_counter -/

theorem reset_recording_loop_spec (n : Nat) (hn : n < 4294967296) :
    ∀ (fuel i : Nat) (info : List recording_info_t), i ≤ n → n - i < fuel → n ≤ info.length →
      ∃ info1, reset_recording_loop n fuel i info = some info1 ∧
        ∀ j, (i ≤ j ∧ j < n → ∃ r, info[j]? = some r ∧ info1[j]? = some (reset_recording_info r)) ∧
          (¬ (i ≤ j ∧ j < n) → info1[j]? = info[j]?) := by
  intro fuel
  induction fuel with
  | zero => intro i info _ h _; omega
  | succ k ih =>
    intro i info hi hfuel hlen
    simp only [reset_recording_loop]
    split
    · rename_i hlt
      have hil : i < info.length := by omega
      rw [List.getElem?_eq_getElem hil]
      simp only []
      rw [Nat.mod_eq_of_lt (by omega : i + 1 < 4294967296)]
      obtain ⟨info1, h1, h2⟩ := ih (i + 1) (info.set i (reset_recording_info info[i]))
        (by omega) (by omega) (by rw [List.length_set]; exact hlen)
      refine ⟨info1, h1, fun j => ⟨fun hj => ?_, fun hj => ?_⟩⟩
      · by_cases hji : j = i
        · subst hji
          refine ⟨info[j], List.getElem?_eq_getElem hil, ?_⟩
          rw [(h2 j).2 (by omega)]
          exact List.getElem?_set_self hil
        · obtain ⟨r, hr, hr1⟩ := (h2 j).1 (by omega)
          rw [List.getElem?_set_ne (by omega)] at hr
          exact ⟨r, hr, hr1⟩
      · rw [(h2 j).2 (by omega)]
        exact List.getElem?_set_ne (by omega)
    · rename_i hge
      exact ⟨info, rfl, fun j => ⟨fun hj => by omega, fun _ => rfl⟩⟩

theorem reset_bitfield_loop_spec (n : Nat) (hn : n < 4294967296) :
    ∀ (fuel i : Nat) (info : List bitfield_info_t), i ≤ n → n - i < fuel → n ≤ info.length →
      (∀ j b, i ≤ j → j < n → info[j]? = some b → ∃ b1, reset_bitfield_info b = some b1) →
      ∃ info1, reset_bitfield_loop n fuel i info = some info1 ∧
        ∀ j, (i ≤ j ∧ j < n → ∃ b, info[j]? = some b ∧
            info1[j]? = reset_bitfield_info b) ∧
          (¬ (i ≤ j ∧ j < n) → info1[j]? = info[j]?) := by
  intro fuel
  induction fuel with
  | zero => intro i info _ h _ _; omega
  | succ k ih =>
    intro i info hi hfuel hlen hbody
    simp only [reset_bitfield_loop]
    split
    · rename_i hlt
      have hil : i < info.length := by omega
      obtain ⟨b1, hb1⟩ := hbody i info[i] (Nat.le_refl _) hlt (List.getElem?_eq_getElem hil)
      rw [List.getElem?_eq_getElem hil]
      simp only [hb1]
      rw [Nat.mod_eq_of_lt (by omega : i + 1 < 4294967296)]
      obtain ⟨info1, h1, h2⟩ := ih (i + 1) (info.set i b1)
        (by omega) (by omega) (by rw [List.length_set]; exact hlen)
        (fun j b hj1 hj2 hjb => hbody j b (by omega) hj2
          (by rw [List.getElem?_set_ne (by omega)] at hjb; exact hjb))
      refine ⟨info1, h1, fun j => ⟨fun hj => ?_, fun hj => ?_⟩⟩
      · by_cases hji : j = i
        · subst hji
          refine ⟨info[j], List.getElem?_eq_getElem hil, ?_⟩
          rw [(h2 j).2 (by omega), hb1]
          exact List.getElem?_set_self hil
        · obtain ⟨r, hr, hr1⟩ := (h2 j).1 (by omega)
          rw [List.getElem?_set_ne (by omega)] at hr
          exact ⟨r, hr, hr1⟩
      · rw [(h2 j).2 (by omega)]
        exact List.getElem?_set_ne (by omega)
    · rename_i hge
      exact ⟨info, rfl, fun j => ⟨fun hj => by omega, fun _ => rfl⟩⟩

theorem count_after_zero_increment : ∀ (n count : Nat), count < 4294967296 →
    count_after 0 n count = count := by
  intro n
  induction n with
  | zero => intro count _; rfl
  | succ k ih =>
    intro count h
    simp only [count_after, Nat.add_zero, Nat.mod_eq_of_lt h]
    exact ih count h

theorem reset_recording_info_spec (r : recording_info_t) :
    (reset_recording_info r).rate = r.rate ∧
    (r.rate = 0 → (reset_recording_info r).increment = 0 ∧ (reset_recording_info r).count = 1) ∧
    (r.rate ≠ 0 → (reset_recording_info r).increment = 1 ∧
      (reset_recording_info r).count = (reset_recording_info r).rate) := by
  unfold reset_recording_info
  by_cases h : r.rate = 0
  · rw [if_pos h]
    exact ⟨rfl, fun _ => ⟨rfl, rfl⟩, fun h1 => absurd h h1⟩
  · rw [if_neg h]
    exact ⟨rfl, fun h1 => absurd h1 h, fun _ => ⟨rfl, rfl⟩⟩

theorem reset_bitfield_info_spec (b b1 : bitfield_info_t) (h : reset_bitfield_info b = some b1) :
    b1.rate = b.rate ∧
    (b.rate = 0 → b1.increment = 0 ∧ b1.count = 1) ∧
    (b.rate ≠ 0 → b1.increment = 1 ∧ b1.count = b1.rate) := by
  unfold reset_bitfield_info at h
  split at h
  · rename_i h0
    simp only [Option.some.injEq] at h
    rw [← h]
    exact ⟨rfl, fun _ => ⟨rfl, rfl⟩, fun h1 => absurd h0 h1⟩
  · rename_i h0
    split at h
    · simp at h
    · split at h
      · simp at h
      · simp only [Option.some.injEq] at h
        rw [← h]
        exact ⟨rfl, fun h1 => absurd h1 h0, fun _ => ⟨rfl, rfl⟩⟩

theorem reset_bitfield_info_total (b : bitfield_info_t)
    (h : b.rate ≠ 0 → ∃ v, b.values = some v ∧ b.n_words ≤ v.bits.length) :
    ∃ b1, reset_bitfield_info b = some b1 := by
  unfold reset_bitfield_info
  by_cases h0 : b.rate = 0
  · rw [if_pos h0]
    exact ⟨_, rfl⟩
  · obtain ⟨v, hv, hlen⟩ := h h0
    rw [if_neg h0, hv]
    simp only [clear_bit_field, if_pos hlen]
    exact ⟨_, rfl⟩

/-- Claim C25. Recording rate gating after the reset: when the counts are
`uint32_t` values within the arrays, and every bit field variable with a rate
other than 0 has its buffer of at least `n_words` words, `reset_record_counter`
returns, and for every recorded variable and every bit field variable `i` the
rate is what it was and: if the rate is 0, then `increment = 0` and `count = 1`,
so that `count` differs from `rate` after any number of `count += increment`; if
the rate is not 0, then `increment = 1` and `count = rate`, the condition for
recording at time zero. -/
theorem reset_gates_recording (s : State)
    (hn : s.n_recorded_vars < 4294967296) (hb : s.n_bitfield_vars < 4294967296)
    (hrec : s.n_recorded_vars ≤ s.recording_info.length)
    (hbit : s.n_bitfield_vars ≤ s.bitfield_info.length)
    (hvalues : ∀ (i : Nat) (b : bitfield_info_t), i < s.n_bitfield_vars →
      s.bitfield_info[i]? = some b → b.rate ≠ 0 →
      ∃ v, b.values = some v ∧ b.n_words ≤ v.bits.length) :
    ∃ s1, reset_record_counter s = some s1 ∧
      (∀ i, i < s.n_recorded_vars →
        ∃ r r1, s.recording_info[i]? = some r ∧ s1.recording_info[i]? = some r1 ∧
          r1.rate = r.rate ∧
          (r.rate = 0 → r1.increment = 0 ∧ r1.count = 1 ∧
            ∀ n, count_after r1.increment n r1.count ≠ r1.rate) ∧
          (r.rate ≠ 0 → r1.increment = 1 ∧ r1.count = r1.rate)) ∧
      (∀ i, i < s.n_bitfield_vars →
        ∃ b b1, s.bitfield_info[i]? = some b ∧ s1.bitfield_info[i]? = some b1 ∧
          b1.rate = b.rate ∧
          (b.rate = 0 → b1.increment = 0 ∧ b1.count = 1 ∧
            ∀ n, count_after b1.increment n b1.count ≠ b1.rate) ∧
          (b.rate ≠ 0 → b1.increment = 1 ∧ b1.count = b1.rate)) := by
  obtain ⟨rec1, hrec1, hrecs⟩ := reset_recording_loop_spec s.n_recorded_vars hn
    (s.n_recorded_vars + 1) 0 s.recording_info (Nat.zero_le _) (by omega) hrec
  obtain ⟨bit1, hbit1, hbits⟩ := reset_bitfield_loop_spec s.n_bitfield_vars hb
    (s.n_bitfield_vars + 1) 0 s.bitfield_info (Nat.zero_le _) (by omega) hbit
    (fun j b _ hj hjb => reset_bitfield_info_total b (hvalues j b hj hjb))
  refine ⟨{ s with recording_info := rec1, bitfield_info := bit1 }, ?_, ?_, ?_⟩
  · unfold reset_record_counter
    rw [hrec1, hbit1]
  · intro i hi
    obtain ⟨r, hr, hr1⟩ := (hrecs i).1 ⟨Nat.zero_le _, hi⟩
    obtain ⟨h1, h2, h3⟩ := reset_recording_info_spec r
    refine ⟨r, reset_recording_info r, hr, hr1, h1, fun h0 => ?_, h3⟩
    obtain ⟨h4, h5⟩ := h2 h0
    refine ⟨h4, h5, fun n => ?_⟩
    rw [h4, h5, count_after_zero_increment n 1 (by decide), h1, h0]
    decide
  · intro i hi
    obtain ⟨b, hb0, hb1⟩ := (hbits i).1 ⟨Nat.zero_le _, hi⟩
    obtain ⟨b1, hb1eq⟩ := reset_bitfield_info_total b (hvalues i b hi hb0)
    rw [hb1eq] at hb1
    obtain ⟨h1, h2, h3⟩ := reset_bitfield_info_spec b b1 hb1eq
    refine ⟨b, b1, hb0, hb1, h1, fun h0 => ?_, h3⟩
    obtain ⟨h4, h5⟩ := h2 h0
    refine ⟨h4, h5, fun n => ?_⟩
    rw [h4, h5, count_after_zero_increment n 1 (by decide), h1, h0]
    decide

/-- Witness for claim C25: on `two_variables` the reset returns; the variable
with rate 0 gets `increment = 0` and `count = 1`, the variable with rate 3 gets
`increment = 1` and `count = 3`, and the bit field variable with rate 2 gets
`increment = 1`, `count = 2` and a cleared bit field. -/
theorem reset_gates_recording_witness :
    reset_record_counter two_variables =
        some { two_variables with
          recording_info :=
            [{ element_size := 4, rate := 0, count := 1, increment := 0, size := 12,
               values := none },
             { element_size := 4, rate := 3, count := 3, increment := 1, size := 12,
               values := some { time := 0, data := [1, 2] } }]
          bitfield_info :=
            [{ rate := 2, count := 2, increment := 1, size := 8, n_words := 1,
               values := some { time := 0, bits := [0] } }] } ∧
    ∃ s1, reset_record_counter two_variables = some s1 ∧
      ∃ r1, s1.recording_info[0]? = some r1 ∧ r1.rate = 0 ∧ r1.increment = 0 ∧ r1.count = 1 ∧
        ∀ n, count_after r1.increment n r1.count ≠ r1.rate := by
  refine ⟨by decide, ?_⟩
  obtain ⟨s1, hs1, hrecs, -⟩ := reset_gates_recording two_variables (by decide) (by decide)
    (by decide) (by decide) (by
      intro i b hi hb hrate
      have hi0 : i = 0 := by
        have : i < 1 := hi
        omega
      subst hi0
      simp only [two_variables, List.getElem?_cons_zero, Option.some.injEq] at hb
      subst hb
      exact ⟨_, rfl, by decide⟩)
  obtain ⟨r, r1, hr, hr1, hrate, h0, -⟩ := hrecs 0 (by decide)
  have hr2 : r.rate = 0 := by
    simp only [two_variables, List.getElem?_cons_zero, Option.some.injEq] at hr
    rw [← hr]
  obtain ⟨h4, h5, h6⟩ := h0 hr2
  exact ⟨s1, hs1, r1, hr1, hrate.trans hr2, h4, h5, h6⟩

end NeuronRecording
